import Mathlib

/-! # trackDashboard: ingestion and reconciliation pipeline

A shallow embedding of `src/utils/mapFields.js`, `src/utils/excelParser.js` and
`src/controllers/uploadController.js`, followed by theorems about it.

Modelling conventions.

* A JavaScript number is `JSNum`: `NaN`, one of the two infinities, or a finite
  double.  Every finite double is an integer multiple of `2^-1074`, and `JSNum.fin u`
  is the double `u * 2^-1074`.  Arithmetic is exact integer arithmetic on these
  units followed by rounding to the nearest double, ties to even, with overflow to
  an infinity.  The two zeros are one value, as they are for `===`; nothing in
  the program divides or tests the sign of a zero.
* A cell of a raw row is any value the two decoders deliver: csv-parser delivers
  strings, `sheet_to_json` delivers strings, numbers, booleans and `Date` objects.
* The text fields of a mapped record are held as the strings MongoDB stores and
  queries for them: both schemas declare these paths as `String`, and mongoose
  casts a value written to or queried on such a path with `toString()`.
* MongoDB collections are lists of documents in natural order.  `findOne` and
  `updateOne` act on the first document matching the filter, an upsert that finds
  no match appends a new document with a fresh `_id`.  Timestamps and the
  stripping of paths that the schema does not declare are not modelled.
* Every store call may reject.  `Faults` says for the k-th call of a run whether
  it does; a rejected call changes nothing in the store.
-/

namespace TrackDashboard

/-! ## JavaScript numbers -/

/-- A JavaScript number: `NaN`, an infinity with its sign, or the finite double
`units * 2^-1074`. -/
inductive JSNum where
  | nan
  | inf (negative : Bool)
  | fin (units : Int)
  deriving DecidableEq, Repr

/-- The number of units of `2^-1074` in the number one: `2^1074`. -/
def JSNum.scale : Nat := 1 <<< 1074

/-- The number of binary digits of `n`, counted with `fuel` halvings. -/
def bitLengthAux : Nat → Nat → Nat
  | 0, _ => 0
  | fuel + 1, n => if n = 0 then 0 else bitLengthAux fuel (n / 2) + 1

/-- The number of binary digits of `n`: 0 for 0, and `k + 1` when
`2^k ≤ n < 2^(k+1)`. -/
def bitLength (n : Nat) : Nat := bitLengthAux n n

/-- The integer nearest to `n / d`, the even one of the two on a tie. -/
def roundHalfEven (n d : Nat) : Nat :=
  if 2 * (n % d) < d then n / d
  else if d < 2 * (n % d) then n / d + 1
  else if n / d % 2 = 0 then n / d else n / d + 1

/-- The magnitude `n / d`, in units of `2^-1074`, rounded to the nearest
magnitude of a double with unbounded exponent: below `2^53` units the doubles are
one unit apart, and a magnitude of `53 + s` binary digits is rounded to the
nearest multiple of `2^s` units. -/
def roundUnits (n d : Nat) : Nat :=
  roundHalfEven n (d <<< (bitLength (n / d) - 53)) <<< (bitLength (n / d) - 53)

/-- The double nearest to the rational `n / d` units of `2^-1074`, with the given
sign; a magnitude that rounds to `2^1024` or more is an infinity. -/
def JSNum.ofRatio (negative : Bool) (n d : Nat) : JSNum :=
  if roundUnits n d < 1 <<< 2098 then
    .fin (if negative then -(roundUnits n d : Int) else (roundUnits n d : Int))
  else .inf negative

/-- The double nearest to `z` units of `2^-1074`. -/
def JSNum.ofUnits (z : Int) : JSNum :=
  JSNum.ofRatio (decide (z < 0)) z.natAbs 1

/-- The double nearest to the integer `z`; it is `z` itself up to `2^53`. -/
def JSNum.ofInt (z : Int) : JSNum :=
  JSNum.ofUnits (z * JSNum.scale)

/-- Whether a number is a value of the double format: `NaN`, an infinity, or a
finite magnitude below `2^1024` with at most 53 significant binary digits. -/
def JSNum.isDouble : JSNum → Bool
  | .fin u =>
    u.natAbs % (1 <<< (bitLength u.natAbs - 53)) == 0 && decide (u.natAbs < 1 <<< 2098)
  | _ => true

/-- Truthiness of a number: `NaN` and `0` are falsy. -/
def JSNum.truthy : JSNum → Bool
  | .nan => false
  | .inf _ => true
  | .fin u => u != 0

/-- The expression `n || 0` on numbers. -/
def JSNum.orZero (n : JSNum) : JSNum :=
  if n.truthy then n else .fin 0

/-- The expression `a - b` on numbers. -/
def JSNum.sub : JSNum → JSNum → JSNum
  | .fin a, .fin b => .ofUnits (a - b)
  | .fin _, .inf t => .inf (!t)
  | .inf s, .fin _ => .inf s
  | .inf s, .inf t => if s = t then .nan else .inf s
  | _, _ => .nan

/-- The expression `a + b` on numbers. -/
def JSNum.add : JSNum → JSNum → JSNum
  | .fin a, .fin b => .ofUnits (a + b)
  | .fin _, .inf t => .inf t
  | .inf s, .fin _ => .inf s
  | .inf s, .inf t => if s = t then .inf s else .nan
  | _, _ => .nan

/-- The comparison `a <= b` on numbers; false when either side is `NaN`. -/
def JSNum.le : JSNum → JSNum → Bool
  | .nan, _ => false
  | _, .nan => false
  | .fin a, .fin b => decide (a ≤ b)
  | .inf s, .inf t => s || !t
  | .inf s, .fin _ => s
  | .fin _, .inf t => !t

/-- The comparison `a < b` on numbers; false when either side is `NaN`. -/
def JSNum.lt : JSNum → JSNum → Bool
  | .nan, _ => false
  | _, .nan => false
  | .fin a, .fin b => decide (a < b)
  | .inf s, .inf t => s && !t
  | .inf s, .fin _ => s
  | .fin _, .inf t => !t

/-- The test `isNaN(n)` on a number. -/
def JSNum.isNaN : JSNum → Bool
  | .nan => true
  | _ => false

/-! ## Numbers and strings -/

/-- White space skipped by `Number` around a numeric string. -/
def isJSSpace (c : Char) : Bool :=
  c.toNat == 32 || c.toNat == 9 || c.toNat == 10 || c.toNat == 11 ||
  c.toNat == 12 || c.toNat == 13 || c.toNat == 160 || c.toNat == 5760 ||
  (8192 ≤ c.toNat && c.toNat ≤ 8202) || c.toNat == 8232 || c.toNat == 8233 ||
  c.toNat == 8239 || c.toNat == 8287 || c.toNat == 12288 || c.toNat == 65279

/-- Drops leading and trailing white space. -/
def trimChars (cs : List Char) : List Char :=
  ((cs.dropWhile isJSSpace).reverse.dropWhile isJSSpace).reverse

/-- The value of a character as a digit, letters counting from ten. -/
def digitValue (c : Char) : Option Nat :=
  if 48 ≤ c.toNat && c.toNat ≤ 57 then some (c.toNat - 48)
  else if 97 ≤ c.toNat && c.toNat ≤ 122 then some (c.toNat - 87)
  else if 65 ≤ c.toNat && c.toNat ≤ 90 then some (c.toNat - 55)
  else none

/-- Value of a run of digits in the given radix after the digits read so far,
`none` if a character is not a digit of the radix. -/
def digitsValue (radix : Nat) : List Char → Nat → Option Nat
  | [], acc => some acc
  | c :: cs, acc =>
    match digitValue c with
    | some v => if v < radix then digitsValue radix cs (radix * acc + v) else none
    | none => none

/-- Value of a non-empty run of digits in the given radix. -/
def digitRun (radix : Nat) (cs : List Char) : Option Nat :=
  if cs.isEmpty then none else digitsValue radix cs 0

/-- The exponent after `e` or `E`: decimal digits with an optional sign. -/
def signedInteger : List Char → Option Int
  | '+' :: ds => (digitRun 10 ds).map Int.ofNat
  | '-' :: ds => (digitRun 10 ds).map fun n => -Int.ofNat n
  | ds => (digitRun 10 ds).map Int.ofNat

/-- An unsigned decimal literal other than `Infinity`: digits with an optional
point, at least one digit, and an optional exponent part.  The result `(m, e)`
stands for `m * 10^e`. -/
def unsignedDecimal (cs : List Char) : Option (Nat × Int) :=
  let isExp := fun c : Char => c == 'e' || c == 'E'
  let mantissa := cs.takeWhile fun c => !isExp c
  let exponentPart := cs.dropWhile fun c => !isExp c
  let intDigits := mantissa.takeWhile fun c => c != '.'
  let afterInt := mantissa.dropWhile fun c => c != '.'
  let fracDigits := afterInt.drop 1
  let exponent : Option Int :=
    match exponentPart with
    | [] => some 0
    | _ :: ds => signedInteger ds
  if intDigits.isEmpty && fracDigits.isEmpty then none
  else
    match digitsValue 10 (intDigits ++ fracDigits) 0, exponent with
    | some m, some e => some (m, e - fracDigits.length)
    | _, _ => none

/-- The double nearest to `m * 10^e`, with the given sign. -/
def JSNum.ofDecimal (negative : Bool) (m : Nat) (e : Int) : JSNum :=
  if 0 ≤ e then JSNum.ofRatio negative (m * 10 ^ e.toNat * JSNum.scale) 1
  else JSNum.ofRatio negative (m * JSNum.scale) (10 ^ (-e).toNat)

/-- An unsigned decimal literal, `Infinity` included, with the sign read before
it. -/
def decimalLiteral (negative : Bool) (cs : List Char) : JSNum :=
  if cs == "Infinity".toList then .inf negative
  else
    match unsignedDecimal cs with
    | some (m, e) => JSNum.ofDecimal negative m e
    | none => .nan

/-- The digits of a binary, octal or hexadecimal literal after its prefix. -/
def radixLiteral (radix : Nat) (cs : List Char) : JSNum :=
  match digitRun radix cs with
  | some v => JSNum.ofInt v
  | none => .nan

/-- `Number(s)` for a string: white space is trimmed; the empty string is `0`;
`0x`, `0o` and `0b` literals are read in their radix; otherwise the string is an
optionally signed decimal literal or `Infinity`; anything else is `NaN`. -/
def stringToNumber (s : String) : JSNum :=
  match trimChars s.toList with
  | [] => .fin 0
  | '0' :: 'x' :: ds => radixLiteral 16 ds
  | '0' :: 'X' :: ds => radixLiteral 16 ds
  | '0' :: 'o' :: ds => radixLiteral 8 ds
  | '0' :: 'O' :: ds => radixLiteral 8 ds
  | '0' :: 'b' :: ds => radixLiteral 2 ds
  | '0' :: 'B' :: ds => radixLiteral 2 ds
  | '+' :: cs => decimalLiteral false cs
  | '-' :: cs => decimalLiteral true cs
  | cs => decimalLiteral false cs

/-- Whether the decimal `s * 10^e` converts to the double of `u` units. -/
def roundTrips (u : Nat) (s : Nat) (e : Int) : Bool :=
  JSNum.ofDecimal false s e == .fin u

/-- The number `n` of decimal digits before the point of a positive double of
`u` units, searched upwards from `n`: the least `n` with `u * 2^-1074 < 10^n`. -/
def decimalExponentUp : Nat → Nat → Nat → Nat
  | 0, _, n => n
  | fuel + 1, u, n =>
    if u < 10 ^ n * JSNum.scale then n else decimalExponentUp fuel u (n + 1)

/-- For a positive double below one, the number of zeros after the point,
searched upwards from `z`: the least `z` with `10^-(z+1) ≤ u * 2^-1074`. -/
def leadingZeros : Nat → Nat → Nat → Nat
  | 0, _, z => z
  | fuel + 1, u, z =>
    if JSNum.scale ≤ u * 10 ^ (z + 1) then z else leadingZeros fuel u (z + 1)

/-- The exponent `n` of `Number::toString`: `10^(n-1) ≤ u * 2^-1074 < 10^n`. -/
def decimalExponent (u : Nat) : Int :=
  if JSNum.scale ≤ u then (decimalExponentUp 310 u 1 : Nat)
  else -(leadingZeros 330 u 0 : Nat)

/-- The digits `s` of `Number::toString` for a positive double of `u` units with
exponent `n`: for the least `k` from `k` on such that a decimal of `k` digits
converts to the double, the one of them nearest to it.  The result is `(s, n)`,
with `n` one higher when `s` was rounded up to a power of ten. -/
def shortestDigits : Nat → Nat → Int → Nat → Nat × Int
  | 0, u, n, k => (u * 10 ^ (k - n).toNat / JSNum.scale, n)
  | fuel + 1, u, n, k =>
    let e : Int := n - k
    let num := if 0 ≤ e then u else u * 10 ^ (-e).toNat
    let den := if 0 ≤ e then JSNum.scale * 10 ^ e.toNat else JSNum.scale
    let lo := num / den
    let hi := lo + 1
    let loOk := roundTrips u lo e
    let hiOk := roundTrips u hi e
    let pick : Option Nat :=
      if loOk && hiOk then
        if 2 * (num % den) < den then some lo
        else if den < 2 * (num % den) then some hi
        else if lo % 2 = 0 then some lo else some hi
      else if loOk then some lo
      else if hiOk then some hi
      else none
    match pick with
    | some s => if s = 10 ^ k then (10 ^ (k - 1), n + 1) else (s, n)
    | none => shortestDigits fuel u n (k + 1)

/-- The decimal digits of a natural number. -/
def natDigits (n : Nat) : List Char :=
  Nat.toDigits 10 n

/-- The string of `Number::toString` for digits `s` and exponent `n`. -/
def formatDigits (s : Nat) (n : Int) : List Char :=
  let digits := natDigits s
  let k : Int := digits.length
  if k ≤ n && n ≤ 21 then digits ++ List.replicate (n - k).toNat '0'
  else if 0 < n && n ≤ 21 then digits.take n.toNat ++ '.' :: digits.drop n.toNat
  else if -6 < n && n ≤ 0 then '0' :: '.' :: List.replicate (-n).toNat '0' ++ digits
  else
    let exponent := (if 0 < n - 1 then '+' else '-') :: natDigits (n - 1).natAbs
    match digits with
    | [] => []
    | [d] => d :: 'e' :: exponent
    | d :: ds => d :: '.' :: ds ++ 'e' :: exponent

/-- The string `String(n)` of a number, which is also `n.toString()`. -/
def JSNum.toString : JSNum → String
  | .nan => "NaN"
  | .inf negative => if negative then "-Infinity" else "Infinity"
  | .fin u =>
    if u = 0 then "0"
    else
      let digits := shortestDigits 17 u.natAbs (decimalExponent u.natAbs) 1
      let text := formatDigits digits.1 digits.2
      String.mk (if u < 0 then '-' :: text else text)


/-! ## JavaScript values -/

/-- The JavaScript values that occur in the pipeline.  A `Date`, which the
spreadsheet reader delivers for a date cell, is given by its time value, which
is what `Number` makes of it, and by the text of its `toString()`. -/
inductive JSVal where
  | undefined
  | null
  | bool (b : Bool)
  | num (n : JSNum)
  | str (s : String)
  | date (time : JSNum) (text : String)
  deriving DecidableEq, Repr

/-- A string where a value is expected is that string as a value. -/
instance : Coe String JSVal := ⟨JSVal.str⟩

/-- Truthiness of a value: `undefined`, `null`, `false`, `""`, `NaN` and `0` are
falsy, every object is truthy. -/
def JSVal.truthy : JSVal → Bool
  | .undefined => false
  | .null => false
  | .bool b => b
  | .num n => n.truthy
  | .str s => s != ""
  | .date _ _ => true

/-- The conversion `Number(x)`. -/
def toNumber : JSVal → JSNum
  | .undefined => .nan
  | .null => .fin 0
  | .bool b => if b then JSNum.ofInt 1 else .fin 0
  | .num n => n
  | .str s => stringToNumber s
  | .date time _ => time

/-- The string `String(x)` of a value, which for a value other than `undefined`
and `null` is also its `toString()`. -/
def JSVal.text : JSVal → String
  | .undefined => "undefined"
  | .null => "null"
  | .bool b => if b then "true" else "false"
  | .num n => n.toString
  | .str s => s
  | .date _ text => text

/-- The expression `x || d` where `d` is a string and `x` a cell of a row, as
the string that mongoose stores for it on a `String` path: a truthy cell is cast
with its `toString()`. -/
def JSVal.orStr (x : JSVal) (d : String) : String :=
  if x.truthy then x.text else d

/-! ## Raw rows and `mapFields` -/

/-- A raw row: column name and cell, in column order. -/
abbrev Row := List (String × JSVal)

/-- The property access `row[k]`. -/
def Row.get (row : Row) (k : String) : JSVal :=
  match row.lookup k with
  | some v => v
  | none => .undefined

/-- The standardized order object built by `mapFields`, with the `status` that
`processBatch` adds to it. -/
structure Mapped where
  poNumber : String
  soNumber : String
  orderNumber : String
  productCode : String
  partNumber : String
  size : String
  drawingNumber : String
  customerName : String
  customerCode : String
  lineItemNumber : String
  quantity : JSNum
  dispatchQuantity : JSNum
  pendingQuantity : JSNum
  grossWeight : JSNum
  chargeWeight : JSNum
  rate : JSNum
  soDate : String
  orderDate : String
  dispatchDate : String
  expectedDeliveryDate : String
  packSlipDate : String
  invoiceDate : String
  invoiceNumber : String
  truckNumber : String
  transport : String
  departmentRemark : String
  soSpecialRemark : String
  dieIndent : String
  raw : Row
  status : Option String
  deriving DecidableEq, Repr

/-- The function `mapFields` of `src/utils/mapFields.js`. -/
def mapFields (row : Row) : Mapped where
  poNumber := (row.get "Order No").orStr ((row.get "PO No").orStr "")
  soNumber := (row.get "S/O No").orStr ((row.get "SO No").orStr "")
  orderNumber := (row.get "Order No").orStr ""
  productCode := (row.get "Item Code").orStr ((row.get "Produce Code").orStr "")
  partNumber := (row.get "Style No").orStr ""
  size := (row.get "Size").orStr ""
  drawingNumber := (row.get "Drg.No").orStr ""
  customerName := (row.get "Buyer Name").orStr ((row.get "Party Name").orStr "")
  customerCode := (row.get "Cust Code").orStr ""
  lineItemNumber :=
    (row.get "PO Srl").orStr ((row.get "P Srl").orStr ((row.get "Line").orStr ""))
  quantity := (toNumber (row.get "Order Qty")).orZero
  dispatchQuantity := (toNumber (row.get "Sale Qty")).orZero
  pendingQuantity := (toNumber (row.get "O/S Ord.Qty")).orZero
  grossWeight := (toNumber (row.get "Gross Wt")).orZero
  chargeWeight := (toNumber (row.get "Chg.Wt")).orZero
  rate := (toNumber (row.get "Rate")).orZero
  soDate := (row.get "S/O Date").orStr ""
  orderDate := (row.get "Order Date").orStr ""
  dispatchDate := (row.get "Dispatch Date").orStr ""
  expectedDeliveryDate := (row.get "Delivery Date").orStr ""
  packSlipDate := (row.get "Pack Slip Dt").orStr ""
  invoiceDate := (row.get "Invoice Dt").orStr ""
  invoiceNumber := (row.get "Invoice No").orStr ""
  truckNumber := (row.get "Truck No").orStr ""
  transport := (row.get "Transport").orStr ""
  departmentRemark := (row.get "Dept.Remark").orStr ""
  soSpecialRemark := (row.get "SO SPL.Remark").orStr ""
  dieIndent := (row.get "DIE Indend").orStr ""
  raw := row
  status := none


/-! ## `cleanNum` and `getUniqueFilter` -/

/-- The function `cleanNum` of `src/controllers/uploadController.js`. -/
def cleanNum (n : JSVal) : JSNum :=
  if !n.truthy || n == .str "" || (toNumber n).isNaN then .fin 0 else toNumber n

/-- The fields a filter of this program can constrain. -/
inductive KeyField where
  | poNumber
  | productCode
  | soNumber
  | size
  | lineItemNumber
  | invoiceNumber
  deriving DecidableEq, Repr

/-- A query filter: field and required value, in insertion order. -/
abbrev Filter := List (KeyField × String)

/-- The property access `mapped[k]` for a key field. -/
def Mapped.key (m : Mapped) : KeyField → String
  | .poNumber => m.poNumber
  | .productCode => m.productCode
  | .soNumber => m.soNumber
  | .size => m.size
  | .lineItemNumber => m.lineItemNumber
  | .invoiceNumber => m.invoiceNumber

/-- The function `getUniqueFilter` of `src/controllers/uploadController.js`. -/
def getUniqueFilter (mapped : Mapped) (type : String) : Filter :=
  let filter : Filter :=
    [(.poNumber, mapped.poNumber), (.productCode, mapped.productCode),
     (.soNumber, mapped.soNumber), (.size, mapped.size)]
  let filter :=
    if (JSVal.str mapped.lineItemNumber).truthy then
      filter ++ [(.lineItemNumber, mapped.lineItemNumber)]
    else filter
  let filter :=
    if type == "DISPATCHED" && (JSVal.str mapped.invoiceNumber).truthy then
      filter ++ [(.invoiceNumber, mapped.invoiceNumber)]
    else filter
  filter

/-! ## The store -/

/-- A stored document: its `_id` and the fields written by `$set`. -/
structure Doc where
  id : Nat
  data : Mapped
  deriving DecidableEq, Repr

/-- Whether a document satisfies every equality of a filter. -/
def matchesFilter (filter : Filter) (d : Doc) : Bool :=
  filter.all fun kv => d.data.key kv.1 == kv.2

/-- Applies `f` to the first element satisfying `p`, if any. -/
def modifyFirst (p : Doc → Bool) (f : Doc → Doc) : List Doc → List Doc
  | [] => []
  | d :: ds => if p d then f d :: ds else d :: modifyFirst p f ds

/-- The two collections of the program. -/
inductive Collection where
  | Order
  | PendingOrder
  deriving DecidableEq, Repr

/-- The database: both collections in natural order, the next fresh `_id`, and
the number of store calls made so far. -/
structure DB where
  orders : List Doc
  pending : List Doc
  nextId : Nat
  calls : Nat
  deriving DecidableEq, Repr

/-- For each store call of a run, by its index, whether the store rejects it. -/
abbrev Faults := Nat → Bool

/-- The fault plan under which no store call rejects. -/
def noFaults : Faults := fun _ => false


/-- Errors thrown while handling an upload: a store call that rejects, a value
that mongoose cannot cast to the type of its path, and the use of a name that is
not bound. -/
inductive JSError where
  | storeRejected
  | castError (path : String)
  | referenceError (name : String)
  deriving DecidableEq, Repr

/-- The documents of a collection. -/
def DB.docs (db : DB) : Collection → List Doc
  | .Order => db.orders
  | .PendingOrder => db.pending

/-- Replaces the documents of a collection. -/
def DB.setDocs (db : DB) (c : Collection) (docs : List Doc) : DB :=
  match c with
  | .Order => { db with orders := docs }
  | .PendingOrder => { db with pending := docs }

/-- One `updateOne` entry of a bulk write. -/
structure UpdateOneOp where
  filter : Filter
  update : Mapped
  upsert : Bool
  deriving DecidableEq, Repr

/-- One `updateOne` with `$set`: the first matching document takes the fields of
`update`; without a match and with `upsert`, a new document is appended. -/
def applyUpdateOne (st : List Doc × Nat) (op : UpdateOneOp) : List Doc × Nat :=
  if st.1.any (matchesFilter op.filter) then
    (modifyFirst (matchesFilter op.filter) (fun d => { d with data := op.update }) st.1, st.2)
  else if op.upsert then
    (st.1 ++ [{ id := st.2, data := op.update }], st.2 + 1)
  else st

/-- The call `Collection.bulkWrite(operations)`: the operations in order. -/
def bulkWrite (F : Faults) (db : DB) (c : Collection) (operations : List UpdateOneOp) :
    DB × Except JSError Unit :=
  if F db.calls then
    ({ db with calls := db.calls + 1 }, .error .storeRejected)
  else
    let st := operations.foldl applyUpdateOne (db.docs c, db.nextId)
    ({ (db.setDocs c st.1) with nextId := st.2, calls := db.calls + 1 }, .ok ())

/-- The call `PendingOrder.findOne(filter)`. -/
def findOne (F : Faults) (db : DB) (filter : Filter) : DB × Except JSError (Option Doc) :=
  if F db.calls then
    ({ db with calls := db.calls + 1 }, .error .storeRejected)
  else
    ({ db with calls := db.calls + 1 }, .ok (db.pending.find? (matchesFilter filter)))

/-- The call `PendingOrder.deleteOne({ _id: id })`. -/
def deleteOne (F : Faults) (db : DB) (id : Nat) : DB × Except JSError Unit :=
  if F db.calls then
    ({ db with calls := db.calls + 1 }, .error .storeRejected)
  else
    ({ db with pending := db.pending.eraseP (fun d => d.id == id), calls := db.calls + 1 },
      .ok ())

/-- The update `{ $set: { pendingQuantity: q } }` on one document.  The schema
declares `pendingQuantity` as `Number`, and mongoose's cast to `Number` fails on
`NaN`: that update writes nothing. -/
def Doc.setPendingQuantity (q : JSNum) (d : Doc) : Doc :=
  if q.isNaN then d else { d with data := { d.data with pendingQuantity := q } }

/-- The call `PendingOrder.updateOne({ _id: id }, { $set: { pendingQuantity: q } })`.
Mongoose casts the update before it sends it: for `NaN` the call rejects with a
cast error and the store is not called. -/
def updateOne (F : Faults) (db : DB) (id : Nat) (q : JSNum) : DB × Except JSError Unit :=
  if q.isNaN then (db, .error (.castError "pendingQuantity"))
  else if F db.calls then
    ({ db with calls := db.calls + 1 }, .error .storeRejected)
  else
    ({ db with
        pending := modifyFirst (fun d => d.id == id) (Doc.setPendingQuantity q) db.pending,
        calls := db.calls + 1 },
      .ok ())

/-! ## `processBatch` -/

/-- What `processBatch` returns: the number `0` for an empty batch, otherwise the
object `{ inserted, reconciled }`. -/
inductive BatchReturn where
  | zero
  | counts (inserted reconciled : Nat)
  deriving DecidableEq, Repr

/-- The property access `result.inserted`. -/
def BatchReturn.inserted : BatchReturn → JSVal
  | .zero => .undefined
  | .counts i _ => .num (JSNum.ofInt i)

/-- The property access `result.reconciled`. -/
def BatchReturn.reconciled : BatchReturn → JSVal
  | .zero => .undefined
  | .counts _ r => .num (JSNum.ofInt r)

/-- The body of the first loop of `processBatch` up to the filter: the mapped row
with its status and its six numeric fields passed through `cleanNum`. -/
def canonical (row : Row) (statusType : String) : Mapped :=
  let mapped := mapFields row
  { mapped with
    status := some (if statusType == "PENDING" then "Pending" else "Dispatched")
    quantity := cleanNum (.num mapped.quantity)
    dispatchQuantity := cleanNum (.num mapped.dispatchQuantity)
    pendingQuantity := cleanNum (.num mapped.pendingQuantity)
    grossWeight := cleanNum (.num mapped.grossWeight)
    chargeWeight := cleanNum (.num mapped.chargeWeight)
    rate := cleanNum (.num mapped.rate) }

/-- The first loop of `processBatch`: one upsert per row. -/
def buildOperations (rows : List Row) (statusType : String) : List UpdateOneOp :=
  rows.map fun row =>
    let mapped := canonical row statusType
    { filter := getUniqueFilter mapped statusType, update := mapped, upsert := true }

/-- The body of the reconciliation loop of `processBatch` for one row. -/
def reconcileRow (F : Faults) (db : DB) (row : Row) (reconciledCount : Nat) :
    DB × Except JSError Nat :=
  let mapped := mapFields row
  let pendingMatch : Filter :=
    [(.poNumber, mapped.poNumber), (.productCode, mapped.productCode), (.size, mapped.size)]
  let shippedNow := (cleanNum (.num mapped.dispatchQuantity)).orZero
  match findOne F db pendingMatch with
  | (db1, .error e) => (db1, .error e)
  | (db1, .ok none) => (db1, .ok reconciledCount)
  | (db1, .ok (some pendingItem)) =>
    let newPendingQty := pendingItem.data.pendingQuantity.orZero.sub shippedNow
    if newPendingQty.le (.fin 0) then
      match deleteOne F db1 pendingItem.id with
      | (db2, .error e) => (db2, .error e)
      | (db2, .ok _) => (db2, .ok (reconciledCount + 1))
    else
      match updateOne F db1 pendingItem.id newPendingQty with
      | (db2, .error e) => (db2, .error e)
      | (db2, .ok _) => (db2, .ok reconciledCount)

/-- The reconciliation loop of `processBatch`: rows in order, stopping at the
first rejected store call. -/
def reconcile (F : Faults) (db : DB) : List Row → Nat → DB × Except JSError Nat
  | [], reconciledCount => (db, .ok reconciledCount)
  | row :: rest, reconciledCount =>
    match reconcileRow F db row reconciledCount with
    | (db1, .error e) => (db1, .error e)
    | (db1, .ok n) => reconcile F db1 rest n

/-- The function `processBatch` of `src/controllers/uploadController.js`. -/
def processBatch (F : Faults) (db : DB) (rows : List Row) (statusType : String) :
    DB × Except JSError BatchReturn :=
  if rows.length == 0 then (db, .ok .zero)
  else
    let operations := buildOperations rows statusType
    let collection := if statusType == "PENDING" then Collection.PendingOrder else Collection.Order
    let written :=
      if operations.length > 0 then bulkWrite F db collection operations else (db, .ok ())
    match written with
    | (db1, .error e) => (db1, .error e)
    | (db1, .ok _) =>
      if statusType == "DISPATCHED" then
        match reconcile F db1 rows 0 with
        | (db2, .error e) => (db2, .error e)
        | (db2, .ok reconciledCount) => (db2, .ok (.counts operations.length reconciledCount))
      else (db1, .ok (.counts operations.length 0))


/-! ## Reconciliation without the store interface

The effect of the reconciliation loop on the documents of `PendingOrder` when no
store call rejects, as functions on the document list.  `reconcileRow_spec` and
`reconcile_spec` relate them to the code above. -/

/-- The filter `pendingMatch` built in the reconciliation loop. -/
def pendingMatch (row : Row) : Filter :=
  let mapped := mapFields row
  [(.poNumber, mapped.poNumber), (.productCode, mapped.productCode), (.size, mapped.size)]

/-- The quantity `shippedNow` computed in the reconciliation loop. -/
def shippedNow (row : Row) : JSNum :=
  (cleanNum (.num (mapFields row).dispatchQuantity)).orZero

/-- Documents of `PendingOrder` after reconciling one row, and whether the row
was counted as reconciled (1) or not (0). -/
def reconcileDocs (pending : List Doc) (row : Row) : List Doc × Nat :=
  match pending.find? (matchesFilter (pendingMatch row)) with
  | none => (pending, 0)
  | some pendingItem =>
    let newPendingQty := pendingItem.data.pendingQuantity.orZero.sub (shippedNow row)
    if newPendingQty.le (.fin 0) then
      (pending.eraseP (fun d => d.id == pendingItem.id), 1)
    else
      (modifyFirst (fun d => d.id == pendingItem.id) (Doc.setPendingQuantity newPendingQty)
        pending, 0)

/-- Whether reconciling the row ends in a cast error: a record matches and the
new pending quantity is `NaN`. -/
def castFails (pending : List Doc) (row : Row) : Bool :=
  match pending.find? (matchesFilter (pendingMatch row)) with
  | none => false
  | some pendingItem => (pendingItem.data.pendingQuantity.orZero.sub (shippedNow row)).isNaN

/-- Documents of `PendingOrder` after reconciling the rows in order, up to the
first row that ends in a cast error, and the number of rows counted as
reconciled. -/
def reconcileAll (pending : List Doc) : List Row → List Doc × Nat
  | [] => (pending, 0)
  | row :: rest =>
    if castFails pending row then (pending, 0)
    else
      let step := reconcileDocs pending row
      let tail := reconcileAll step.1 rest
      (tail.1, step.2 + tail.2)

/-- Whether reconciling the rows in order ends in a cast error. -/
def castFailsIn (pending : List Doc) : List Row → Bool
  | [] => false
  | row :: rest => castFails pending row || castFailsIn (reconcileDocs pending row).1 rest

/-- The number of store calls made while reconciling the rows in order, up to
the first row that ends in a cast error: a `findOne` for each row, and a
`deleteOne` or `updateOne` for each row that has a matching record. -/
def reconcileCalls (pending : List Doc) : List Row → Nat
  | [] => 0
  | row :: rest =>
    if castFails pending row then 1
    else
      (if (pending.find? (matchesFilter (pendingMatch row))).isSome then 2 else 1) +
        reconcileCalls (reconcileDocs pending row).1 rest

/-- Documents and next fresh `_id` of the target collection after the bulk write
of a batch. -/
def bulkDocs (docs : List Doc) (nextId : Nat) (rows : List Row) (statusType : String) :
    List Doc × Nat :=
  (buildOperations rows statusType).foldl applyUpdateOne (docs, nextId)

/-- The collection `processBatch` writes the batch to. -/
def targetOf (statusType : String) : Collection :=
  if statusType == "PENDING" then .PendingOrder else .Order


/-! ## `parseExcel` -/

/-- What the spreadsheet reader returns: the sheet names in workbook order and,
per sheet name, the rows `sheet_to_json` decodes from it. -/
structure Workbook where
  SheetNames : List String
  Sheets : List (String × List Row)
  deriving DecidableEq, Repr

/-- The test `s.includes(t)` on character lists. -/
def includesChars (t : List Char) : List Char → Bool
  | [] => t.isEmpty
  | c :: cs => t.isPrefixOf (c :: cs) || includesChars t cs

/-- The string `s.toLowerCase()` as characters.  Only ASCII letters are lowered,
which agrees with JavaScript on whether the result contains `out`. -/
def lowerChars (s : String) : List Char :=
  s.toList.map Char.toLower

/-- Replaces each run of white space by one space; `inRun` says that the previous
character was white space. -/
def collapseSpaces : List Char → Bool → List Char
  | [], _ => []
  | c :: cs, inRun =>
    if isJSSpace c then
      if inRun then collapseSpaces cs true else ' ' :: collapseSpaces cs true
    else c :: collapseSpaces cs false

/-- The key normalisation `k.trim().replace(/\s+/g, " ")`. -/
def cleanKey (k : String) : String :=
  String.mk (collapseSpaces (trimChars k.toList) false)

/-- The assignment `row[k] = v`: an existing key keeps its place. -/
def Row.set : Row → String → JSVal → Row
  | [], k, v => [(k, v)]
  | (k', v') :: rest, k, v =>
    if k' == k then (k', v) :: rest else (k', v') :: Row.set rest k v

/-- The loop `for (let k in row) cleaned[clean(k)] = row[k]`. -/
def cleanRow (row : Row) : Row :=
  row.foldl (fun cleaned kv => Row.set cleaned (cleanKey kv.1) kv.2) []

/-- The sheet name chosen by `parseExcel`: the first name containing `out` in
lower case, or else the first name; `none` stands for `undefined`. -/
def selectSheet (sheetNames : List String) : Option String :=
  match sheetNames.find? (fun n => includesChars "out".toList (lowerChars n)) with
  | some n => some n
  | none => sheetNames.head?

/-- The function `parseExcel` of `src/utils/excelParser.js` on the workbook read
from the file. -/
def parseExcel (workbook : Workbook) : List Row :=
  let rows : List Row :=
    match selectSheet workbook.SheetNames with
    | some sheetName => (workbook.Sheets.lookup sheetName).getD []
    | none => []
  rows.map cleanRow

/-! ## `uploadFile` -/

/-- The uploaded file of a request: its name and path, the rows the CSV decoder
emits for it and the workbook the spreadsheet reader returns for it. -/
structure UploadedFile where
  originalname : String
  path : String
  csvRows : List Row
  workbook : Workbook
  deriving DecidableEq, Repr

/-- An HTTP response: status code and the JSON object sent. -/
structure Response where
  status : Nat
  body : List (String × JSVal)
  deriving DecidableEq, Repr

/-- The constant `BATCH_SIZE` of `uploadFile`. -/
def BATCH_SIZE : Nat := 2000

/-- The names bound at the top level of `uploadController.js`: its imports and
its own functions.  The import from `fs` binds `createReadStream` and
`unlinkSync`; it does not bind `fs`, and Node has no global of that name. -/
def moduleScope : List String :=
  ["createReadStream", "unlinkSync", "csv", "parseExcel", "Order", "PendingOrder",
   "mapFields", "cleanNum", "getUniqueFilter", "processBatch", "uploadFile"]

/-- The variables of the CSV branch of `uploadFile`, the database, and the
batches handed to `processBatch` so far. -/
structure StreamState where
  db : DB
  batch : List Row
  totalInserted : JSNum
  totalReconciled : JSNum
  batches : List (List Row)
  deriving DecidableEq, Repr

/-- The `data` handler of the CSV stream for one row, run to its end: when the
buffer is full, up to the point where the awaited `processBatch` has settled and
the handler has gone on.  An error means that the stream was destroyed and the
promise rejected.  The pausing and resuming of the stream are in `loopStep`. -/
def onData (batchSize : Nat) (F : Faults) (statusType : String) (st : StreamState)
    (row : Row) : StreamState × Except JSError Unit :=
  let cleaned := cleanRow row
  let st := { st with batch := st.batch ++ [cleaned] }
  if st.batch.length ≥ batchSize then
    match processBatch F st.db st.batch statusType with
    | (db1, .error e) =>
      ({ st with db := db1, batches := st.batches ++ [st.batch] }, .error e)
    | (db1, .ok result) =>
      ({ db := db1
         batch := []
         totalInserted := st.totalInserted.add (toNumber result.inserted)
         totalReconciled := st.totalReconciled.add (toNumber result.reconciled)
         batches := st.batches ++ [st.batch] }, .ok ())
  else (st, .ok ())

/-- The `end` handler of the CSV stream. -/
def onEnd (F : Faults) (statusType : String) (st : StreamState) :
    StreamState × Except JSError Unit :=
  if st.batch.length > 0 then
    match processBatch F st.db st.batch statusType with
    | (db1, .error e) =>
      ({ st with db := db1, batches := st.batches ++ [st.batch] }, .error e)
    | (db1, .ok result) =>
      ({ st with
          db := db1
          totalInserted := st.totalInserted.add (toNumber result.inserted)
          totalReconciled := st.totalReconciled.add (toNumber result.reconciled)
          batches := st.batches ++ [st.batch] }, .ok ())
  else (st, .ok ())

/-- The promise `processStream` when every handler runs to its end before the
next event of the stream: the rows of the file in order, then the end of the
stream.  That no row arrives while a batch is processed is a property of the
loop with its `pause()` and `resume()`, shown on `loopStep` below;
`processStream_eq_loopRun` relates the two. -/
def processStream (batchSize : Nat) (F : Faults) (statusType : String) :
    StreamState → List Row → StreamState × Except JSError Unit
  | st, [] => onEnd F statusType st
  | st, row :: rest =>
    match onData batchSize F statusType st row with
    | (st1, .error e) => (st1, .error e)
    | (st1, .ok _) => processStream batchSize F statusType st1 rest

/-- What an upload leaves behind: the database, the response sent, and the
batches handed to `processBatch`, in order. -/
structure Outcome where
  db : DB
  response : Response
  batches : List (List Row)
  deriving DecidableEq, Repr

/-- The `try` block of `uploadFile`, with `scope` the names bound where the
function is defined: a use of `fs` throws a reference error unless `fs` is bound. -/
def uploadBody (scope : List String) (F : Faults) (db : DB) (file : Option UploadedFile)
    (statusType : String) : (DB × List (List Row)) × Except JSError Response :=
  match file with
  | none => ((db, []), .ok ⟨400, [("error", .str "No file uploaded")]⟩)
  | some file =>
    let name := lowerChars file.originalname
    let isCSV := ".csv".toList.isSuffixOf name
    if !isCSV then
      let rows := parseExcel file.workbook
      match processBatch F db rows statusType with
      | (db1, .error e) => ((db1, [rows]), .error e)
      | (db1, .ok result) =>
        if scope.contains "fs" then
          ((db1, [rows]), .ok ⟨200,
            [("message", .str "Excel processed successfully"),
             ("rowsInserted", result.inserted),
             ("reconciledOrders", result.reconciled),
             ("statusType", .str statusType)]⟩)
        else ((db1, [rows]), .error (.referenceError "fs"))
    else if scope.contains "fs" then
      let start : StreamState :=
        { db := db, batch := [], totalInserted := .fin 0, totalReconciled := .fin 0,
          batches := [] }
      match processStream BATCH_SIZE F statusType start file.csvRows with
      | (st, .error e) => ((st.db, st.batches), .error e)
      | (st, .ok _) =>
        ((st.db, st.batches), .ok ⟨200,
          [("message", .str "Large CSV processed successfully"),
           ("rowsInserted", .num st.totalInserted),
           ("reconciledOrders", .num st.totalReconciled),
           ("statusType", .str statusType)]⟩)
    else ((db, []), .error (.referenceError "fs"))

/-- The function `uploadFile` with the names bound in its scope as a parameter:
the `try` block, and the `catch` that answers 500 with an error message alone. -/
def uploadFileIn (scope : List String) (F : Faults) (db : DB) (file : Option UploadedFile)
    (statusType : String) : Outcome :=
  match uploadBody scope F db file statusType with
  | ((db1, batches), .ok response) => ⟨db1, response, batches⟩
  | ((db1, batches), .error _) => ⟨db1, ⟨500, [("error", .str "Upload failed")]⟩, batches⟩

/-- The function `uploadFile` of `src/controllers/uploadController.js`. -/
def uploadFile (F : Faults) (db : DB) (file : Option UploadedFile) (statusType : String) :
    Outcome :=
  uploadFileIn moduleScope F db file statusType

/-! ## Upserts by key

When every filter of a batch constrains the same fields, a document matches the
filter of a record exactly when both have the same values at those fields.  The
functions below describe upserts under such a key `K`; `applyUpdateOne_eq_upsertByKey`
relates them to `applyUpdateOne`. -/

/-- The fields a filter constrains, in order. -/
def filterFields (filter : Filter) : List KeyField :=
  filter.map Prod.fst

/-- The values of a record at the given key fields. -/
def Mapped.keyOn (ks : List KeyField) (m : Mapped) : List String :=
  ks.map m.key

/-- The first document whose record has key `k` takes the fields of `m`. -/
def updateByKey {κ : Type} [DecidableEq κ] (K : Mapped → κ) (docs : List Doc) (m : Mapped) :
    List Doc :=
  modifyFirst (fun d => decide (K d.data = K m)) (fun d => { d with data := m }) docs

/-- Update of the first document with the key of `m`, or insertion of `m`. -/
def upsertByKey {κ : Type} [DecidableEq κ] (K : Mapped → κ) (st : List Doc × Nat)
    (m : Mapped) : List Doc × Nat :=
  if st.1.any (fun d => decide (K d.data = K m)) then (updateByKey K st.1 m, st.2)
  else (st.1 ++ [{ id := st.2, data := m }], st.2 + 1)

/-- The last record of a list with key `k`. -/
def lastFor {κ : Type} [DecidableEq κ] (K : Mapped → κ) (k : κ) : List Mapped → Option Mapped
  | [] => none
  | a :: ms =>
    match lastFor K k ms with
    | some x => some x
    | none => if K a = k then some a else none

/-- The record of the first document with key `k`. -/
def firstData {κ : Type} [DecidableEq κ] (K : Mapped → κ) (k : κ) (docs : List Doc) :
    Option Mapped :=
  (docs.find? (fun d => decide (K d.data = k))).map Doc.data

/-! ## Pending only shrinks -/

/-- Document `d'` is `d` with a `pendingQuantity` that is the same or lower. -/
def Lowered (d d' : Doc) : Prop :=
  d' = d.setPendingQuantity d'.data.pendingQuantity ∧
  (d'.data.pendingQuantity = d.data.pendingQuantity ∨
    JSNum.le d'.data.pendingQuantity d.data.pendingQuantity = true)

/-- Every document of `new` is a document of `old` with the same or a lower
`pendingQuantity`, and no `_id` is new. -/
def Shrinks (old new : List Doc) : Prop :=
  (new.map Doc.id).Sublist (old.map Doc.id) ∧ ∀ d' ∈ new, ∃ d ∈ old, Lowered d d'


/-! ## The streaming loop, event by event

The handlers of the CSV branch between the events of the runtime.  A `data`
handler that fills the buffer calls `stream.pause()` and `processBatch` and is
suspended at the `await`; it goes on when the call has settled.  The stream
emits `data` and `end` only while it is flowing and not destroyed.  Which event
comes next is up to the runtime: a run is given by a list of events, and an
event that cannot occur in a state leaves it as it is. -/

/-- A handler suspended at `await processBatch(batch, statusType)`, with what
the call settles to: the `data` handler or the `end` handler. -/
inductive Awaiting where
  | data (result : Except JSError BatchReturn)
  | atEnd (result : Except JSError BatchReturn)

/-- What the runtime does next: the stream emits `data` with the next row, the
`processBatch` call of the oldest suspended handler settles and the handler goes
on, or the stream emits `end`. -/
inductive LoopEvent where
  | deliver
  | settle
  | finish
  deriving DecidableEq, Repr

/-- The streaming loop between two events: the variables of the CSV branch, the
rows the decoder has not delivered yet, whether the stream is flowing, destroyed
or ended, the suspended handlers, oldest first, and the state of the promise
`processStream` once it is settled. -/
structure LoopState where
  vars : StreamState
  source : List Row
  flowing : Bool
  destroyed : Bool
  ended : Bool
  awaiting : List Awaiting
  promise : Option (Except JSError Unit)

/-- Settles a promise that is still pending; a settled promise stays as it is. -/
def settlePromise (promise : Option (Except JSError Unit)) (r : Except JSError Unit) :
    Option (Except JSError Unit) :=
  match promise with
  | some p => some p
  | none => some r

/-- The loop when the stream has been created and the handlers are attached. -/
def loopStart (db : DB) (rows : List Row) : LoopState :=
  { vars := { db := db, batch := [], totalInserted := .fin 0, totalReconciled := .fin 0,
              batches := [] }
    source := rows
    flowing := true
    destroyed := false
    ended := false
    awaiting := []
    promise := none }

/-- One event of the streaming loop. -/
def loopStep (batchSize : Nat) (F : Faults) (statusType : String) (s : LoopState) :
    LoopEvent → LoopState
  | .deliver =>
    match s.source with
    | [] => s
    | row :: rest =>
      if s.flowing && !s.destroyed then
        let cleaned := cleanRow row
        let batch := s.vars.batch ++ [cleaned]
        if batch.length ≥ batchSize then
          let called := processBatch F s.vars.db batch statusType
          { s with
            vars := { s.vars with db := called.1, batch := batch,
                                  batches := s.vars.batches ++ [batch] }
            source := rest
            flowing := false
            awaiting := s.awaiting ++ [.data called.2] }
        else { s with vars := { s.vars with batch := batch }, source := rest }
      else s
  | .settle =>
    match s.awaiting with
    | [] => s
    | .data (.ok result) :: waiting =>
      { s with
        vars := { s.vars with
          totalInserted := s.vars.totalInserted.add (toNumber result.inserted)
          totalReconciled := s.vars.totalReconciled.add (toNumber result.reconciled)
          batch := [] }
        flowing := true
        awaiting := waiting }
    | .data (.error e) :: waiting =>
      { s with
        destroyed := true
        flowing := false
        promise := settlePromise s.promise (.error e)
        awaiting := waiting }
    | .atEnd (.ok result) :: waiting =>
      { s with
        vars := { s.vars with
          totalInserted := s.vars.totalInserted.add (toNumber result.inserted)
          totalReconciled := s.vars.totalReconciled.add (toNumber result.reconciled) }
        promise := settlePromise s.promise (.ok ())
        awaiting := waiting }
    | .atEnd (.error e) :: waiting =>
      { s with promise := settlePromise s.promise (.error e), awaiting := waiting }
  | .finish =>
    if s.flowing && !s.destroyed && !s.ended && s.source.isEmpty then
      if s.vars.batch.length > 0 then
        let called := processBatch F s.vars.db s.vars.batch statusType
        { s with
          vars := { s.vars with db := called.1, batches := s.vars.batches ++ [s.vars.batch] }
          ended := true
          awaiting := s.awaiting ++ [.atEnd called.2] }
      else { s with ended := true, promise := settlePromise s.promise (.ok ()) }
    else s

/-- The streaming loop after a sequence of events. -/
def loopRun (batchSize : Nat) (F : Faults) (statusType : String) (s : LoopState)
    (events : List LoopEvent) : LoopState :=
  events.foldl (loopStep batchSize F statusType) s

/-! ## Coercion and alias resolution -/

/-- The six assignments `mapped.x = cleanNum(mapped.x)` of `processBatch`. -/
def coerceNumeric (mapped : Mapped) : Mapped :=
  { mapped with
    quantity := cleanNum (.num mapped.quantity)
    dispatchQuantity := cleanNum (.num mapped.dispatchQuantity)
    pendingQuantity := cleanNum (.num mapped.pendingQuantity)
    grossWeight := cleanNum (.num mapped.grossWeight)
    chargeWeight := cleanNum (.num mapped.chargeWeight)
    rate := cleanNum (.num mapped.rate) }

/-- Resolution of a text field as the design document words it: the value of the
first alias, in order, whose column is present and non-empty, and the empty
string when there is none. -/
def resolveAlias (row : Row) : List String → String
  | [] => ""
  | a :: rest =>
    match row.lookup a with
    | some v => if v ≠ .str "" then v.text else resolveAlias row rest
    | none => resolveAlias row rest

/-- Resolution of a text field by truthiness: the value of the first alias, in
order, whose cell is truthy, and the empty string when there is none. -/
def resolveTruthy (row : Row) : List String → String
  | [] => ""
  | a :: rest =>
    match row.lookup a with
    | some v => if v.truthy then v.text else resolveTruthy row rest
    | none => resolveTruthy row rest

/-- The column `k` of a row is absent or its cell does not convert to a number. -/
def cellNotNumeric (row : Row) (k : String) : Bool :=
  match row.lookup k with
  | none => true
  | some v => (toNumber v).isNaN

/-- Every cell of the row is a string, as in the rows the CSV decoder delivers. -/
def stringCells (row : Row) : Bool :=
  row.all fun kv => match kv.2 with
    | .str _ => true
    | _ => false


/-! ## Concrete inputs used below -/

/-- A `PendingOrder` record for PO1 / C1 / M with `pendingQuantity` 100. -/
def examplePending : Doc :=
  { id := 7
    data := { canonical [("Order No", "PO1"), ("Item Code", "C1"), ("Size", "M"),
      ("O/S Ord.Qty", "100")] "PENDING" with raw := [] } }

/-- A dispatch row for PO1 / C1 / M with the given `Sale Qty`. -/
def exampleDispatch (saleQty : String) : Row :=
  [("Order No", "PO1"), ("Item Code", "C1"), ("Size", "M"), ("Sale Qty", saleQty)]


/-- Two rows of one order line: the first carries a line item number, the
second does not. -/
def mixedBatch : List Row :=
  [[("Order No", "PO1"), ("Item Code", "C1"), ("Size", "M"), ("PO Srl", "2")],
   [("Order No", "PO1"), ("Item Code", "C1"), ("Size", "M")]]

/-- Two dispatch rows that both carry a line item number and an invoice number. -/
def uniformBatch : List Row :=
  [[("Order No", "PO1"), ("Item Code", "C1"), ("Size", "M"), ("PO Srl", "1"),
    ("Invoice No", "INV7"), ("Sale Qty", "10")],
   [("Order No", "PO1"), ("Item Code", "C1"), ("Size", "M"), ("PO Srl", "2"),
    ("Invoice No", "INV7"), ("Sale Qty", "5")]]

/-- A dispatch row for PO2, which `examplePending` does not match. -/
def unmatchedDispatch : Row :=
  [("Order No", "PO2"), ("Item Code", "C1"), ("Size", "M"), ("Sale Qty", "40")]

/-- Two rows with the same natural key and different quantities. -/
def sameKeyBatch : List Row :=
  [[("Order No", "PO1"), ("Item Code", "C1"), ("Size", "M"), ("O/S Ord.Qty", "100")],
   [("Order No", "PO1"), ("Item Code", "C1"), ("Size", "M"), ("O/S Ord.Qty", "80")]]

/-- Two `PendingOrder` records, for PO1 / C1 / M and for PO2 / C1 / M. -/
def twoPending : List Doc :=
  [examplePending,
   { id := 8
     data := { canonical [("Order No", "PO2"), ("Item Code", "C1"), ("Size", "M"),
       ("O/S Ord.Qty", "30")] "PENDING" with raw := [] } }]

/-- Two dispatch rows, for PO1 / C1 / M and for PO2 / C1 / M, each shipping more
than is pending. -/
def twoDispatches : List Row :=
  [exampleDispatch "150", unmatchedDispatch]

/-- An uploaded spreadsheet with one sheet holding one dispatch row. -/
def exampleWorkbookFile : UploadedFile :=
  { originalname := "orders.xlsx"
    path := "uploads/1"
    csvRows := []
    workbook := { SheetNames := ["Sheet1"], Sheets := [("Sheet1", [exampleDispatch "40"])] } }

/-- A row that uses second and third aliases and has a non-numeric quantity. -/
def aliasRow : Row :=
  [("PO No", "PO9"), ("PO Srl", ""), ("Line", "3"), ("Order Qty", "n/a")]

/-- A second `PendingOrder` record for PO1 / C1 / M, under another sales order. -/
def sameKeyPending : Doc :=
  { id := 8
    data := { canonical [("Order No", "PO1"), ("Item Code", "C1"), ("Size", "M"),
      ("S/O No", "SO2"), ("O/S Ord.Qty", "30")] "PENDING" with raw := [] } }

/-- A `PendingOrder` record for PO1 / C1 / M whose `pendingQuantity` is
`Infinity`. -/
def infinitePending : Doc :=
  { id := 7
    data := { canonical [("Order No", "PO1"), ("Item Code", "C1"), ("Size", "M"),
      ("O/S Ord.Qty", "Infinity")] "PENDING" with raw := [] } }

/-- A `PendingOrder` record for PO1 / C1 / M with `pendingQuantity`
9007199254740994, which is `2^53 + 2`. -/
def largePending : Doc :=
  { id := 7
    data := { canonical [("Order No", "PO1"), ("Item Code", "C1"), ("Size", "M"),
      ("O/S Ord.Qty", "9007199254740994")] "PENDING" with raw := [] } }

/-- A spreadsheet row whose `Order No` and `Size` cells hold the number 0. -/
def zeroCellRow : Row :=
  [("Order No", .num (.fin 0)), ("PO No", "PO9"), ("Size", .num (.fin 0))]

/-- A workbook whose second sheet is the first with `out` in its name; each
sheet holds one row, with a different `Sale Qty`. -/
def threeSheets : Workbook :=
  { SheetNames := ["Sheet1", "Stock OUT", "outer"]
    Sheets := [("Sheet1", [exampleDispatch "1"]), ("Stock OUT", [exampleDispatch "2"]),
      ("outer", [exampleDispatch "3"])] }

/-- A workbook without a sheet that has `out` in its name. -/
def plainSheets : Workbook :=
  { SheetNames := ["Sheet1", "Pending"]
    Sheets := [("Sheet1", [exampleDispatch "1"]), ("Pending", [exampleDispatch "2"])] }

/-- A `PendingOrder` record for PO1 / C1 / M with `pendingQuantity` 0.5. -/
def halfPending : Doc :=
  { id := 7
    data := { canonical [("Order No", "PO1"), ("Item Code", "C1"), ("Size", "M"),
      ("O/S Ord.Qty", "0.5")] "PENDING" with raw := [] } }

/-- Three dispatch rows for PO1 / C1 / M. -/
def threeRows : List Row :=
  [exampleDispatch "1", exampleDispatch "2", exampleDispatch "3"]


/-! # Theorems -/

set_option maxRecDepth 100000

/-! ## Rounding to a double -/

theorem bitLengthAux_le_iff : ∀ (fuel n k : Nat), n ≤ fuel →
    (bitLengthAux fuel n ≤ k ↔ n < 2 ^ k) := by
  intro fuel
  induction fuel with
  | zero =>
    intro n k hn
    have h0 : n = 0 := by omega
    subst h0
    simp [bitLengthAux]
  | succ fuel ih =>
    intro n k hn
    unfold bitLengthAux
    by_cases h0 : n = 0
    · subst h0
      simp
    · rw [if_neg h0]
      cases k with
      | zero =>
        simp only [pow_zero, Nat.lt_one_iff]
        constructor
        · intro h; omega
        · intro h; exact absurd h h0
      | succ k =>
        have hdiv : n / 2 ≤ fuel := by omega
        rw [Nat.succ_le_succ_iff, ih (n / 2) k hdiv, pow_succ]
        constructor
        · intro h; omega
        · intro h; omega

theorem bitLength_le_iff (n k : Nat) : bitLength n ≤ k ↔ n < 2 ^ k :=
  bitLengthAux_le_iff n n k (le_refl n)

theorem lt_bitLength_iff (n k : Nat) : k < bitLength n ↔ 2 ^ k ≤ n := by
  rw [← not_le, bitLength_le_iff, not_lt]

theorem lt_two_pow_bitLength (n : Nat) : n < 2 ^ bitLength n :=
  (bitLength_le_iff n _).mp (le_refl _)

theorem bitLength_mono {n m : Nat} (h : n ≤ m) : bitLength n ≤ bitLength m := by
  rw [bitLength_le_iff]
  exact lt_of_le_of_lt h (lt_two_pow_bitLength m)

theorem bitLength_mul_two_pow_le (k j : Nat) : bitLength (k * 2 ^ j) ≤ bitLength k + j := by
  rw [bitLength_le_iff, pow_add]
  exact Nat.mul_lt_mul_of_pos_right (lt_two_pow_bitLength k) (by positivity)

theorem roundHalfEven_of_dvd (n d : Nat) (hd : 0 < d) (h : d ∣ n) :
    roundHalfEven n d = n / d := by
  unfold roundHalfEven
  have : n % d = 0 := Nat.mod_eq_zero_of_dvd h
  rw [this]
  simp [hd]

theorem div_le_roundHalfEven (n d : Nat) : n / d ≤ roundHalfEven n d := by
  unfold roundHalfEven
  split
  · exact le_refl _
  · split
    · exact Nat.le_succ _
    · split
      · exact le_refl _
      · exact Nat.le_succ _

theorem roundHalfEven_le_succ (n d : Nat) : roundHalfEven n d ≤ n / d + 1 := by
  unfold roundHalfEven
  split
  · exact Nat.le_succ _
  · split
    · exact le_refl _
    · split
      · exact Nat.le_succ _
      · exact le_refl _

theorem roundHalfEven_le (n d k : Nat) (hd : 0 < d) (h : n ≤ k * d) :
    roundHalfEven n d ≤ k := by
  have hq : n / d ≤ k := Nat.div_le_of_le_mul (by rw [Nat.mul_comm]; exact h)
  rcases Nat.lt_or_ge (n / d) k with hlt | hge
  · exact le_trans (roundHalfEven_le_succ n d) hlt
  · have hqk : n / d = k := le_antisymm hq hge
    have hmod : n % d = 0 := by
      have hdm := Nat.div_add_mod n d
      rw [hqk] at hdm
      have : d * k = k * d := Nat.mul_comm d k
      omega
    unfold roundHalfEven
    rw [hmod]
    simp [hd, hqk]

theorem roundUnits_one (n : Nat) :
    roundUnits n 1 =
      roundHalfEven n (2 ^ (bitLength n - 53)) * 2 ^ (bitLength n - 53) := by
  unfold roundUnits
  rw [Nat.div_one, Nat.shiftLeft_eq, Nat.shiftLeft_eq, Nat.one_mul]

theorem two_pow_quantum_le (n : Nat) (hn : 1 ≤ n) : 2 ^ (bitLength n - 53) ≤ n := by
  by_cases hs : bitLength n - 53 = 0
  · rw [hs]
    simpa using hn
  · rw [← lt_bitLength_iff]
    omega

theorem roundUnits_pos (n : Nat) (hn : 1 ≤ n) : 1 ≤ roundUnits n 1 := by
  rw [roundUnits_one]
  have hpow : 0 < 2 ^ (bitLength n - 53) := by positivity
  have hq : 1 ≤ n / 2 ^ (bitLength n - 53) :=
    (Nat.one_le_div_iff hpow).mpr (two_pow_quantum_le n hn)
  have hr := div_le_roundHalfEven n (2 ^ (bitLength n - 53))
  exact Nat.mul_le_mul (le_trans hq hr) hpow

theorem roundUnits_zero : roundUnits 0 1 = 0 := by decide

theorem roundUnits_fixed (n : Nat) (h : 2 ^ (bitLength n - 53) ∣ n) : roundUnits n 1 = n := by
  rw [roundUnits_one, roundHalfEven_of_dvd n _ (by positivity) h, Nat.div_mul_cancel h]

theorem roundUnits_le (n m : Nat) (hnm : n ≤ m) (hm : 2 ^ (bitLength m - 53) ∣ m) :
    roundUnits n 1 ≤ m := by
  rw [roundUnits_one]
  have hs : bitLength n - 53 ≤ bitLength m - 53 := Nat.sub_le_sub_right (bitLength_mono hnm) 53
  have hdvd : 2 ^ (bitLength n - 53) ∣ m := dvd_trans (pow_dvd_pow 2 hs) hm
  obtain ⟨k, hk⟩ := hdvd
  have hle : roundHalfEven n (2 ^ (bitLength n - 53)) ≤ k := by
    apply roundHalfEven_le n _ k (by positivity)
    rw [Nat.mul_comm, ← hk]
    exact hnm
  calc roundHalfEven n (2 ^ (bitLength n - 53)) * 2 ^ (bitLength n - 53)
      ≤ k * 2 ^ (bitLength n - 53) := Nat.mul_le_mul_right _ hle
    _ = m := by rw [hk, Nat.mul_comm]

theorem scale_eq : JSNum.scale = 2 ^ 1074 := by
  unfold JSNum.scale
  rw [Nat.shiftLeft_eq, Nat.one_mul]

theorem scale_pos : 0 < JSNum.scale := by
  rw [scale_eq]
  positivity

/-! ## Arithmetic on numbers -/

theorem ofUnits_eq (z : Int) :
    JSNum.ofUnits z =
      if roundUnits z.natAbs 1 < 1 <<< 2098 then
        .fin (if z < 0 then -(roundUnits z.natAbs 1 : Int) else (roundUnits z.natAbs 1 : Int))
      else .inf (decide (z < 0)) := by
  unfold JSNum.ofUnits JSNum.ofRatio
  by_cases hz : z < 0 <;> simp [hz]

theorem ofUnits_isNaN (z : Int) : (JSNum.ofUnits z).isNaN = false := by
  rw [ofUnits_eq]
  split <;> rfl

theorem natAbs_pos_of_ne_zero (z : Int) (hz : z ≠ 0) : 1 ≤ z.natAbs :=
  Int.natAbs_pos.mpr hz

/-- The sign of a rounded difference is the sign of the exact difference: a
non-zero multiple of the unit does not round to zero. -/
theorem ofUnits_le_zero (z : Int) : (JSNum.ofUnits z).le (.fin 0) = decide (z ≤ 0) := by
  rw [ofUnits_eq]
  by_cases h0 : z = 0
  · subst h0
    simp [roundUnits_zero, JSNum.le]
  · have hpos := roundUnits_pos z.natAbs (natAbs_pos_of_ne_zero z h0)
    by_cases hz : z < 0
    · have hle : z ≤ 0 := le_of_lt hz
      split
      · simp only [hz, if_true, JSNum.le, hle, decide_True, decide_eq_true_eq]
        omega
      · simp [JSNum.le, hz, hle]
    · have hle : ¬ z ≤ 0 := by omega
      split
      · simp only [hz, if_false, JSNum.le, hle, decide_False, decide_eq_false_iff_not]
        omega
      · simp [JSNum.le, hz, hle]

theorem isDouble_units_small (k j : Nat) (hk : k ≤ 2 ^ 53) :
    2 ^ (bitLength (k * 2 ^ j) - 53) ∣ k * 2 ^ j := by
  rcases Nat.lt_or_ge k (2 ^ 53) with hlt | hge
  · have h1 : bitLength k ≤ 53 := (bitLength_le_iff k 53).mpr hlt
    have h2 := bitLength_mul_two_pow_le k j
    have h3 : bitLength (k * 2 ^ j) - 53 ≤ j := by omega
    exact dvd_trans (pow_dvd_pow 2 h3) (dvd_mul_left _ _)
  · have hk' : k = 2 ^ 53 := le_antisymm hk hge
    have h1 : bitLength (k * 2 ^ j) ≤ 54 + j := by
      rw [bitLength_le_iff, hk', ← pow_add]
      exact Nat.pow_lt_pow_right (by omega) (by omega)
    have h3 : bitLength (k * 2 ^ j) - 53 ≤ 53 + j := by omega
    have h4 : k * 2 ^ j = 2 ^ (53 + j) := by rw [hk', ← pow_add]
    rw [h4] at h3 ⊢
    exact pow_dvd_pow 2 h3

theorem units_small_lt (k j : Nat) (hk : k ≤ 2 ^ 53) (hj : 53 + j < 2098) :
    k * 2 ^ j < 1 <<< 2098 := by
  rw [Nat.shiftLeft_eq, Nat.one_mul]
  calc k * 2 ^ j ≤ 2 ^ 53 * 2 ^ j := Nat.mul_le_mul_right _ hk
    _ = 2 ^ (53 + j) := by rw [← pow_add]
    _ < 2 ^ 2098 := Nat.pow_lt_pow_right (by omega) hj

/-- An integer of magnitude at most `2^53` is a double. -/
theorem ofInt_of_le (z : Int) (h : z.natAbs ≤ 2 ^ 53) :
    JSNum.ofInt z = .fin (z * JSNum.scale) := by
  unfold JSNum.ofInt
  rw [ofUnits_eq]
  have habs : (z * (JSNum.scale : Int)).natAbs = z.natAbs * 2 ^ 1074 := by
    rw [Int.natAbs_mul, Int.natAbs_ofNat, scale_eq]
  rw [habs, roundUnits_fixed _ (isDouble_units_small _ 1074 h),
    if_pos (units_small_lt _ 1074 h (by omega))]
  have hsc : (0 : Int) < (JSNum.scale : Int) := by exact_mod_cast scale_pos
  congr 1
  by_cases hz : z < 0
  · have hneg : z * (JSNum.scale : Int) < 0 := Int.mul_neg_of_neg_of_pos hz hsc
    rw [if_pos hneg]
    have hzabs : (z.natAbs : Int) = -z := by omega
    rw [Nat.cast_mul, hzabs, scale_eq]
    push_cast
    ring
  · have hnn : ¬ z * (JSNum.scale : Int) < 0 := by
      have : 0 ≤ z * (JSNum.scale : Int) := Int.mul_nonneg (by omega) (le_of_lt hsc)
      omega
    rw [if_neg hnn]
    have hzabs : (z.natAbs : Int) = z := by omega
    rw [Nat.cast_mul, hzabs, scale_eq]

/-- Subtraction of integers of magnitude at most `2^53` is the double nearest
to their difference. -/
theorem sub_ofInt (a b : Int) (ha : a.natAbs ≤ 2 ^ 53) (hb : b.natAbs ≤ 2 ^ 53) :
    (JSNum.ofInt a).sub (JSNum.ofInt b) = JSNum.ofInt (a - b) := by
  rw [ofInt_of_le a ha, ofInt_of_le b hb]
  show JSNum.ofUnits (a * JSNum.scale - b * JSNum.scale) = JSNum.ofUnits ((a - b) * JSNum.scale)
  rw [sub_mul]

/-- Addition of integers of magnitude at most `2^53` is the double nearest to
their sum. -/
theorem add_ofInt (a b : Int) (ha : a.natAbs ≤ 2 ^ 53) (hb : b.natAbs ≤ 2 ^ 53) :
    (JSNum.ofInt a).add (JSNum.ofInt b) = JSNum.ofInt (a + b) := by
  rw [ofInt_of_le a ha, ofInt_of_le b hb]
  show JSNum.ofUnits (a * JSNum.scale + b * JSNum.scale) = JSNum.ofUnits ((a + b) * JSNum.scale)
  rw [add_mul]

theorem ofInt_zero : JSNum.ofInt 0 = .fin 0 := by
  rw [ofInt_of_le 0 (by simp)]
  simp

theorem orZero_isNaN (n : JSNum) : n.orZero.isNaN = false := by
  cases n with
  | nan => rfl
  | inf s => rfl
  | fin u =>
    unfold JSNum.orZero
    split <;> rfl

theorem orZero_of_not_nan (n : JSNum) (h : n.isNaN = false) : n.orZero = n := by
  cases n with
  | nan => cases h
  | inf s => rfl
  | fin u =>
    by_cases hu : u = 0
    · subst hu; rfl
    · simp [JSNum.orZero, JSNum.truthy, hu]

theorem cleanNum_num (n : JSNum) (h : n.isNaN = false) : cleanNum (.num n) = n := by
  cases n with
  | nan => cases h
  | inf s => rfl
  | fin u =>
    by_cases hu : u = 0
    · subst hu; rfl
    · simp [cleanNum, JSVal.truthy, JSNum.truthy, toNumber, JSNum.isNaN, hu]

theorem cleanNum_nan : cleanNum (.num .nan) = .fin 0 := rfl

theorem cleanNum_isNaN (x : JSVal) : (cleanNum x).isNaN = false := by
  unfold cleanNum
  by_cases h : (!x.truthy || x == .str "" || (toNumber x).isNaN) = true
  · rw [if_pos h]; rfl
  · rw [if_neg h]
    simp only [Bool.or_eq_true, not_or, Bool.not_eq_true] at h
    exact h.2

theorem mapFields_dispatchQuantity_isNaN (row : Row) :
    (mapFields row).dispatchQuantity.isNaN = false :=
  orZero_isNaN _

theorem shippedNow_eq (row : Row) : shippedNow row = (mapFields row).dispatchQuantity := by
  unfold shippedNow
  rw [cleanNum_num _ (mapFields_dispatchQuantity_isNaN row),
    orZero_of_not_nan _ (mapFields_dispatchQuantity_isNaN row)]

/-- When `a <= b` holds and the two are not the same infinity, `a - b <= 0`
holds. -/
theorem sub_le_zero_of_le (a b : JSNum) (h : a.le b = true)
    (hinf : ∀ s, ¬ (a = .inf s ∧ b = .inf s)) : (a.sub b).le (.fin 0) = true := by
  cases a with
  | nan => cases b <;> cases h
  | inf s =>
    cases b with
    | nan => cases s <;> cases h
    | inf t =>
      cases s <;> cases t
      · exact absurd ⟨rfl, rfl⟩ (hinf false)
      · cases h
      · rfl
      · exact absurd ⟨rfl, rfl⟩ (hinf true)
    | fin y =>
      cases s
      · cases h
      · rfl
  | fin x =>
    cases b with
    | nan => cases h
    | inf t =>
      cases t
      · rfl
      · cases h
    | fin y =>
      have hxy : x ≤ y := by simpa [JSNum.le] using h
      show (JSNum.ofUnits (x - y)).le (.fin 0) = true
      rw [ofUnits_le_zero]
      simp only [decide_eq_true_eq]
      omega

/-- When `b < a` holds, `a - b` is a number and `a - b <= 0` does not hold. -/
theorem sub_pos_of_lt (a b : JSNum) (h : b.lt a = true) :
    (a.sub b).le (.fin 0) = false ∧ (a.sub b).isNaN = false := by
  cases b with
  | nan => cases a <;> cases h
  | inf s =>
    cases a with
    | nan => cases s <;> cases h
    | inf t =>
      cases s <;> cases t
      · cases h
      · cases h
      · exact ⟨rfl, rfl⟩
      · cases h
    | fin x =>
      cases s
      · cases h
      · exact ⟨rfl, rfl⟩
  | fin y =>
    cases a with
    | nan => cases h
    | inf t =>
      cases t
      · exact ⟨rfl, rfl⟩
      · cases h
    | fin x =>
      have hxy : y < x := by simpa [JSNum.lt] using h
      refine ⟨?_, ofUnits_isNaN _⟩
      show (JSNum.ofUnits (x - y)).le (.fin 0) = false
      rw [ofUnits_le_zero]
      simp only [decide_eq_false_iff_not]
      omega

/-- The difference of one infinity and itself is `NaN`. -/
theorem sub_inf_self (s : Bool) : (JSNum.inf s).sub (.inf s) = .nan := by
  simp [JSNum.sub]

theorem scale_cast_pos : (0 : Int) < (JSNum.scale : Int) := by
  exact_mod_cast scale_pos

/-- Comparison of integers of magnitude at most `2^53` as numbers. -/
theorem lt_ofInt (a b : Int) (ha : a.natAbs ≤ 2 ^ 53) (hb : b.natAbs ≤ 2 ^ 53) :
    (JSNum.ofInt a).lt (JSNum.ofInt b) = decide (a < b) := by
  rw [ofInt_of_le a ha, ofInt_of_le b hb]
  show decide (a * (JSNum.scale : Int) < b * (JSNum.scale : Int)) = decide (a < b)
  rw [decide_eq_decide]
  exact mul_lt_mul_right scale_cast_pos

theorem le_ofInt (a b : Int) (ha : a.natAbs ≤ 2 ^ 53) (hb : b.natAbs ≤ 2 ^ 53) :
    (JSNum.ofInt a).le (JSNum.ofInt b) = decide (a ≤ b) := by
  rw [ofInt_of_le a ha, ofInt_of_le b hb]
  show decide (a * (JSNum.scale : Int) ≤ b * (JSNum.scale : Int)) = decide (a ≤ b)
  rw [decide_eq_decide]
  exact mul_le_mul_right scale_cast_pos

theorem jsnum_le_trans (a b c : JSNum) (h1 : a.le b = true) (h2 : b.le c = true) :
    a.le c = true := by
  cases a with
  | nan => cases b <;> cases h1
  | inf s =>
    cases b with
    | nan => cases s <;> cases h1
    | inf t =>
      cases c with
      | nan => cases t <;> cases h2
      | inf r => cases s <;> cases t <;> cases r <;> simp_all [JSNum.le]
      | fin z => cases s <;> cases t <;> simp_all [JSNum.le]
    | fin y =>
      cases c with
      | nan => cases h2
      | inf r => cases s <;> cases r <;> simp_all [JSNum.le]
      | fin z => cases s <;> simp_all [JSNum.le]
  | fin x =>
    cases b with
    | nan => cases h1
    | inf t =>
      cases c with
      | nan => cases t <;> cases h2
      | inf r => cases t <;> cases r <;> simp_all [JSNum.le]
      | fin z => cases t <;> simp_all [JSNum.le]
    | fin y =>
      cases c with
      | nan => cases h2
      | inf r => cases r <;> simp_all [JSNum.le]
      | fin z =>
        simp only [JSNum.le, decide_eq_true_eq] at h1 h2 ⊢
        omega

theorem isDouble_fin (u : Int) (h : (JSNum.fin u).isDouble = true) :
    2 ^ (bitLength u.natAbs - 53) ∣ u.natAbs ∧ u.natAbs < 1 <<< 2098 := by
  unfold JSNum.isDouble at h
  simp only [Bool.and_eq_true, beq_iff_eq, decide_eq_true_eq] at h
  refine ⟨?_, h.2⟩
  have := Nat.dvd_of_mod_eq_zero h.1
  rwa [Nat.shiftLeft_eq, Nat.one_mul] at this

/-- Subtracting a number that is not negative from a number at most the double
`q` gives, when the result is a number above 0, a number at most `q`: rounding
does not pass a double. -/
theorem sub_le_of_nonneg (c q D : JSNum) (hc : c = q ∨ c.le q = true)
    (hq : q.isDouble = true) (hD : JSNum.le (.fin 0) D = true)
    (hpos : (c.orZero.sub D).le (.fin 0) = false) (hnan : (c.orZero.sub D).isNaN = false) :
    (c.orZero.sub D).le q = true := by
  cases D with
  | nan => cases hD
  | inf t =>
    cases t
    · cases hco : c.orZero with
      | nan => rw [hco] at hnan; cases hnan
      | inf s =>
        rw [hco] at hpos hnan
        cases s
        · cases hnan
        · cases hpos
      | fin x => rw [hco] at hpos; cases hpos
    · cases hD
  | fin b =>
    have hb : 0 ≤ b := by simpa [JSNum.le] using hD
    cases c with
    | nan =>
      have : (JSNum.nan.orZero.sub (.fin b)).le (.fin 0) = true := by
        show (JSNum.ofUnits (0 - b)).le (.fin 0) = true
        rw [ofUnits_le_zero]
        simp only [decide_eq_true_eq]
        omega
      rw [this] at hpos
      cases hpos
    | inf s =>
      cases s
      · have hqinf : q = .inf false := by
          rcases hc with h | h
          · exact h.symm
          · cases q with
            | nan => cases h
            | inf t => cases t <;> simp_all [JSNum.le]
            | fin y => cases h
        rw [hqinf]
        rfl
      · cases hpos
    | fin x =>
      rw [orZero_of_not_nan (.fin x) rfl] at hpos ⊢
      have hxb : ¬ x - b ≤ 0 := by
        have h := ofUnits_le_zero (x - b)
        have hpos' : (JSNum.ofUnits (x - b)).le (.fin 0) = false := hpos
        rw [hpos'] at h
        simpa using h.symm
      cases q with
      | nan =>
        rcases hc with h | h
        · cases h
        · cases h
      | inf t =>
        rcases hc with h | h
        · cases h
        · cases t
          · show (JSNum.ofUnits (x - b)).le (.inf false) = true
            rw [ofUnits_eq]
            split
            · rfl
            · cases decide (x - b < 0) <;> rfl
          · cases h
      | fin y =>
        have hxy : x ≤ y := by
          rcases hc with h | h
          · injection h with h'
            omega
          · simpa [JSNum.le] using h
        obtain ⟨hdvd, hlt⟩ := isDouble_fin y hq
        have habs : (x - b).natAbs ≤ y.natAbs := by omega
        have hround := roundUnits_le _ _ habs hdvd
        show (JSNum.ofUnits (x - b)).le (.fin y) = true
        rw [ofUnits_eq, if_pos (lt_of_le_of_lt hround hlt)]
        have hneg : ¬ x - b < 0 := by omega
        rw [if_neg hneg]
        simp only [JSNum.le, decide_eq_true_eq]
        omega

/-! ## The store calls -/

theorem le_zero_not_nan (q : JSNum) (h : q.le (.fin 0) = true) : q.isNaN = false := by
  cases q with
  | nan => cases h
  | inf s => rfl
  | fin u => rfl

theorem modifyFirst_of_fixed (p : Doc → Bool) (f : Doc → Doc) (hf : ∀ d, f d = d) :
    ∀ docs : List Doc, modifyFirst p f docs = docs := by
  intro docs
  induction docs with
  | nil => rfl
  | cons d ds ih =>
    rw [modifyFirst, hf d, ih]
    split <;> rfl

theorem setPendingQuantity_of_nan (q : JSNum) (h : q.isNaN = true) (d : Doc) :
    d.setPendingQuantity q = d := by
  unfold Doc.setPendingQuantity
  rw [if_pos h]

theorem setPendingQuantity_of_not_nan (q : JSNum) (h : q.isNaN = false) (d : Doc) :
    d.setPendingQuantity q = { d with data := { d.data with pendingQuantity := q } } := by
  unfold Doc.setPendingQuantity
  rw [if_neg (by simp [h])]

theorem setPendingQuantity_id (q : JSNum) (d : Doc) : (d.setPendingQuantity q).id = d.id := by
  unfold Doc.setPendingQuantity
  split <;> rfl

theorem reconcileRow_eq (F : Faults) (db : DB) (row : Row) (c : Nat) :
    reconcileRow F db row c =
      if F db.calls then ({ db with calls := db.calls + 1 }, .error .storeRejected)
      else
        match db.pending.find? (matchesFilter (pendingMatch row)) with
        | none => ({ db with calls := db.calls + 1 }, .ok c)
        | some item =>
          if (item.data.pendingQuantity.orZero.sub (shippedNow row)).le (.fin 0) then
            if F (db.calls + 1) then
              ({ db with calls := db.calls + 2 }, .error .storeRejected)
            else
              ({ db with pending := db.pending.eraseP (fun d => d.id == item.id),
                         calls := db.calls + 2 }, .ok (c + 1))
          else if (item.data.pendingQuantity.orZero.sub (shippedNow row)).isNaN then
            ({ db with calls := db.calls + 1 }, .error (.castError "pendingQuantity"))
          else
            if F (db.calls + 1) then
              ({ db with calls := db.calls + 2 }, .error .storeRejected)
            else
              ({ db with
                  pending := modifyFirst (fun d => d.id == item.id)
                    (Doc.setPendingQuantity
                      (item.data.pendingQuantity.orZero.sub (shippedNow row))) db.pending,
                  calls := db.calls + 2 }, .ok c) := by
  unfold reconcileRow findOne deleteOne updateOne
  simp only [← pendingMatch.eq_1, ← shippedNow.eq_1]
  by_cases h0 : F db.calls = true
  · simp [h0]
  · simp only [h0, Bool.false_eq_true, if_false]
    cases db.pending.find? (matchesFilter (pendingMatch row)) with
    | none => rfl
    | some item =>
      simp only
      by_cases hle : (item.data.pendingQuantity.orZero.sub (shippedNow row)).le (.fin 0) = true
      · simp only [hle, if_true]
        by_cases h1 : F (db.calls + 1) = true <;> simp [h1]
      · simp only [hle, Bool.false_eq_true, if_false]
        by_cases hnan : (item.data.pendingQuantity.orZero.sub (shippedNow row)).isNaN = true
        · simp only [hnan, if_true]
        · simp only [hnan, Bool.false_eq_true, if_false]
          by_cases h1 : F (db.calls + 1) = true <;> simp [h1]

theorem faults_two (F : Faults) (n : Nat) (h0 : F n = false) (h1 : F (n + 1) = false)
    (k : Nat) (hk1 : n ≤ k) (hk2 : k < n + 2) : F k = false := by
  rcases Nat.lt_or_ge n k with h | h
  · have : k = n + 1 := by omega
    rw [this]; exact h1
  · have : k = n := by omega
    rw [this]; exact h0

theorem faults_one (F : Faults) (n : Nat) (h0 : F n = false)
    (k : Nat) (hk1 : n ≤ k) (hk2 : k < n + 1) : F k = false := by
  have : k = n := by omega
  rw [this]; exact h0

/-- The store calls of a healthy reconciliation of one row. -/
theorem reconcileCalls_single (pending : List Doc) (row : Row) :
    reconcileCalls pending [row] =
      if castFails pending row then 1
      else if (pending.find? (matchesFilter (pendingMatch row))).isSome then 2 else 1 := by
  unfold reconcileCalls
  split
  · rfl
  · simp [reconcileCalls]

/-- One reconciliation step: the orders and the fresh id are untouched and at
least one store call is made.  Either a store call was rejected: the step throws,
`PendingOrder` is as before, and the rejected call is the last one made; or the
new quantity is `NaN`: the step throws a cast error and `PendingOrder` is as
before; or the step acts as `reconcileDocs`. -/
theorem reconcileRow_spec (F : Faults) (db : DB) (row : Row) (c : Nat) :
    (reconcileRow F db row c).1.orders = db.orders ∧
    (reconcileRow F db row c).1.nextId = db.nextId ∧
    db.calls < (reconcileRow F db row c).1.calls ∧
    (((reconcileRow F db row c).2 = .error .storeRejected ∧
        (reconcileRow F db row c).1.pending = db.pending ∧
        F ((reconcileRow F db row c).1.calls - 1) = true ∧
        (∀ k, db.calls ≤ k → k < (reconcileRow F db row c).1.calls - 1 → F k = false) ∧
        (reconcileRow F db row c).1.calls ≤ db.calls + reconcileCalls db.pending [row]) ∨
     ((reconcileRow F db row c).2 = .error (.castError "pendingQuantity") ∧
        (reconcileRow F db row c).1.pending = db.pending ∧
        castFails db.pending row = true ∧
        (reconcileRow F db row c).1.calls = db.calls + 1 ∧
        F db.calls = false) ∨
     ((reconcileRow F db row c).2 = .ok (c + (reconcileDocs db.pending row).2) ∧
        (reconcileRow F db row c).1.pending = (reconcileDocs db.pending row).1 ∧
        castFails db.pending row = false ∧
        (reconcileRow F db row c).1.calls = db.calls + reconcileCalls db.pending [row] ∧
        ∀ k, db.calls ≤ k → k < (reconcileRow F db row c).1.calls → F k = false)) := by
  rw [reconcileRow_eq, reconcileCalls_single]
  unfold reconcileDocs castFails
  by_cases h0 : F db.calls = true
  · rw [if_pos h0]
    refine ⟨rfl, rfl, Nat.lt_succ_self _, Or.inl ⟨rfl, rfl, h0, ?_, ?_⟩⟩
    · intro k hk1 hk2
      have : k < db.calls + 1 - 1 := hk2
      omega
    · show db.calls + 1 ≤ _
      split
      · exact le_refl _
      · split <;> omega
  · have h0f : F db.calls = false := by simpa using h0
    rw [if_neg h0]
    cases hfind : db.pending.find? (matchesFilter (pendingMatch row)) with
    | none =>
      exact ⟨rfl, rfl, Nat.lt_succ_self _,
        Or.inr (Or.inr ⟨rfl, rfl, rfl, rfl, faults_one F db.calls h0f⟩)⟩
    | some item =>
      by_cases hle : (item.data.pendingQuantity.orZero.sub (shippedNow row)).le (.fin 0) = true
      · have hnan := le_zero_not_nan _ hle
        simp only [hle, if_true, hnan, Bool.false_eq_true, if_false, Option.isSome_some]
        by_cases h1 : F (db.calls + 1) = true
        · rw [if_pos h1]
          refine ⟨rfl, rfl, by show db.calls < db.calls + 2; omega,
            Or.inl ⟨rfl, rfl, h1, ?_, le_refl _⟩⟩
          intro k hk1 hk2
          have hk3 : k < db.calls + 2 - 1 := hk2
          exact faults_one F db.calls h0f k hk1 (by omega)
        · have h1f : F (db.calls + 1) = false := by simpa using h1
          rw [if_neg h1]
          exact ⟨rfl, rfl, by show db.calls < db.calls + 2; omega,
            Or.inr (Or.inr ⟨rfl, rfl, trivial, rfl, faults_two F db.calls h0f h1f⟩)⟩
      · simp only [hle, Bool.false_eq_true, if_false]
        by_cases hnan : (item.data.pendingQuantity.orZero.sub (shippedNow row)).isNaN = true
        · rw [if_pos hnan]
          exact ⟨rfl, rfl, Nat.lt_succ_self _, Or.inr (Or.inl ⟨rfl, rfl, hnan, rfl, h0f⟩)⟩
        · simp only [hnan, Bool.false_eq_true, if_false, Option.isSome_some, if_true]
          by_cases h1 : F (db.calls + 1) = true
          · rw [if_pos h1]
            refine ⟨rfl, rfl, by show db.calls < db.calls + 2; omega,
              Or.inl ⟨rfl, rfl, h1, ?_, le_refl _⟩⟩
            intro k hk1 hk2
            have hk3 : k < db.calls + 2 - 1 := hk2
            exact faults_one F db.calls h0f k hk1 (by omega)
          · have h1f : F (db.calls + 1) = false := by simpa using h1
            rw [if_neg h1]
            exact ⟨rfl, rfl, by show db.calls < db.calls + 2; omega,
              Or.inr (Or.inr ⟨by simp, rfl, by simpa using hnan, rfl,
                faults_two F db.calls h0f h1f⟩)⟩

/-- A row that ends in a cast error leaves the documents as they are. -/
theorem reconcileDocs_of_castFails (pending : List Doc) (row : Row)
    (h : castFails pending row = true) : reconcileDocs pending row = (pending, 0) := by
  unfold castFails at h
  unfold reconcileDocs
  cases hfind : pending.find? (matchesFilter (pendingMatch row)) with
  | none => rfl
  | some item =>
    rw [hfind] at h
    simp only at h ⊢
    have hle : (item.data.pendingQuantity.orZero.sub (shippedNow row)).le (.fin 0) = false := by
      cases hq : item.data.pendingQuantity.orZero.sub (shippedNow row) with
      | nan => rfl
      | inf s => rw [hq] at h; cases h
      | fin u => rw [hq] at h; cases h
    rw [hle]
    simp only [Bool.false_eq_true, if_false]
    rw [modifyFirst_of_fixed _ _ (setPendingQuantity_of_nan _ h)]

theorem reconcileAll_cons (pending : List Doc) (row : Row) (rest : List Row) :
    reconcileAll pending (row :: rest) =
      if castFails pending row then (pending, 0)
      else ((reconcileAll (reconcileDocs pending row).1 rest).1,
        (reconcileDocs pending row).2 + (reconcileAll (reconcileDocs pending row).1 rest).2) :=
  rfl

theorem reconcileCalls_cons (pending : List Doc) (row : Row) (rest : List Row) :
    reconcileCalls pending (row :: rest) =
      if castFails pending row then 1
      else (if (pending.find? (matchesFilter (pendingMatch row))).isSome then 2 else 1) +
        reconcileCalls (reconcileDocs pending row).1 rest :=
  rfl

theorem reconcileCalls_cons_of_ok (pending : List Doc) (row : Row) (rest : List Row)
    (h : castFails pending row = false) :
    reconcileCalls pending (row :: rest) =
      reconcileCalls pending [row] + reconcileCalls (reconcileDocs pending row).1 rest := by
  rw [reconcileCalls_cons, reconcileCalls_single, h]
  simp

/-- The reconciliation loop: the orders and the fresh id are untouched; either
the loop throws and `PendingOrder` is what reconciling the rows before the
failing one gives, or no call was rejected and the loop acts as `reconcileAll`. -/
theorem reconcile_spec (F : Faults) (rows : List Row) : ∀ (db : DB) (c : Nat),
    (reconcile F db rows c).1.orders = db.orders ∧
    (reconcile F db rows c).1.nextId = db.nextId ∧
    db.calls ≤ (reconcile F db rows c).1.calls ∧
    (((∃ e, (reconcile F db rows c).2 = .error e) ∧
        (∃ pre row post, rows = pre ++ row :: post ∧
          (reconcile F db rows c).1.pending = (reconcileAll db.pending pre).1)) ∨
     ((reconcile F db rows c).2 = .ok (c + (reconcileAll db.pending rows).2) ∧
        (reconcile F db rows c).1.pending = (reconcileAll db.pending rows).1 ∧
        castFailsIn db.pending rows = false ∧
        ∀ k, db.calls ≤ k → k < (reconcile F db rows c).1.calls → F k = false)) := by
  induction rows with
  | nil =>
    intro db c
    refine ⟨rfl, rfl, le_refl _, Or.inr ⟨rfl, rfl, rfl, ?_⟩⟩
    intro k hk1 hk2
    have : k < db.calls := hk2
    omega
  | cons row rest ih =>
    intro db c
    obtain ⟨ho, hn, hc, hcase⟩ := reconcileRow_spec F db row c
    unfold reconcile
    rcases hstep : reconcileRow F db row c with ⟨db1, res⟩
    rw [hstep] at ho hn hc hcase
    simp only at ho hn hc hcase
    rcases hcase with ⟨hres, hp, _⟩ | ⟨hres, hp, _⟩ | ⟨hres, hp, hcf, hcalls, hk⟩
    · subst hres
      exact ⟨ho, hn, le_of_lt hc, Or.inl ⟨⟨_, rfl⟩, [], row, rest, rfl, hp⟩⟩
    · subst hres
      exact ⟨ho, hn, le_of_lt hc, Or.inl ⟨⟨_, rfl⟩, [], row, rest, rfl, hp⟩⟩
    · subst hres
      simp only
      obtain ⟨ho2, hn2, hc2, hcase2⟩ := ih db1 (c + (reconcileDocs db.pending row).2)
      refine ⟨ho2.trans ho, hn2.trans hn, le_trans (le_of_lt hc) hc2, ?_⟩
      rcases hcase2 with ⟨hres2, pre, r, post, hrows, hp2⟩ | ⟨hres2, hp2, hcf2, hk2⟩
      · refine Or.inl ⟨hres2, row :: pre, r, post, by simp [hrows], ?_⟩
        rw [hp2, hp, reconcileAll_cons, hcf]
        rfl
      · refine Or.inr ⟨?_, ?_, ?_, ?_⟩
        · rw [hres2, hp, reconcileAll_cons, hcf]
          simp [Nat.add_assoc]
        · rw [hp2, hp, reconcileAll_cons, hcf]
          rfl
        · rw [hp] at hcf2
          simp [castFailsIn, hcf, hcf2]
        · intro k hk1 hk3
          rcases Nat.lt_or_ge k db1.calls with h | h
          · exact hk k hk1 h
          · exact hk2 k h hk3

/-- The reconciliation loop when no store call rejects. -/
theorem reconcile_noFaults (rows : List Row) : ∀ (db : DB) (c : Nat),
    (reconcile noFaults db rows c).1.pending = (reconcileAll db.pending rows).1 ∧
    (reconcile noFaults db rows c).1.orders = db.orders ∧
    (reconcile noFaults db rows c).1.nextId = db.nextId ∧
    (reconcile noFaults db rows c).1.calls = db.calls + reconcileCalls db.pending rows ∧
    (reconcile noFaults db rows c).2 =
      if castFailsIn db.pending rows then .error (.castError "pendingQuantity")
      else .ok (c + (reconcileAll db.pending rows).2) := by
  induction rows with
  | nil => intro db c; exact ⟨rfl, rfl, rfl, rfl, rfl⟩
  | cons row rest ih =>
    intro db c
    obtain ⟨ho, hn, _, hcase⟩ := reconcileRow_spec noFaults db row c
    unfold reconcile
    rcases hstep : reconcileRow noFaults db row c with ⟨db1, res⟩
    rw [hstep] at ho hn hcase
    simp only at ho hn hcase
    rcases hcase with ⟨_, _, hk, _⟩ | ⟨hres, hp, hcf, hcalls, _⟩ | ⟨hres, hp, hcf, hcalls, _⟩
    · simp [noFaults] at hk
    · subst hres
      refine ⟨?_, ho, hn, ?_, ?_⟩
      · rw [reconcileAll_cons, hcf]; exact hp
      · rw [reconcileCalls_cons, hcf]; exact hcalls
      · simp [castFailsIn, hcf]
    · subst hres
      simp only
      obtain ⟨hp2, ho2, hn2, hc2, hres2⟩ := ih db1 (c + (reconcileDocs db.pending row).2)
      refine ⟨?_, ho2.trans ho, hn2.trans hn, ?_, ?_⟩
      · rw [hp2, hp, reconcileAll_cons, hcf]; rfl
      · have hsplit : reconcileCalls db.pending (row :: rest) =
            reconcileCalls db.pending [row] + reconcileCalls db1.pending rest := by
          rw [hp]; exact reconcileCalls_cons_of_ok _ _ _ hcf
        rw [hsplit, hc2, hcalls, Nat.add_assoc]
      · rw [hres2, hp, reconcileAll_cons, hcf]
        simp [castFailsIn, hcf, Nat.add_assoc]

/-- The reconciliation loop when call `k` is the first that the store rejects
and the loop gets to it: the loop throws at that call; the rows before the
failing one have been reconciled and the call is one of those made for the
failing row. -/
theorem reconcile_first_fault (F : Faults) (k : Nat) (hk : F k = true) (rows : List Row) :
    ∀ (db : DB) (c : Nat), (∀ j, db.calls ≤ j → j < k → F j = false) → db.calls ≤ k →
      k < (reconcile F db rows c).1.calls →
      (reconcile F db rows c).2 = .error .storeRejected ∧
      (reconcile F db rows c).1.calls = k + 1 ∧
      ∃ pre row post, rows = pre ++ row :: post ∧
        castFailsIn db.pending pre = false ∧
        (reconcile F db rows c).1.pending = (reconcileAll db.pending pre).1 ∧
        db.calls + reconcileCalls db.pending pre ≤ k ∧
        k < db.calls + reconcileCalls db.pending (pre ++ [row]) := by
  induction rows with
  | nil =>
    intro db c _ h1 h2
    have : k < db.calls := h2
    omega
  | cons row rest ih =>
    intro db c hbefore h1 h2
    obtain ⟨_, _, hc, hcase⟩ := reconcileRow_spec F db row c
    unfold reconcile at h2 ⊢
    rcases hstep : reconcileRow F db row c with ⟨db1, res⟩
    rw [hstep] at hc hcase h2
    simp only at hc hcase h2
    rcases hcase with ⟨hres, hp, hlast, hearlier, hcalls⟩ | ⟨hres, hp, hcf, hcalls, h0⟩ |
      ⟨hres, hp, hcf, hcalls, hnone⟩
    · subst hres
      simp only at h2
      have hkeq : k = db1.calls - 1 := by
        rcases Nat.lt_or_ge k (db1.calls - 1) with h | h
        · have := hearlier k h1 h
          rw [this] at hk
          cases hk
        · omega
      refine ⟨rfl, ?_, [], row, rest, rfl, rfl, hp, ?_, ?_⟩
      · show db1.calls = k + 1
        omega
      · show db.calls + 0 ≤ k
        omega
      · show k < db.calls + reconcileCalls db.pending [row]
        omega
    · subst hres
      simp only at h2
      have : k = db.calls := by omega
      rw [this] at hk
      rw [h0] at hk
      cases hk
    · subst hres
      simp only at h2
      have hk1 : db1.calls ≤ k := by
        rcases Nat.lt_or_ge k db1.calls with h | h
        · have := hnone k h1 h
          rw [this] at hk
          cases hk
        · exact h
      obtain ⟨hres2, hcalls2, pre, r, post, hrows, hcf2, hp2, hlo, hhi⟩ :=
        ih db1 (c + (reconcileDocs db.pending row).2)
          (fun j hj1 hj2 => hbefore j (le_trans (le_of_lt hc) hj1) hj2) hk1 h2
      rw [hp] at hcf2 hp2 hlo hhi
      have hs1 := reconcileCalls_cons_of_ok db.pending row pre hcf
      have hs2 := reconcileCalls_cons_of_ok db.pending row (pre ++ [r]) hcf
      refine ⟨hres2, hcalls2, row :: pre, r, post, by simp [hrows], ?_, ?_, ?_, ?_⟩
      · simp [castFailsIn, hcf, hcf2]
      · rw [reconcileAll_cons, hcf]; exact hp2
      · omega
      · rw [List.cons_append]
        omega

/-- The function `processBatch` on a non-empty batch, by cases on the bulk
write being rejected. -/
theorem processBatch_eq (F : Faults) (db : DB) (rows : List Row) (statusType : String)
    (hrows : rows ≠ []) :
    processBatch F db rows statusType =
      if F db.calls then ({ db with calls := db.calls + 1 }, .error .storeRejected)
      else
        let st := bulkDocs (db.docs (targetOf statusType)) db.nextId rows statusType
        let db1 : DB :=
          { (db.setDocs (targetOf statusType) st.1) with nextId := st.2, calls := db.calls + 1 }
        if statusType == "DISPATCHED" then
          match reconcile F db1 rows 0 with
          | (db2, .error e) => (db2, .error e)
          | (db2, .ok reconciledCount) => (db2, .ok (.counts rows.length reconciledCount))
        else (db1, .ok (.counts rows.length 0)) := by
  have hlen : 0 < rows.length := List.length_pos.mpr hrows
  have hne : (rows.length == 0) = false := by
    simp only [beq_eq_false_iff_ne, ne_eq]; omega
  unfold processBatch bulkWrite
  simp only [hne, Bool.false_eq_true, if_false]
  have hops : (buildOperations rows statusType).length = rows.length := by
    simp [buildOperations]
  simp only [hops, gt_iff_lt, hlen, if_true]
  by_cases h0 : F db.calls = true
  · simp [h0]
  · simp only [h0, if_false]
    rfl

/-- A non-empty dispatch batch when no store call rejects. -/
theorem processBatch_dispatched_noFaults (db : DB) (rows : List Row) (hrows : rows ≠ []) :
    (processBatch noFaults db rows "DISPATCHED").1.pending = (reconcileAll db.pending rows).1 ∧
    (processBatch noFaults db rows "DISPATCHED").1.orders =
        (bulkDocs db.orders db.nextId rows "DISPATCHED").1 ∧
    (processBatch noFaults db rows "DISPATCHED").1.nextId =
        (bulkDocs db.orders db.nextId rows "DISPATCHED").2 ∧
    (processBatch noFaults db rows "DISPATCHED").1.calls =
        db.calls + 1 + reconcileCalls db.pending rows ∧
    (processBatch noFaults db rows "DISPATCHED").2 =
      if castFailsIn db.pending rows then .error (.castError "pendingQuantity")
      else .ok (.counts rows.length (reconcileAll db.pending rows).2) := by
  rw [processBatch_eq noFaults db rows "DISPATCHED" hrows]
  have ht : targetOf "DISPATCHED" = Collection.Order := by decide
  have hd : ("DISPATCHED" == "DISPATCHED") = true := by decide
  simp only [noFaults, Bool.false_eq_true, if_false, ht, hd, if_true, DB.docs, DB.setDocs]
  obtain ⟨hp, ho, hn, hc, hres⟩ := reconcile_noFaults rows
    { orders := (bulkDocs db.orders db.nextId rows "DISPATCHED").1, pending := db.pending,
      nextId := (bulkDocs db.orders db.nextId rows "DISPATCHED").2, calls := db.calls + 1 } 0
  rcases hrec : reconcile noFaults
    { orders := (bulkDocs db.orders db.nextId rows "DISPATCHED").1, pending := db.pending,
      nextId := (bulkDocs db.orders db.nextId rows "DISPATCHED").2, calls := db.calls + 1 } rows 0
    with ⟨db2, res⟩
  rw [hrec] at hres hp ho hn hc
  simp only at hres hp ho hn hc
  by_cases hcf : castFailsIn db.pending rows = true
  · rw [if_pos hcf] at hres
    rw [if_pos hcf]
    subst hres
    exact ⟨hp, ho, hn, hc, rfl⟩
  · rw [if_neg hcf, Nat.zero_add] at hres
    rw [if_neg hcf]
    subst hres
    exact ⟨hp, ho, hn, hc, rfl⟩

/-- A non-empty pending batch when no store call rejects. -/
theorem processBatch_pending_noFaults (db : DB) (rows : List Row) (hrows : rows ≠ []) :
    processBatch noFaults db rows "PENDING" =
      ({ db with pending := (bulkDocs db.pending db.nextId rows "PENDING").1,
                 nextId := (bulkDocs db.pending db.nextId rows "PENDING").2,
                 calls := db.calls + 1 }, .ok (.counts rows.length 0)) := by
  rw [processBatch_eq noFaults db rows "PENDING" hrows]
  have ht : targetOf "PENDING" = Collection.PendingOrder := by decide
  have hd : ("PENDING" == "DISPATCHED") = false := by decide
  simp only [noFaults, Bool.false_eq_true, if_false, ht, hd, DB.docs, DB.setDocs]

/-! ## Filters and lists of documents -/

theorem matchesFilter_pendingMatch (row : Row) (d : Doc) :
    matchesFilter (pendingMatch row) d = true ↔
      d.data.poNumber = (mapFields row).poNumber ∧
      d.data.productCode = (mapFields row).productCode ∧
      d.data.size = (mapFields row).size := by
  simp [matchesFilter, pendingMatch, Mapped.key]

theorem modifyFirst_append_cons (p : Doc → Bool) (f : Doc → Doc) (pre post : List Doc)
    (d : Doc) (hpre : ∀ e ∈ pre, p e = false) (hd : p d = true) :
    modifyFirst p f (pre ++ d :: post) = pre ++ f d :: post := by
  induction pre with
  | nil => simp [modifyFirst, hd]
  | cons e pre ih =>
    have he : p e = false := hpre e (List.mem_cons_self _ _)
    have ih2 := ih (fun x hx => hpre x (List.mem_cons_of_mem _ hx))
    simp only [List.cons_append]
    rw [modifyFirst]
    simp only [he, Bool.false_eq_true, if_false, ih2]

/-- The reconciliation of one row acts on the first matching record only. -/
theorem reconcileDocs_first (row : Row) (pre post : List Doc) (item : Doc)
    (hids : ((pre ++ item :: post).map Doc.id).Nodup)
    (hmatch : matchesFilter (pendingMatch row) item = true)
    (hpre : ∀ e ∈ pre, matchesFilter (pendingMatch row) e = false) :
    (pre ++ item :: post).find? (matchesFilter (pendingMatch row)) = some item ∧
    reconcileDocs (pre ++ item :: post) row =
      if (item.data.pendingQuantity.orZero.sub (shippedNow row)).le (.fin 0) then
        (pre ++ post, 1)
      else
        (pre ++ item.setPendingQuantity
          (item.data.pendingQuantity.orZero.sub (shippedNow row)) :: post, 0) := by
  have hfind : (pre ++ item :: post).find? (matchesFilter (pendingMatch row)) = some item := by
    rw [List.find?_append]
    have h1 : pre.find? (matchesFilter (pendingMatch row)) = none := by
      rw [List.find?_eq_none]
      intro x hx
      simp [hpre x hx]
    rw [h1, List.find?_cons, hmatch]
    rfl
  have hidpre : ∀ e ∈ pre, (e.id == item.id) = false := by
    intro e he
    rw [List.map_append, List.nodup_append] at hids
    have hdis := hids.2.2
    simp only [beq_eq_false_iff_ne, ne_eq]
    intro heq
    exact hdis (List.mem_map_of_mem Doc.id he)
      (by rw [heq]; exact List.mem_map_of_mem Doc.id (List.mem_cons_self _ _))
  refine ⟨hfind, ?_⟩
  unfold reconcileDocs
  rw [hfind]
  simp only
  by_cases hle : (item.data.pendingQuantity.orZero.sub (shippedNow row)).le (.fin 0) = true
  · rw [if_pos hle, if_pos hle]
    rw [List.eraseP_append_right _ (by intro e he; simpa using hidpre e he)]
    simp
  · rw [if_neg hle, if_neg hle]
    rw [modifyFirst_append_cons _ _ pre post item hidpre (by simp)]

/-- Whether the reconciliation of a one-row batch ends in a cast error, when
the first matching record is known. -/
theorem castFails_first (row : Row) (pre post : List Doc) (item : Doc)
    (hmatch : matchesFilter (pendingMatch row) item = true)
    (hpre : ∀ e ∈ pre, matchesFilter (pendingMatch row) e = false) :
    castFails (pre ++ item :: post) row =
      (item.data.pendingQuantity.orZero.sub (shippedNow row)).isNaN := by
  have hfind : (pre ++ item :: post).find? (matchesFilter (pendingMatch row)) = some item := by
    rw [List.find?_append]
    have h1 : pre.find? (matchesFilter (pendingMatch row)) = none := by
      rw [List.find?_eq_none]
      intro x hx
      simp [hpre x hx]
    rw [h1, List.find?_cons, hmatch]
    rfl
  unfold castFails
  rw [hfind]

/-- The pending ledger after a one-row dispatch batch with a healthy store. -/
theorem processBatch_single_pending (db : DB) (row : Row) :
    (processBatch noFaults db [row] "DISPATCHED").1.pending = (reconcileDocs db.pending row).1 := by
  obtain ⟨hp, _⟩ := processBatch_dispatched_noFaults db [row] (by simp)
  rw [hp, reconcileAll_cons]
  by_cases hcf : castFails db.pending row = true
  · rw [if_pos hcf, reconcileDocs_of_castFails _ _ hcf]
  · rw [if_neg hcf]
    rfl

/-- The result of a one-row dispatch batch with a healthy store. -/
theorem processBatch_single_result (db : DB) (row : Row) :
    (processBatch noFaults db [row] "DISPATCHED").2 =
      if castFails db.pending row then .error (.castError "pendingQuantity")
      else .ok (.counts 1 (reconcileDocs db.pending row).2) := by
  obtain ⟨_, _, _, _, hres⟩ := processBatch_dispatched_noFaults db [row] (by simp)
  rw [hres]
  by_cases hcf : castFails db.pending row = true
  · simp [castFailsIn, hcf]
  · simp [castFailsIn, hcf, reconcileAll_cons, reconcileAll]

/-! ## C1: reconciliation of a single matching record -/

/-- C1, the claim as stated fails in two ways.  When Q and D are both
`Infinity`, `D >= Q` holds, but `Q - D` is `NaN`, the test `NaN <= 0` fails, and
the update with `NaN` is rejected: the record stays and no row is counted.  When
Q = 9007199254740994 and D = 1, the record gets 9007199254740992, the double
nearest to the difference, and not the difference 9007199254740993. -/
theorem C1_reconcile_single_match_counterexample :
    (infinitePending.data.pendingQuantity = .inf false ∧
     (mapFields (exampleDispatch "Infinity")).dispatchQuantity = .inf false ∧
     JSNum.le (.inf false) (.inf false) = true ∧
     (processBatch noFaults ⟨[], [infinitePending], 8, 0⟩ [exampleDispatch "Infinity"]
        "DISPATCHED").1.pending = [infinitePending] ∧
     (processBatch noFaults ⟨[], [infinitePending], 8, 0⟩ [exampleDispatch "Infinity"]
        "DISPATCHED").2 = .error (.castError "pendingQuantity")) ∧
    (largePending.data.pendingQuantity = .fin (9007199254740994 * JSNum.scale) ∧
     (mapFields (exampleDispatch "1")).dispatchQuantity = .fin (1 * JSNum.scale) ∧
     (processBatch noFaults ⟨[], [largePending], 8, 0⟩ [exampleDispatch "1"]
        "DISPATCHED").1.pending.map (fun d => d.data.pendingQuantity) =
          [.fin (9007199254740992 * JSNum.scale)]) := by
  refine ⟨⟨?_, ?_, ?_, ?_, ?_⟩, ?_, ?_, ?_⟩
  · decide
  · decide
  · decide
  · decide
  · rfl
  · decide
  · decide
  · decide

/-- A one-row DISPATCHED batch against the only matching record, whose
`pendingQuantity` is `Q`, with a row that maps to `dispatchQuantity = D`: the
record gets the double `Q - D` if `D < Q`, is deleted if `D >= Q` and the two are
not the same infinity, and stays, with a cast error thrown, if they are. -/
theorem processBatch_single_match (db : DB) (row : Row) (pre post : List Doc) (d : Doc)
    (Q D : JSNum)
    (hpending : db.pending = pre ++ d :: post)
    (hids : (db.pending.map Doc.id).Nodup)
    (hmatch : d.data.poNumber = (mapFields row).poNumber ∧
      d.data.productCode = (mapFields row).productCode ∧
      d.data.size = (mapFields row).size)
    (hothers : ∀ e ∈ pre ++ post, ¬ (e.data.poNumber = (mapFields row).poNumber ∧
      e.data.productCode = (mapFields row).productCode ∧
      e.data.size = (mapFields row).size))
    (hQ : d.data.pendingQuantity = Q)
    (hD : (mapFields row).dispatchQuantity = D) :
    (D.lt Q = true →
      (processBatch noFaults db [row] "DISPATCHED").1.pending =
          pre ++ d.setPendingQuantity (Q.sub D) :: post ∧
      (d.setPendingQuantity (Q.sub D)).data.pendingQuantity = Q.sub D ∧
      (processBatch noFaults db [row] "DISPATCHED").2 = .ok (.counts 1 0)) ∧
    (Q.le D = true → (∀ s, ¬ (Q = .inf s ∧ D = .inf s)) →
      (processBatch noFaults db [row] "DISPATCHED").1.pending = pre ++ post ∧
      (processBatch noFaults db [row] "DISPATCHED").2 = .ok (.counts 1 1)) ∧
    (∀ s, Q = .inf s → D = .inf s →
      (processBatch noFaults db [row] "DISPATCHED").1.pending = db.pending ∧
      (processBatch noFaults db [row] "DISPATCHED").2 = .error (.castError "pendingQuantity")) ∧
    (∀ q e : Int, q.natAbs ≤ 2 ^ 53 → e.natAbs ≤ 2 ^ 53 →
      Q = JSNum.ofInt q → D = JSNum.ofInt e →
      Q.sub D = JSNum.ofInt (q - e) ∧ (D.lt Q = true ↔ e < q) ∧ (Q.le D = true ↔ q ≤ e)) := by
  have hm := (matchesFilter_pendingMatch row d).mpr hmatch
  have hpre : ∀ e ∈ pre, matchesFilter (pendingMatch row) e = false := by
    intro e he
    have := hothers e (List.mem_append_left _ he)
    rw [← matchesFilter_pendingMatch] at this
    simpa using this
  have hids' : ((pre ++ d :: post).map Doc.id).Nodup := hpending ▸ hids
  obtain ⟨_, hstep⟩ := reconcileDocs_first row pre post d hids' hm hpre
  have hcast := castFails_first row pre post d hm hpre
  have hpend := processBatch_single_pending db row
  have hres := processBatch_single_result db row
  rw [hpending] at hpend hres
  rw [hstep] at hpend hres
  rw [hcast] at hres
  rw [shippedNow_eq, hD, hQ] at hpend hres
  refine ⟨?_, ?_, ?_, ?_⟩
  · intro hlt
    have hQn : Q.isNaN = false := by
      cases Q with
      | nan => cases D <;> cases hlt
      | inf s => rfl
      | fin u => rfl
    rw [orZero_of_not_nan Q hQn] at hpend hres
    obtain ⟨hle, hnan⟩ := sub_pos_of_lt Q D hlt
    rw [hle] at hpend hres
    rw [hnan] at hres
    refine ⟨hpend, ?_, hres⟩
    rw [setPendingQuantity_of_not_nan _ hnan]
  · intro hle hinf
    have hQn : Q.isNaN = false := by
      cases Q with
      | nan => cases D <;> cases hle
      | inf s => rfl
      | fin u => rfl
    rw [orZero_of_not_nan Q hQn] at hpend hres
    have h0 := sub_le_zero_of_le Q D hle hinf
    rw [h0] at hpend hres
    rw [le_zero_not_nan _ h0] at hres
    exact ⟨hpend, hres⟩
  · intro s hQs hDs
    rw [hQs, hDs, orZero_of_not_nan (.inf s) rfl, sub_inf_self] at hpend hres
    refine ⟨?_, hres⟩
    rw [hpend, hpending]
    show pre ++ d.setPendingQuantity .nan :: post = _
    rw [setPendingQuantity_of_nan .nan rfl]
  · intro q e hq he hQq hDe
    rw [hQq, hDe]
    refine ⟨sub_ofInt q e hq he, ?_, ?_⟩
    · rw [lt_ofInt e q he hq]; simp
    · rw [le_ofInt q e hq he]; simp

/-- C1, amended.  When `PendingOrder` holds exactly one record matching the
`poNumber`, `productCode` and `size` of a row, with `pendingQuantity = Q`, and the
row maps to `dispatchQuantity = D`, then `processBatch` on the one-row DISPATCHED
batch leaves that record with `pendingQuantity = Q - D`, the double that
JavaScript computes, if `D < Q`, and deletes it and returns reconciled = 1 if
`D >= Q` and the two are not the same infinity; the other records are untouched.
When Q and D are the same infinity, the record stays and `processBatch` throws.
For integers of magnitude at most `2^53` the double `Q - D` is the exact
difference and the comparisons are those of the integers. -/
theorem C1_reconcile_single_match (db : DB) (row : Row) (pre post : List Doc) (d : Doc)
    (Q D : JSNum)
    (hpending : db.pending = pre ++ d :: post)
    (hids : (db.pending.map Doc.id).Nodup)
    (hmatch : d.data.poNumber = (mapFields row).poNumber ∧
      d.data.productCode = (mapFields row).productCode ∧
      d.data.size = (mapFields row).size)
    (hothers : ∀ e ∈ pre ++ post, ¬ (e.data.poNumber = (mapFields row).poNumber ∧
      e.data.productCode = (mapFields row).productCode ∧
      e.data.size = (mapFields row).size))
    (hQ : d.data.pendingQuantity = Q)
    (hD : (mapFields row).dispatchQuantity = D) :
    (D.lt Q = true →
      (processBatch noFaults db [row] "DISPATCHED").1.pending =
          pre ++ d.setPendingQuantity (Q.sub D) :: post ∧
      (d.setPendingQuantity (Q.sub D)).data.pendingQuantity = Q.sub D ∧
      (processBatch noFaults db [row] "DISPATCHED").2 = .ok (.counts 1 0)) ∧
    (Q.le D = true → (∀ s, ¬ (Q = .inf s ∧ D = .inf s)) →
      (processBatch noFaults db [row] "DISPATCHED").1.pending = pre ++ post ∧
      (processBatch noFaults db [row] "DISPATCHED").2 = .ok (.counts 1 1)) ∧
    (∀ s, Q = .inf s → D = .inf s →
      (processBatch noFaults db [row] "DISPATCHED").1.pending = db.pending ∧
      (processBatch noFaults db [row] "DISPATCHED").2 = .error (.castError "pendingQuantity")) ∧
    (∀ q e : Int, q.natAbs ≤ 2 ^ 53 → e.natAbs ≤ 2 ^ 53 →
      Q = JSNum.ofInt q → D = JSNum.ofInt e →
      Q.sub D = JSNum.ofInt (q - e) ∧ (D.lt Q = true ↔ e < q) ∧ (Q.le D = true ↔ q ≤ e)) :=
  processBatch_single_match db row pre post d Q D hpending hids hmatch hothers hQ hD

/-- C1, amended, at the scenarios of the design document, Q = 100 with D = 40,
which leaves 60, and Q = 100 with D = 150, which deletes the record and counts
it, and at D = 100.5, which deletes it as well. -/
theorem C1_reconcile_single_match_witness :
    ((processBatch noFaults ⟨[], [examplePending], 8, 0⟩ [exampleDispatch "40"]
        "DISPATCHED").1.pending =
          [examplePending.setPendingQuantity ((JSNum.ofInt 100).sub (JSNum.ofInt 40))] ∧
     (examplePending.setPendingQuantity
        ((JSNum.ofInt 100).sub (JSNum.ofInt 40))).data.pendingQuantity =
          (JSNum.ofInt 100).sub (JSNum.ofInt 40) ∧
     (processBatch noFaults ⟨[], [examplePending], 8, 0⟩ [exampleDispatch "40"]
        "DISPATCHED").2 = .ok (.counts 1 0)) ∧
    (JSNum.ofInt 100).sub (JSNum.ofInt 40) = JSNum.ofInt (100 - 40) ∧
    ((processBatch noFaults ⟨[], [examplePending], 8, 0⟩ [exampleDispatch "150"]
        "DISPATCHED").1.pending = [] ∧
     (processBatch noFaults ⟨[], [examplePending], 8, 0⟩ [exampleDispatch "150"]
        "DISPATCHED").2 = .ok (.counts 1 1)) ∧
    ((processBatch noFaults ⟨[], [examplePending], 8, 0⟩ [exampleDispatch "100.5"]
        "DISPATCHED").1.pending = [] ∧
     (processBatch noFaults ⟨[], [examplePending], 8, 0⟩ [exampleDispatch "100.5"]
        "DISPATCHED").2 = .ok (.counts 1 1)) :=
  ⟨(C1_reconcile_single_match ⟨[], [examplePending], 8, 0⟩ (exampleDispatch "40") [] []
      examplePending (JSNum.ofInt 100) (JSNum.ofInt 40) rfl (by decide) (by decide) (by simp)
      (by decide) (by decide)).1 (by decide),
   ((C1_reconcile_single_match ⟨[], [examplePending], 8, 0⟩ (exampleDispatch "40") [] []
      examplePending (JSNum.ofInt 100) (JSNum.ofInt 40) rfl (by decide) (by decide) (by simp)
      (by decide) (by decide)).2.2.2 100 40 (by decide) (by decide) rfl rfl).1,
   (C1_reconcile_single_match ⟨[], [examplePending], 8, 0⟩ (exampleDispatch "150") [] []
      examplePending (JSNum.ofInt 100) (JSNum.ofInt 150) rfl (by decide) (by decide) (by simp)
      (by decide) (by decide)).2.1 (by decide) (by decide),
   (C1_reconcile_single_match ⟨[], [examplePending], 8, 0⟩ (exampleDispatch "100.5") [] []
      examplePending (JSNum.ofInt 100) (mapFields (exampleDispatch "100.5")).dispatchQuantity
      rfl (by decide) (by decide) (by simp) (by decide) rfl).2.1 (by decide) (by decide)⟩

/-! ## Upserts by key -/

section Upsert

variable {κ : Type} [DecidableEq κ] (K : Mapped → κ)

theorem lastFor_eq_none (k : κ) (ms : List Mapped) :
    lastFor K k ms = none ↔ ∀ b ∈ ms, K b ≠ k := by
  induction ms with
  | nil => simp [lastFor]
  | cons a ms ih =>
    unfold lastFor
    cases h : lastFor K k ms with
    | some x =>
      have hex : ¬ ∀ b ∈ ms, K b ≠ k := by
        intro hall
        have := ih.mpr hall
        rw [h] at this
        exact Option.noConfusion this
      simp only [false_iff, reduceCtorEq]
      intro hall
      exact hex (fun b hb => hall b (List.mem_cons_of_mem _ hb))
    | none =>
      have hall := ih.mp h
      by_cases ha : K a = k
      · simp [ha]
      · simp only [ha, if_false, true_iff]
        intro b hb
        rcases List.mem_cons.mp hb with rfl | hb
        · exact ha
        · exact hall b hb

theorem lastFor_some (k : κ) (ms : List Mapped) (x : Mapped) (h : lastFor K k ms = some x) :
    x ∈ ms ∧ K x = k := by
  induction ms with
  | nil => simp [lastFor] at h
  | cons a ms ih =>
    unfold lastFor at h
    cases h2 : lastFor K k ms with
    | some y =>
      rw [h2] at h
      simp only [Option.some.injEq] at h
      subst h
      exact ⟨List.mem_cons_of_mem _ (ih h2).1, (ih h2).2⟩
    | none =>
      rw [h2] at h
      by_cases ha : K a = k
      · simp only [ha, if_true, Option.some.injEq] at h
        subst h
        exact ⟨List.mem_cons_self _ _, ha⟩
      · simp [ha] at h

theorem lastFor_cons_of_some (k : κ) (a : Mapped) (ms : List Mapped) (x : Mapped)
    (h : lastFor K k ms = some x) : lastFor K k (a :: ms) = some x := by
  simp [lastFor, h]

theorem lastFor_cons_of_none (a : Mapped) (ms : List Mapped)
    (h : lastFor K (K a) ms = none) : lastFor K (K a) (a :: ms) = some a := by
  simp [lastFor, h]

theorem lastFor_of_mem (ms : List Mapped) (m : Mapped) (hm : m ∈ ms) :
    ∃ x, lastFor K (K m) ms = some x := by
  cases h : lastFor K (K m) ms with
  | some x => exact ⟨x, rfl⟩
  | none => exact absurd rfl ((lastFor_eq_none K (K m) ms).mp h m hm)

theorem find?_modifyFirst_same (p : Doc → Bool) (f : Doc → Doc) (docs : List Doc)
    (hf : ∀ d, p d = true → p (f d) = true) :
    (modifyFirst p f docs).find? p = (docs.find? p).map f := by
  induction docs with
  | nil => rfl
  | cons d ds ih =>
    rw [modifyFirst]
    by_cases hd : p d = true
    · simp [hd, List.find?_cons, hf d hd]
    · simp [hd, List.find?_cons, ih]

theorem find?_modifyFirst_other (p q : Doc → Bool) (f : Doc → Doc) (docs : List Doc)
    (hq : ∀ d, p d = true → q d = false ∧ q (f d) = false) :
    (modifyFirst p f docs).find? q = docs.find? q := by
  induction docs with
  | nil => rfl
  | cons d ds ih =>
    rw [modifyFirst]
    by_cases hd : p d = true
    · simp [hd, List.find?_cons, (hq d hd).1, (hq d hd).2]
    · simp [hd, List.find?_cons, ih]

theorem any_eq_true_iff_firstData (k : κ) (docs : List Doc) :
    docs.any (fun d => decide (K d.data = k)) = true ↔ ∃ x, firstData K k docs = some x := by
  unfold firstData
  cases h : docs.find? (fun d => decide (K d.data = k)) with
  | none =>
    simp only [Option.map_none', reduceCtorEq, exists_false, iff_false, Bool.not_eq_true]
    rw [List.find?_eq_none] at h
    rw [List.any_eq_false]
    exact h
  | some d =>
    simp only [Option.map_some', Option.some.injEq, exists_eq', iff_true]
    rw [List.any_eq_true]
    have hp := List.find?_some h
    exact ⟨d, List.mem_of_find?_eq_some h, hp⟩

theorem firstData_upsert_same (st : List Doc × Nat) (a : Mapped) :
    firstData K (K a) (upsertByKey K st a).1 = some a := by
  unfold upsertByKey
  by_cases hany : st.1.any (fun d => decide (K d.data = K a)) = true
  · rw [if_pos hany]
    obtain ⟨x, hx⟩ := (any_eq_true_iff_firstData K (K a) st.1).mp hany
    unfold firstData updateByKey at *
    rw [find?_modifyFirst_same _ _ _ (by intro d _; simp)]
    cases hf : st.1.find? (fun d => decide (K d.data = K a)) with
    | none => rw [hf] at hx; simp at hx
    | some d => simp
  · rw [if_neg hany]
    have hnone : st.1.find? (fun d => decide (K d.data = K a)) = none := by
      rw [List.find?_eq_none]
      simpa [List.any_eq_true] using hany
    simp [firstData, List.find?_append, hnone]

theorem firstData_upsert_other (st : List Doc × Nat) (a : Mapped) (k : κ) (hk : K a ≠ k) :
    firstData K k (upsertByKey K st a).1 = firstData K k st.1 := by
  unfold upsertByKey
  by_cases hany : st.1.any (fun d => decide (K d.data = K a)) = true
  · rw [if_pos hany]
    unfold firstData updateByKey
    rw [find?_modifyFirst_other]
    intro d hd
    have hd2 : K d.data = K a := by simpa using hd
    constructor
    · simp [hd2, hk]
    · simp [hk]
  · rw [if_neg hany]
    simp [firstData, List.find?_append, hk]

theorem firstData_foldl_upsert_other (k : κ) (ms : List Mapped) :
    ∀ st : List Doc × Nat, (∀ b ∈ ms, K b ≠ k) →
      firstData K k (ms.foldl (upsertByKey K) st).1 = firstData K k st.1 := by
  induction ms with
  | nil => intro st _; rfl
  | cons a ms ih =>
    intro st h
    rw [List.foldl_cons, ih _ (fun b hb => h b (List.mem_cons_of_mem _ hb))]
    exact firstData_upsert_other K st a k (h a (List.mem_cons_self _ _))

/-- After the upserts of a batch, the first document with the key of a record of
the batch carries the last record of the batch with that key. -/
theorem firstData_foldl_upsert (ms : List Mapped) :
    ∀ st : List Doc × Nat, ∀ m ∈ ms,
      firstData K (K m) (ms.foldl (upsertByKey K) st).1 = lastFor K (K m) ms := by
  induction ms with
  | nil => intro st m hm; simp at hm
  | cons a ms ih =>
    intro st m hm
    rw [List.foldl_cons]
    cases hl : lastFor K (K m) ms with
    | some x =>
      obtain ⟨hx, hkx⟩ := lastFor_some K (K m) ms x hl
      rw [lastFor_cons_of_some K (K m) a ms x hl, ← hl, ← hkx]
      exact ih _ x hx
    | none =>
      have hall := (lastFor_eq_none K (K m) ms).mp hl
      have hma : m = a := by
        rcases List.mem_cons.mp hm with h | h
        · exact h
        · exact absurd rfl (hall m h)
      subst hma
      rw [lastFor_cons_of_none K m ms hl, firstData_foldl_upsert_other K (K m) ms _ hall]
      exact firstData_upsert_same K st m

theorem updateByKey_absorb (docs : List Doc) (a b : Mapped) (hab : K a = K b) :
    updateByKey K (updateByKey K docs a) b = updateByKey K docs b := by
  unfold updateByKey
  induction docs with
  | nil => rfl
  | cons d ds ih =>
    by_cases hd : K d.data = K a
    · have hdb : K d.data = K b := hd.trans hab
      simp [modifyFirst, hd, hdb, hab]
    · have hdb : ¬ K d.data = K b := fun h => hd (h.trans hab.symm)
      simp only [modifyFirst, hd, hdb, decide_False, Bool.false_eq_true, if_false]
      rw [ih]

theorem updateByKey_comm (docs : List Doc) (a b : Mapped) (hab : K a ≠ K b) :
    updateByKey K (updateByKey K docs a) b = updateByKey K (updateByKey K docs b) a := by
  unfold updateByKey
  induction docs with
  | nil => rfl
  | cons d ds ih =>
    by_cases hda : K d.data = K a
    · have hdb : ¬ K d.data = K b := fun h => hab (hda.symm.trans h)
      simp [modifyFirst, hda, hdb, hab]
    · by_cases hdb : K d.data = K b
      · have hba : ¬ K b = K a := fun h => hab h.symm
        simp [modifyFirst, hda, hdb, hba]
      · simp only [modifyFirst, hda, hdb, decide_False, Bool.false_eq_true, if_false]
        rw [ih]

theorem foldl_updateByKey_absorb (a : Mapped) (rest : List Mapped) :
    ∀ docs : List Doc, (∃ b ∈ rest, K b = K a) →
      rest.foldl (updateByKey K) (updateByKey K docs a) = rest.foldl (updateByKey K) docs := by
  induction rest with
  | nil => intro docs h; simp at h
  | cons b rest ih =>
    intro docs h
    rw [List.foldl_cons, List.foldl_cons]
    by_cases hba : K b = K a
    · rw [updateByKey_absorb K docs a b hba.symm]
    · rw [updateByKey_comm K docs a b (fun h => hba h.symm)]
      apply ih
      obtain ⟨x, hx, hkx⟩ := h
      rcases List.mem_cons.mp hx with rfl | hx
      · exact absurd hkx hba
      · exact ⟨x, hx, hkx⟩

theorem updateByKey_of_firstData (docs : List Doc) (a : Mapped)
    (h : firstData K (K a) docs = some a) : updateByKey K docs a = docs := by
  unfold updateByKey
  unfold firstData at h
  induction docs with
  | nil => rfl
  | cons d ds ih =>
    by_cases hd : K d.data = K a
    · simp only [List.find?_cons, hd, decide_True, Option.map_some', Option.some.injEq] at h
      simp only [modifyFirst, hd, decide_True, if_true]
      cases d
      simp only at h
      subst h
      rfl
    · simp only [List.find?_cons, hd, decide_False] at h
      simp only [modifyFirst, hd, decide_False, Bool.false_eq_true, if_false]
      rw [ih h]

theorem firstData_updateByKey_isSome (docs : List Doc) (a : Mapped) (k : κ) :
    (∃ x, firstData K k (updateByKey K docs a) = some x) ↔ ∃ x, firstData K k docs = some x := by
  unfold updateByKey firstData
  induction docs with
  | nil => simp [modifyFirst]
  | cons d ds ih =>
    by_cases hd : K d.data = K a
    · by_cases hk : K a = k
      · simp [modifyFirst, hd, hk, List.find?_cons]
      · have hdk : ¬ K d.data = k := fun h => hk (hd.symm.trans h)
        simp [modifyFirst, hd, hk, hdk, List.find?_cons]
    · by_cases hdk : K d.data = k
      · subst hdk
        simp [modifyFirst, hd, List.find?_cons]
      · simp only [modifyFirst, hd, decide_False, Bool.false_eq_true, if_false,
          List.find?_cons, hdk]
        exact ih

theorem foldl_upsert_eq_update (ms : List Mapped) (n : Nat) :
    ∀ docs : List Doc, (∀ m ∈ ms, ∃ x, firstData K (K m) docs = some x) →
      ms.foldl (upsertByKey K) (docs, n) = (ms.foldl (updateByKey K) docs, n) := by
  induction ms with
  | nil => intro docs _; rfl
  | cons a ms ih =>
    intro docs h
    rw [List.foldl_cons, List.foldl_cons]
    have ha := (any_eq_true_iff_firstData K (K a) docs).mpr (h a (List.mem_cons_self _ _))
    have hstep : upsertByKey K (docs, n) a = (updateByKey K docs a, n) := by
      unfold upsertByKey
      rw [if_pos ha]
    rw [hstep]
    apply ih
    intro m hm
    exact (firstData_updateByKey_isSome K docs a (K m)).mpr (h m (List.mem_cons_of_mem _ hm))

theorem foldl_updateByKey_fixed (ms : List Mapped) :
    ∀ docs : List Doc, (∀ m ∈ ms, firstData K (K m) docs = lastFor K (K m) ms) →
      ms.foldl (updateByKey K) docs = docs := by
  induction ms with
  | nil => intro docs _; rfl
  | cons a ms ih =>
    intro docs h
    rw [List.foldl_cons]
    have hrest : ∀ m ∈ ms, firstData K (K m) docs = lastFor K (K m) ms := by
      intro m hm
      obtain ⟨x, hx⟩ := lastFor_of_mem K ms m hm
      rw [h m (List.mem_cons_of_mem _ hm), lastFor_cons_of_some K (K m) a ms x hx, hx]
    cases hl : lastFor K (K a) ms with
    | none =>
      have ha := h a (List.mem_cons_self _ _)
      rw [lastFor_cons_of_none K a ms hl] at ha
      rw [updateByKey_of_firstData K docs a ha]
      exact ih docs hrest
    | some x =>
      obtain ⟨hx, hkx⟩ := lastFor_some K (K a) ms x hl
      rw [foldl_updateByKey_absorb K a ms docs ⟨x, hx, hkx⟩]
      exact ih docs hrest

/-- Upserting a batch a second time changes nothing. -/
theorem foldl_upsert_twice (ms : List Mapped) (st : List Doc × Nat) :
    ms.foldl (upsertByKey K) (ms.foldl (upsertByKey K) st) = ms.foldl (upsertByKey K) st := by
  have hfirst := firstData_foldl_upsert K ms st
  have hpresent : ∀ m ∈ ms, ∃ x, firstData K (K m) (ms.foldl (upsertByKey K) st).1 = some x := by
    intro m hm
    obtain ⟨x, hx⟩ := lastFor_of_mem K ms m hm
    exact ⟨x, (hfirst m hm).trans hx⟩
  have h1 := foldl_upsert_eq_update K ms (ms.foldl (upsertByKey K) st).2
    (ms.foldl (upsertByKey K) st).1 hpresent
  rw [show ((ms.foldl (upsertByKey K) st).1, (ms.foldl (upsertByKey K) st).2)
    = ms.foldl (upsertByKey K) st from rfl] at h1
  rw [h1, foldl_updateByKey_fixed K ms _ hfirst]

end Upsert

/-! ## The bulk write of a batch -/

theorem getUniqueFilter_eq_map (m : Mapped) (t : String) :
    getUniqueFilter m t =
      (filterFields (getUniqueFilter m t)).map (fun k => (k, m.key k)) := by
  unfold getUniqueFilter filterFields
  by_cases h1 : (JSVal.str m.lineItemNumber).truthy = true <;>
    by_cases h2 : (t == "DISPATCHED" && (JSVal.str m.invoiceNumber).truthy) = true <;>
    simp [h1, h2, Mapped.key]

theorem matchesFilter_map_key (ks : List KeyField) (m : Mapped) (d : Doc) :
    matchesFilter (ks.map (fun k => (k, m.key k))) d =
      decide (Mapped.keyOn ks d.data = Mapped.keyOn ks m) := by
  induction ks with
  | nil => simp [matchesFilter, Mapped.keyOn]
  | cons k ks ih =>
    unfold matchesFilter Mapped.keyOn at *
    simp only [List.map_cons, List.all_cons, ih, List.cons.injEq]
    by_cases h : d.data.key k = m.key k <;> simp [h]

theorem matchesFilter_getUniqueFilter (m : Mapped) (t : String) (ks : List KeyField)
    (hks : filterFields (getUniqueFilter m t) = ks) :
    matchesFilter (getUniqueFilter m t) =
      fun d => decide (Mapped.keyOn ks d.data = Mapped.keyOn ks m) := by
  funext d
  rw [getUniqueFilter_eq_map, hks, matchesFilter_map_key]

/-- With a filter on the fields `ks`, `applyUpdateOne` is the upsert by the
values at `ks`. -/
theorem applyUpdateOne_eq_upsertByKey (st : List Doc × Nat) (m : Mapped) (t : String)
    (ks : List KeyField) (hks : filterFields (getUniqueFilter m t) = ks) :
    applyUpdateOne st { filter := getUniqueFilter m t, update := m, upsert := true } =
      upsertByKey (Mapped.keyOn ks) st m := by
  unfold applyUpdateOne upsertByKey updateByKey
  simp only [matchesFilter_getUniqueFilter m t ks hks, if_true]

theorem bulkDocs_eq_foldl_upsert (rows : List Row) (t : String) (ks : List KeyField)
    (hks : ∀ r ∈ rows, filterFields (getUniqueFilter (canonical r t) t) = ks) :
    ∀ st : List Doc × Nat,
      bulkDocs st.1 st.2 rows t =
        (rows.map (fun r => canonical r t)).foldl (upsertByKey (Mapped.keyOn ks)) st := by
  unfold bulkDocs buildOperations
  induction rows with
  | nil => intro st; rfl
  | cons r rows ih =>
    intro st
    simp only [List.map_cons, List.foldl_cons]
    rw [applyUpdateOne_eq_upsertByKey _ _ t ks (hks r (List.mem_cons_self _ _))]
    exact ih (fun r' hr' => hks r' (List.mem_cons_of_mem _ hr')) _

theorem docs_setDocs (db : DB) (c : Collection) (docs : List Doc) (n k : Nat) :
    DB.docs { (db.setDocs c docs) with nextId := n, calls := k } c = docs := by
  cases c <;> rfl

/-- The target collection after a non-empty batch when no store call rejects. -/
theorem processBatch_target_noFaults (db : DB) (rows : List Row) (t : String)
    (hrows : rows ≠ []) :
    (processBatch noFaults db rows t).1.docs (targetOf t) =
        (bulkDocs (db.docs (targetOf t)) db.nextId rows t).1 ∧
    (processBatch noFaults db rows t).1.nextId =
        (bulkDocs (db.docs (targetOf t)) db.nextId rows t).2 := by
  by_cases ht : t = "DISPATCHED"
  · subst ht
    obtain ⟨_, ho, hn, _, _⟩ := processBatch_dispatched_noFaults db rows hrows
    have htg : targetOf "DISPATCHED" = Collection.Order := by decide
    rw [htg]
    exact ⟨ho, hn⟩
  · rw [processBatch_eq noFaults db rows t hrows]
    have hd : (t == "DISPATCHED") = false := by simpa using ht
    simp only [noFaults, Bool.false_eq_true, if_false, hd]
    exact ⟨docs_setDocs _ _ _ _ _, trivial⟩

theorem processBatch_nil (F : Faults) (db : DB) (t : String) :
    processBatch F db [] t = (db, .ok .zero) := rfl


/-! ## C2: ingesting a batch twice -/

/-- C2, the claim as stated fails.  The first row has a `lineItemNumber`, the
second has the same `poNumber`, `productCode`, `soNumber` and `size` and none.
One run leaves one record in `PendingOrder`, because the second row's filter
omits `lineItemNumber` and so updates the record of the first; a second run
leaves two, because the first row's filter no longer matches that record. -/
theorem C2_idempotent_upsert_counterexample :
    (processBatch noFaults ⟨[], [], 0, 0⟩ mixedBatch "PENDING").1.pending.length = 1 ∧
    (processBatch noFaults (processBatch noFaults ⟨[], [], 0, 0⟩ mixedBatch "PENDING").1
      mixedBatch "PENDING").1.pending.length = 2 := by
  decide

/-- C2, amended.  For every ledger tag, initial state and batch whose rows all
give filters on the same fields (`lineItemNumber` present in all or in none, and
for DISPATCHED the same for `invoiceNumber`), running `processBatch` twice leaves
the target collection exactly as running it once: the same documents with the
same field values. -/
theorem C2_idempotent_upsert_uniform (db : DB) (rows : List Row) (statusType : String)
    (huniform : ∀ r ∈ rows, ∀ r' ∈ rows,
      filterFields (getUniqueFilter (canonical r statusType) statusType) =
        filterFields (getUniqueFilter (canonical r' statusType) statusType)) :
    (processBatch noFaults (processBatch noFaults db rows statusType).1 rows
        statusType).1.docs (targetOf statusType) =
      (processBatch noFaults db rows statusType).1.docs (targetOf statusType) := by
  cases rows with
  | nil => rfl
  | cons r0 rest =>
    have hne : r0 :: rest ≠ [] := by simp
    have hks : ∀ r ∈ r0 :: rest,
        filterFields (getUniqueFilter (canonical r statusType) statusType) =
          filterFields (getUniqueFilter (canonical r0 statusType) statusType) :=
      fun r hr => huniform r hr r0 (List.mem_cons_self _ _)
    obtain ⟨h1d, h1n⟩ := processBatch_target_noFaults db (r0 :: rest) statusType hne
    obtain ⟨h2d, _⟩ := processBatch_target_noFaults
      (processBatch noFaults db (r0 :: rest) statusType).1 (r0 :: rest) statusType hne
    rw [h2d, h1d, h1n]
    rw [bulkDocs_eq_foldl_upsert _ _ _ hks
      ((bulkDocs (db.docs (targetOf statusType)) db.nextId (r0 :: rest) statusType).1,
       (bulkDocs (db.docs (targetOf statusType)) db.nextId (r0 :: rest) statusType).2)]
    rw [show ((bulkDocs (db.docs (targetOf statusType)) db.nextId (r0 :: rest) statusType).1,
        (bulkDocs (db.docs (targetOf statusType)) db.nextId (r0 :: rest) statusType).2) =
        bulkDocs (db.docs (targetOf statusType)) db.nextId (r0 :: rest) statusType from rfl]
    rw [bulkDocs_eq_foldl_upsert _ _ _ hks (db.docs (targetOf statusType), db.nextId)]
    rw [foldl_upsert_twice]

/-- C2, amended, at a dispatch batch of two lines of one order that both carry a
`lineItemNumber` and an `invoiceNumber`. -/
theorem C2_idempotent_upsert_uniform_witness :
    (processBatch noFaults (processBatch noFaults ⟨[], [examplePending], 8, 0⟩ uniformBatch
        "DISPATCHED").1 uniformBatch "DISPATCHED").1.docs (targetOf "DISPATCHED") =
      (processBatch noFaults ⟨[], [examplePending], 8, 0⟩ uniformBatch
        "DISPATCHED").1.docs (targetOf "DISPATCHED") :=
  C2_idempotent_upsert_uniform ⟨[], [examplePending], 8, 0⟩ uniformBatch "DISPATCHED"
    (by decide)


/-! ## C3: numeric coercion -/

theorem cleanNum_orZero (n : JSNum) : cleanNum (.num n.orZero) = n.orZero :=
  cleanNum_num _ (orZero_isNaN n)

/-- C3, the claim as stated fails.  A negative cell is kept: the row with
`Order Qty` = `-5` gets `quantity` -5, which is not greater than or equal to 0. -/
theorem C3_coercion_nonnegative_counterexample :
    (canonical [("Order Qty", "-5")] "PENDING").quantity = JSNum.ofInt (-5) ∧
    JSNum.ofInt (-5) = .fin (-5 * JSNum.scale) ∧
    JSNum.le (.fin 0) (canonical [("Order Qty", "-5")] "PENDING").quantity = false := by
  decide

/-- C3, amended.  For every raw row, whatever values its cells hold, `mapFields`
followed by the `cleanNum` coercion of `processBatch` yields six numeric fields
that are numbers and never `NaN`: each is `Number(cell) || 0`, the number its
source cell converts to, negative ones included, and 0 when that is `NaN`. -/
theorem C3_coercion_total (row : Row) (statusType : String) :
    ((canonical row statusType).quantity = (toNumber (row.get "Order Qty")).orZero ∧
     (canonical row statusType).dispatchQuantity = (toNumber (row.get "Sale Qty")).orZero ∧
     (canonical row statusType).pendingQuantity = (toNumber (row.get "O/S Ord.Qty")).orZero ∧
     (canonical row statusType).grossWeight = (toNumber (row.get "Gross Wt")).orZero ∧
     (canonical row statusType).chargeWeight = (toNumber (row.get "Chg.Wt")).orZero ∧
     (canonical row statusType).rate = (toNumber (row.get "Rate")).orZero) ∧
    ((canonical row statusType).quantity.isNaN = false ∧
     (canonical row statusType).dispatchQuantity.isNaN = false ∧
     (canonical row statusType).pendingQuantity.isNaN = false ∧
     (canonical row statusType).grossWeight.isNaN = false ∧
     (canonical row statusType).chargeWeight.isNaN = false ∧
     (canonical row statusType).rate.isNaN = false) := by
  refine ⟨?_, ?_⟩
  · simp only [canonical, mapFields, cleanNum_orZero, and_self]
  · simp only [canonical, mapFields, cleanNum_orZero, orZero_isNaN, and_self]

/-! ## C4: dispatch rows without a pending counterpart -/

theorem reconcileAll_no_match (pending : List Doc) (rows : List Row)
    (h : ∀ r ∈ rows, ∀ d ∈ pending, matchesFilter (pendingMatch r) d = false) :
    reconcileAll pending rows = (pending, 0) ∧ castFailsIn pending rows = false := by
  induction rows with
  | nil => exact ⟨rfl, rfl⟩
  | cons r rows ih =>
    have hfind : pending.find? (matchesFilter (pendingMatch r)) = none := by
      rw [List.find?_eq_none]
      intro d hd
      simp [h r (List.mem_cons_self _ _) d hd]
    have hstep : reconcileDocs pending r = (pending, 0) := by
      unfold reconcileDocs
      rw [hfind]
    have hcf : castFails pending r = false := by
      unfold castFails
      rw [hfind]
    obtain ⟨ih1, ih2⟩ := ih (fun r' hr' => h r' (List.mem_cons_of_mem _ hr'))
    constructor
    · rw [reconcileAll_cons, hcf, hstep]
      simp only [Bool.false_eq_true, if_false, ih1]
    · simp [castFailsIn, hcf, hstep, ih2]

/-- A non-empty DISPATCHED batch in which no row has the `poNumber`,
`productCode` and `size` of a Pending record: `processBatch` leaves
`PendingOrder` as it is and returns reconciled = 0. -/
theorem processBatch_no_match (db : DB) (rows : List Row) (hrows : rows ≠ [])
    (hnomatch : ∀ r ∈ rows, ∀ d ∈ db.pending,
      ¬ (d.data.poNumber = (mapFields r).poNumber ∧
         d.data.productCode = (mapFields r).productCode ∧
         d.data.size = (mapFields r).size)) :
    (processBatch noFaults db rows "DISPATCHED").1.pending = db.pending ∧
    (processBatch noFaults db rows "DISPATCHED").2 = .ok (.counts rows.length 0) := by
  obtain ⟨hp, _, _, _, hres⟩ := processBatch_dispatched_noFaults db rows hrows
  obtain ⟨hall, hcf⟩ := reconcileAll_no_match db.pending rows (by
    intro r hr d hd
    have := hnomatch r hr d hd
    rw [← matchesFilter_pendingMatch] at this
    simpa using this)
  rw [hres, hp, hall, hcf]
  exact ⟨rfl, rfl⟩

/-- C4, the code on a DISPATCHED batch in which no row has the `poNumber`,
`productCode` and `size` of a Pending record, with no store call rejected:
`processBatch` completes without error and leaves `PendingOrder` unchanged.  For
a non-empty batch it returns the object with reconciled = 0, as claimed.  For the
empty batch, which matches no Pending record either, it returns the number `0`
instead of the object that its other `return` builds, so the caller's
`result.reconciled` is `undefined` and not 0. -/
theorem C4_no_match_result (db : DB) (rows : List Row)
    (hnomatch : ∀ r ∈ rows, ∀ d ∈ db.pending,
      ¬ (d.data.poNumber = (mapFields r).poNumber ∧
         d.data.productCode = (mapFields r).productCode ∧
         d.data.size = (mapFields r).size)) :
    (processBatch noFaults db rows "DISPATCHED").1.pending = db.pending ∧
    (rows ≠ [] →
      (processBatch noFaults db rows "DISPATCHED").2 = .ok (.counts rows.length 0) ∧
      (BatchReturn.counts rows.length 0).reconciled = .num (.fin 0)) ∧
    (rows = [] →
      (processBatch noFaults db rows "DISPATCHED").2 = .ok .zero ∧
      BatchReturn.zero.reconciled = .undefined ∧
      BatchReturn.zero.reconciled ≠ .num (.fin 0)) := by
  by_cases hrows : rows = []
  · subst hrows
    refine ⟨rfl, fun h => absurd rfl h, fun _ => ⟨rfl, rfl, ?_⟩⟩
    intro h
    cases h
  · obtain ⟨hp, hres⟩ := processBatch_no_match db rows hrows hnomatch
    refine ⟨hp, fun _ => ⟨hres, ?_⟩, fun h => absurd h hrows⟩
    show JSVal.num (JSNum.ofInt ((0 : Nat) : Int)) = .num (.fin 0)
    rw [Nat.cast_zero, ofInt_zero]

/-- C4 at a dispatch row for PO2 against the Pending record of PO1, where the
record stays and reconciled = 0 is returned, and at the empty batch, where the
number `0` is returned and `result.reconciled` is `undefined`. -/
theorem C4_no_match_result_witness :
    ((processBatch noFaults ⟨[], [examplePending], 8, 0⟩ [unmatchedDispatch]
        "DISPATCHED").1.pending = [examplePending] ∧
     (processBatch noFaults ⟨[], [examplePending], 8, 0⟩ [unmatchedDispatch]
        "DISPATCHED").2 = .ok (.counts 1 0) ∧
     (BatchReturn.counts 1 0).reconciled = .num (.fin 0)) ∧
    ((processBatch noFaults ⟨[], [examplePending], 8, 0⟩ [] "DISPATCHED").2 = .ok .zero ∧
     BatchReturn.zero.reconciled = .undefined ∧
     BatchReturn.zero.reconciled ≠ .num (.fin 0)) :=
  ⟨⟨(C4_no_match_result ⟨[], [examplePending], 8, 0⟩ [unmatchedDispatch] (by decide)).1,
    (C4_no_match_result ⟨[], [examplePending], 8, 0⟩ [unmatchedDispatch] (by decide)).2.1
      (by decide)⟩,
   (C4_no_match_result ⟨[], [examplePending], 8, 0⟩ [] (by decide)).2.2 rfl⟩

/-! ## C5: the natural-key filter -/

/-- C5.  The filter of `getUniqueFilter` constrains `poNumber`, `productCode`,
`soNumber` and `size`, `lineItemNumber` exactly when the record's is non-empty,
and `invoiceNumber` exactly when the tag is DISPATCHED and the record's is
non-empty; it constrains no field twice, and each to the record's value. -/
theorem C5_getUniqueFilter_fields (mapped : Mapped) (type : String) :
    (∀ k, k ∈ filterFields (getUniqueFilter mapped type) ↔
      (k = .poNumber ∨ k = .productCode ∨ k = .soNumber ∨ k = .size ∨
       (k = .lineItemNumber ∧ mapped.lineItemNumber ≠ "") ∨
       (k = .invoiceNumber ∧ type = "DISPATCHED" ∧ mapped.invoiceNumber ≠ ""))) ∧
    (filterFields (getUniqueFilter mapped type)).Nodup ∧
    (∀ k v, (k, v) ∈ getUniqueFilter mapped type → v = mapped.key k) := by
  refine ⟨?_, ?_, ?_⟩
  · intro k
    unfold getUniqueFilter filterFields
    by_cases h1 : mapped.lineItemNumber = "" <;>
      by_cases h2 : type = "DISPATCHED" <;>
      by_cases h3 : mapped.invoiceNumber = "" <;>
      cases k <;> simp [h1, h2, h3, JSVal.truthy]
  · unfold getUniqueFilter filterFields
    by_cases h1 : mapped.lineItemNumber = "" <;>
      by_cases h2 : type = "DISPATCHED" <;>
      by_cases h3 : mapped.invoiceNumber = "" <;>
      simp [h1, h2, h3, JSVal.truthy]
  · intro k v hkv
    rw [getUniqueFilter_eq_map] at hkv
    simp only [List.mem_map, Prod.mk.injEq] at hkv
    obtain ⟨k', _, hk', hv⟩ := hkv
    rw [← hv, hk']

/-! ## C6: rows with one natural key -/

theorem foldl_upsert_same_key {κ : Type} [DecidableEq κ] (K : Mapped → κ) (n n' : Nat)
    (ms : List Mapped) :
    ∀ cur : Mapped, (∀ m ∈ ms, K m = K cur) →
      ms.foldl (upsertByKey K) ([{ id := n, data := cur }], n') =
        ([{ id := n, data := (cur :: ms).getLast (List.cons_ne_nil _ _) }], n') := by
  induction ms with
  | nil => intro cur _; rfl
  | cons a ms ih =>
    intro cur h
    have ha : K cur = K a := (h a (List.mem_cons_self _ _)).symm
    have hstep : upsertByKey K ([{ id := n, data := cur }], n') a =
        ([{ id := n, data := a }], n') := by
      simp [upsertByKey, updateByKey, modifyFirst, ha]
    rw [List.foldl_cons, hstep, ih a (fun m hm => (h m (List.mem_cons_of_mem _ hm)).trans ha)]
    rfl

theorem getLast_map_canonical (t : String) (rows : List Row) (h : rows ≠ [])
    (h' : rows.map (fun r => canonical r t) ≠ []) :
    (rows.map (fun r => canonical r t)).getLast h' = canonical (rows.getLast h) t := by
  induction rows with
  | nil => exact absurd rfl h
  | cons r rows ih =>
    cases rows with
    | nil => rfl
    | cons r' rows =>
      simp only [List.map_cons, List.getLast_cons_cons]
      exact ih (by simp) (by simp)

/-- C6.  For every ledger tag and every non-empty batch whose rows all give the
same natural-key filter, `processBatch` starting from an empty target collection
leaves exactly one document in it, carrying the field values of the last row of
the batch. -/
theorem C6_same_key_collapses (db : DB) (rows : List Row) (statusType : String)
    (filter : Filter) (hrows : rows ≠ [])
    (hsame : ∀ r ∈ rows, getUniqueFilter (canonical r statusType) statusType = filter)
    (hempty : db.docs (targetOf statusType) = []) :
    (processBatch noFaults db rows statusType).1.docs (targetOf statusType) =
      [{ id := db.nextId, data := canonical (rows.getLast hrows) statusType }] := by
  have hks : ∀ r ∈ rows,
      filterFields (getUniqueFilter (canonical r statusType) statusType) = filterFields filter :=
    fun r hr => by rw [hsame r hr]
  have hkey : ∀ r ∈ rows,
      Mapped.keyOn (filterFields filter) (canonical r statusType) = filter.map Prod.snd := by
    intro r hr
    have h1 := getUniqueFilter_eq_map (canonical r statusType) statusType
    rw [hsame r hr] at h1
    conv_rhs => rw [h1]
    simp [Mapped.keyOn, List.map_map, Function.comp_def]
  rw [(processBatch_target_noFaults db rows statusType hrows).1, hempty]
  rw [bulkDocs_eq_foldl_upsert rows statusType (filterFields filter) hks ([], db.nextId)]
  cases rows with
  | nil => exact absurd rfl hrows
  | cons r0 rest =>
    have hfirst : upsertByKey (Mapped.keyOn (filterFields filter)) ([], db.nextId)
        (canonical r0 statusType) =
        ([{ id := db.nextId, data := canonical r0 statusType }], db.nextId + 1) := by
      simp [upsertByKey]
    rw [List.map_cons, List.foldl_cons, hfirst, foldl_upsert_same_key]
    · have hlast := getLast_map_canonical statusType (r0 :: rest) hrows (by simp)
      exact congrArg (fun m => ([{ id := db.nextId, data := m }] : List Doc)) hlast
    · intro m hm
      obtain ⟨r, hr, rfl⟩ := List.mem_map.mp hm
      rw [hkey r (List.mem_cons_of_mem _ hr), hkey r0 (List.mem_cons_self _ _)]

/-- C6 at two pending rows of one order line, the second with a corrected
quantity: one document remains and it carries the second row. -/
theorem C6_same_key_collapses_witness :
    (processBatch noFaults ⟨[], [], 0, 0⟩ sameKeyBatch "PENDING").1.docs (targetOf "PENDING") =
      [{ id := 0, data := canonical (sameKeyBatch.getLast (by decide)) "PENDING" }] :=
  C6_same_key_collapses ⟨[], [], 0, 0⟩ sameKeyBatch "PENDING"
    (getUniqueFilter (canonical (exampleDispatch "40") "PENDING") "PENDING")
    (by decide) (by decide) rfl


/-! ## Rejected store calls -/

theorem pending_setDocs_order (db : DB) (docs : List Doc) (n k : Nat) :
    ({ (db.setDocs .Order docs) with nextId := n, calls := k } : DB).pending = db.pending :=
  rfl

/-- A batch under any fault plan: the number of calls does not decrease, and a
returned result means that no call of the run was rejected. -/
theorem processBatch_calls (F : Faults) (db : DB) (rows : List Row) (t : String) :
    db.calls ≤ (processBatch F db rows t).1.calls ∧
    (∀ result, (processBatch F db rows t).2 = .ok result →
      ∀ k, db.calls ≤ k → k < (processBatch F db rows t).1.calls → F k = false) := by
  by_cases hrows : rows = []
  · subst hrows
    refine ⟨le_refl _, ?_⟩
    intro _ _ k hk1 hk2
    have : k < db.calls := hk2
    omega
  · rw [processBatch_eq F db rows t hrows]
    by_cases h0 : F db.calls = true
    · rw [if_pos h0]
      exact ⟨Nat.le_succ _, fun _ h => by cases h⟩
    · have h0f : F db.calls = false := by simpa using h0
      rw [if_neg h0]
      by_cases ht : (t == "DISPATCHED") = true
      · simp only [ht, if_true]
        obtain ⟨_, _, hc, hcase⟩ := reconcile_spec F rows
          { (db.setDocs (targetOf t)
              (bulkDocs (db.docs (targetOf t)) db.nextId rows t).1) with
            nextId := (bulkDocs (db.docs (targetOf t)) db.nextId rows t).2,
            calls := db.calls + 1 } 0
        rcases hrec : reconcile F
          { (db.setDocs (targetOf t)
              (bulkDocs (db.docs (targetOf t)) db.nextId rows t).1) with
            nextId := (bulkDocs (db.docs (targetOf t)) db.nextId rows t).2,
            calls := db.calls + 1 } rows 0 with ⟨db2, res⟩
        rw [hrec] at hc hcase
        have hc' : db.calls + 1 ≤ db2.calls := hc
        rcases hcase with ⟨⟨e, hres⟩, _⟩ | ⟨hres, _, _, hk⟩
        · have hres' : res = .error e := hres
          subst hres'
          exact ⟨by show db.calls ≤ db2.calls; omega, fun _ h => by cases h⟩
        · have hres' : res = .ok _ := hres
          subst hres'
          refine ⟨by show db.calls ≤ db2.calls; omega, ?_⟩
          intro _ _ k hk1 hk2
          have hk2' : k < db2.calls := hk2
          rcases Nat.lt_or_ge db.calls k with h | h
          · exact hk k h hk2'
          · have : k = db.calls := by omega
            rw [this]; exact h0f
      · simp only [ht, Bool.false_eq_true, if_false]
        refine ⟨Nat.le_succ _, ?_⟩
        intro _ _ k hk1 hk2
        have hk3 : k < db.calls + 1 := hk2
        have : k = db.calls := by omega
        rw [this]; exact h0f

/-! ## C9: a store call rejected during reconciliation -/

/-- C9, the claim as stated fails.  Both rows have a Pending record that their
quantity exhausts, and the store rejects only the `findOne` of the first row.
`processBatch` throws: it returns no result and the record of the second row is
still in `PendingOrder`. -/
theorem C9_reconcile_failure_isolated_counterexample :
    (processBatch (fun k => k == 1) ⟨[], twoPending, 9, 0⟩ twoDispatches "DISPATCHED").2 =
      .error .storeRejected ∧
    (processBatch (fun k => k == 1) ⟨[], twoPending, 9, 0⟩ twoDispatches
      "DISPATCHED").1.pending = twoPending ∧
    (processBatch noFaults ⟨[], twoPending, 9, 0⟩ twoDispatches "DISPATCHED").1.pending = [] :=
  ⟨rfl, by decide, by decide⟩

/-- C9, amended.  For every DISPATCHED batch whose bulk write succeeds and in
which call `k` is the first store call rejected, a call made during
reconciliation, `processBatch` aborts at that call with that error and returns
no result.  The batch splits into the rows before the failing row, the failing
row and the rows after it: call `k` is one of the calls made for the failing
row, and `PendingOrder` is exactly what reconciling the rows before it gives, so
the failing row and every later row are not reconciled. -/
theorem C9_reconcile_failure_aborts (F : Faults) (db : DB) (rows : List Row) (k : Nat)
    (hfirst : ∀ j, db.calls ≤ j → j < k → F j = false)
    (hk : F k = true)
    (hbulk : db.calls < k)
    (hreach : k < (processBatch F db rows "DISPATCHED").1.calls) :
    (processBatch F db rows "DISPATCHED").2 = .error .storeRejected ∧
    (processBatch F db rows "DISPATCHED").1.calls = k + 1 ∧
    ∃ pre row post, rows = pre ++ row :: post ∧
      castFailsIn db.pending pre = false ∧
      (processBatch F db rows "DISPATCHED").1.pending = (reconcileAll db.pending pre).1 ∧
      db.calls + 1 + reconcileCalls db.pending pre ≤ k ∧
      k < db.calls + 1 + reconcileCalls db.pending (pre ++ [row]) := by
  have h0 : F db.calls = false := hfirst db.calls (le_refl _) hbulk
  by_cases hrows : rows = []
  · subst hrows
    have : k < db.calls := hreach
    omega
  · rw [processBatch_eq F db rows "DISPATCHED" hrows] at hreach ⊢
    have ht : targetOf "DISPATCHED" = Collection.Order := by decide
    have hd : ("DISPATCHED" == "DISPATCHED") = true := by decide
    simp only [h0, Bool.false_eq_true, if_false, ht, hd, if_true] at hreach ⊢
    have hspec := reconcile_first_fault F k hk rows
      { (db.setDocs .Order (bulkDocs (db.docs .Order) db.nextId rows "DISPATCHED").1) with
        nextId := (bulkDocs (db.docs .Order) db.nextId rows "DISPATCHED").2,
        calls := db.calls + 1 } 0
      (fun j hj1 hj2 => hfirst j (by
        have : db.calls + 1 ≤ j := hj1
        omega) hj2)
      (by show db.calls + 1 ≤ k; omega)
    rcases hrec : reconcile F
      { (db.setDocs .Order (bulkDocs (db.docs .Order) db.nextId rows "DISPATCHED").1) with
        nextId := (bulkDocs (db.docs .Order) db.nextId rows "DISPATCHED").2,
        calls := db.calls + 1 } rows 0 with ⟨db2, res⟩
    rw [hrec] at hspec hreach
    cases res with
    | error e =>
      obtain ⟨hres, hcalls, pre, row, post, hsplit, hcf, hp, hlo, hhi⟩ := hspec hreach
      have he : e = .storeRejected := by
        have h' : Except.error e = (Except.error JSError.storeRejected : Except JSError Nat) :=
          hres
        injection h'
      subst he
      refine ⟨rfl, ?_, pre, row, post, hsplit, hcf, ?_, ?_, ?_⟩
      · exact hcalls
      · exact hp
      · have hlo' : db.calls + 1 + reconcileCalls db.pending pre ≤ k := hlo
        exact hlo'
      · have hhi' : k < db.calls + 1 + reconcileCalls db.pending (pre ++ [row]) := hhi
        exact hhi'
    | ok n =>
      obtain ⟨hres, _⟩ := hspec hreach
      cases hres

/-- C9, amended, at two rows of which the first is reconciled and the `findOne`
of the second, call 3 of the run, is rejected: no result is returned, four calls
have been made, the record of the first row is gone and the record of the
second is still there. -/
theorem C9_reconcile_failure_aborts_witness :
    ((processBatch (fun k => k == 3) ⟨[], twoPending, 9, 0⟩ twoDispatches "DISPATCHED").2 =
      .error .storeRejected ∧
    (processBatch (fun k => k == 3) ⟨[], twoPending, 9, 0⟩ twoDispatches
      "DISPATCHED").1.calls = 3 + 1 ∧
    ∃ pre row post, twoDispatches = pre ++ row :: post ∧
      castFailsIn twoPending pre = false ∧
      (processBatch (fun k => k == 3) ⟨[], twoPending, 9, 0⟩ twoDispatches
        "DISPATCHED").1.pending = (reconcileAll twoPending pre).1 ∧
      0 + 1 + reconcileCalls twoPending pre ≤ 3 ∧
      3 < 0 + 1 + reconcileCalls twoPending (pre ++ [row])) ∧
    (processBatch (fun k => k == 3) ⟨[], twoPending, 9, 0⟩ twoDispatches
      "DISPATCHED").1.pending = twoPending.drop 1 ∧
    reconcileCalls twoPending (twoDispatches.take 1) = 2 ∧
    (reconcileAll twoPending (twoDispatches.take 1)).1 = twoPending.drop 1 :=
  ⟨C9_reconcile_failure_aborts (fun k => k == 3) ⟨[], twoPending, 9, 0⟩ twoDispatches 3
    (by
      intro j _ hj
      have h : j = 0 ∨ j = 1 ∨ j = 2 := by omega
      rcases h with h | h | h <;> subst h <;> rfl)
    (by decide) (by decide) (by decide),
   by decide, by decide, by decide⟩

/-! ## C10: History grows, Pending shrinks -/

theorem setPendingQuantity_twice (p q : JSNum) (hq : q.isNaN = false) (d : Doc) :
    (d.setPendingQuantity p).setPendingQuantity q = d.setPendingQuantity q := by
  rw [setPendingQuantity_of_not_nan q hq, setPendingQuantity_of_not_nan q hq]
  unfold Doc.setPendingQuantity
  split <;> rfl

theorem setPendingQuantity_data (q : JSNum) (hq : q.isNaN = false) (d : Doc) :
    (d.setPendingQuantity q).data.pendingQuantity = q := by
  rw [setPendingQuantity_of_not_nan q hq]

theorem lowered_refl (d : Doc) : Lowered d d := by
  refine ⟨?_, Or.inl rfl⟩
  unfold Doc.setPendingQuantity
  split <;> rfl

theorem shrinks_refl (docs : List Doc) : Shrinks docs docs :=
  ⟨List.Sublist.refl _, fun d hd => ⟨d, hd, lowered_refl d⟩⟩

theorem map_id_modifyFirst (p : Doc → Bool) (f : Doc → Doc) (docs : List Doc)
    (hf : ∀ d, (f d).id = d.id) :
    (modifyFirst p f docs).map Doc.id = docs.map Doc.id := by
  induction docs with
  | nil => rfl
  | cons d ds ih =>
    rw [modifyFirst]
    by_cases hd : p d = true
    · simp [hd, hf]
    · simp [hd, ih]

theorem mem_modifyFirst (p : Doc → Bool) (f : Doc → Doc) (docs : List Doc) (d' : Doc)
    (h : d' ∈ modifyFirst p f docs) :
    d' ∈ docs ∨ ∃ d ∈ docs, p d = true ∧ d' = f d := by
  induction docs with
  | nil => simp [modifyFirst] at h
  | cons d ds ih =>
    rw [modifyFirst] at h
    by_cases hd : p d = true
    · simp only [hd, if_true, List.mem_cons] at h
      rcases h with h | h
      · exact Or.inr ⟨d, List.mem_cons_self _ _, hd, h⟩
      · exact Or.inl (List.mem_cons_of_mem _ h)
    · simp only [hd, Bool.false_eq_true, if_false, List.mem_cons] at h
      rcases h with h | h
      · exact Or.inl (h ▸ List.mem_cons_self _ _)
      · rcases ih h with h' | ⟨x, hx, hpx, hfx⟩
        · exact Or.inl (List.mem_cons_of_mem _ h')
        · exact Or.inr ⟨x, List.mem_cons_of_mem _ hx, hpx, hfx⟩

/-- One reconciliation step with a non-negative dispatch quantity, on documents
that came from `orig` by removing records and lowering quantities, only removes
a record or lowers its `pendingQuantity` further. -/
theorem reconcileDocs_shrinks (orig cur : List Doc) (row : Row)
    (hids : (orig.map Doc.id).Nodup)
    (hdoubles : ∀ d ∈ orig, d.data.pendingQuantity.isDouble = true)
    (hS : Shrinks orig cur)
    (hnonneg : JSNum.le (.fin 0) (mapFields row).dispatchQuantity = true) :
    Shrinks orig (reconcileDocs cur row).1 := by
  have hidscur : (cur.map Doc.id).Nodup := hids.sublist hS.1
  unfold reconcileDocs
  cases hfind : cur.find? (matchesFilter (pendingMatch row)) with
  | none => exact hS
  | some item =>
    have hitem : item ∈ cur := List.mem_of_find?_eq_some hfind
    simp only
    by_cases hle : (item.data.pendingQuantity.orZero.sub (shippedNow row)).le (.fin 0) = true
    · rw [if_pos hle]
      refine ⟨((List.eraseP_sublist _).map _).trans hS.1, ?_⟩
      intro d' hd'
      exact hS.2 d' (List.mem_of_mem_eraseP hd')
    · rw [if_neg hle]
      have hle' : (item.data.pendingQuantity.orZero.sub (shippedNow row)).le (.fin 0) = false := by
        simpa using hle
      by_cases hnan : (item.data.pendingQuantity.orZero.sub (shippedNow row)).isNaN = true
      · rw [modifyFirst_of_fixed _ _ (setPendingQuantity_of_nan _ hnan)]
        exact hS
      · have hnan' : (item.data.pendingQuantity.orZero.sub (shippedNow row)).isNaN = false := by
          simpa using hnan
        refine ⟨?_, ?_⟩
        · show (List.map Doc.id (modifyFirst (fun d => d.id == item.id)
            (Doc.setPendingQuantity (item.data.pendingQuantity.orZero.sub (shippedNow row)))
            cur)).Sublist _
          rw [map_id_modifyFirst (fun d => d.id == item.id)
            (Doc.setPendingQuantity (item.data.pendingQuantity.orZero.sub (shippedNow row)))
            cur (fun d => setPendingQuantity_id _ d)]
          exact hS.1
        · intro d' hd'
          rcases mem_modifyFirst _ _ _ _ hd' with h | ⟨x, hx, hpx, hfx⟩
          · exact hS.2 d' h
          · have hid : x.id = item.id := by simpa using hpx
            have hxitem : x = item := List.inj_on_of_nodup_map hidscur hx hitem hid
            subst hxitem
            obtain ⟨d, hd, hxd, hxq⟩ := hS.2 x hx
            refine ⟨d, hd, ?_⟩
            have hpq : d'.data.pendingQuantity =
                x.data.pendingQuantity.orZero.sub (shippedNow row) := by
              rw [hfx, setPendingQuantity_data _ hnan']
            refine ⟨?_, ?_⟩
            · rw [hpq, hfx]
              calc x.setPendingQuantity (x.data.pendingQuantity.orZero.sub (shippedNow row))
                  = (d.setPendingQuantity x.data.pendingQuantity).setPendingQuantity
                      (x.data.pendingQuantity.orZero.sub (shippedNow row)) :=
                    congrArg (Doc.setPendingQuantity
                      (x.data.pendingQuantity.orZero.sub (shippedNow row))) hxd
                _ = d.setPendingQuantity (x.data.pendingQuantity.orZero.sub (shippedNow row)) :=
                    setPendingQuantity_twice _ _ hnan' d
            · right
              rw [hpq]
              rw [shippedNow_eq] at hle' hnan' ⊢
              exact sub_le_of_nonneg _ _ _ hxq (hdoubles d hd) hnonneg hle' hnan'

theorem reconcileAll_shrinks (orig : List Doc) (rows : List Row)
    (hids : (orig.map Doc.id).Nodup)
    (hdoubles : ∀ d ∈ orig, d.data.pendingQuantity.isDouble = true) :
    ∀ cur : List Doc, Shrinks orig cur →
      (∀ r ∈ rows, JSNum.le (.fin 0) (mapFields r).dispatchQuantity = true) →
      Shrinks orig (reconcileAll cur rows).1 := by
  induction rows with
  | nil => intro cur hS _; exact hS
  | cons r rows ih =>
    intro cur hS hnonneg
    rw [reconcileAll_cons]
    by_cases hcf : castFails cur r = true
    · rw [if_pos hcf]
      exact hS
    · rw [if_neg hcf]
      exact ih _ (reconcileDocs_shrinks orig cur r hids hdoubles hS
          (hnonneg r (List.mem_cons_self _ _)))
        (fun r' hr' => hnonneg r' (List.mem_cons_of_mem _ hr'))

theorem map_id_applyUpdateOne (st : List Doc × Nat) (op : UpdateOneOp) :
    st.1.map Doc.id <+: (applyUpdateOne st op).1.map Doc.id := by
  unfold applyUpdateOne
  by_cases h1 : st.1.any (matchesFilter op.filter) = true
  · rw [if_pos h1]
    show _ <+: List.map Doc.id (modifyFirst (matchesFilter op.filter)
      (fun d => { d with data := op.update }) st.1)
    rw [map_id_modifyFirst (matchesFilter op.filter)
      (fun d => { d with data := op.update }) st.1 (fun d => rfl)]
  · rw [if_neg h1]
    by_cases h2 : op.upsert = true
    · rw [if_pos h2]
      show _ <+: List.map Doc.id (st.1 ++ [{ id := st.2, data := op.update }])
      rw [List.map_append]
      exact List.prefix_append _ _
    · rw [if_neg h2]

theorem map_id_foldl_applyUpdateOne (ops : List UpdateOneOp) :
    ∀ st : List Doc × Nat, st.1.map Doc.id <+: (ops.foldl applyUpdateOne st).1.map Doc.id := by
  induction ops with
  | nil => intro st; exact List.prefix_refl _
  | cons op ops ih =>
    intro st
    rw [List.foldl_cons]
    exact (map_id_applyUpdateOne st op).trans (ih _)

/-- A dispatch batch under any fault plan: the orders are as before or as the
bulk write leaves them, and `PendingOrder` is what reconciling some first rows
of the batch gives. -/
theorem processBatch_dispatched_shape (F : Faults) (db : DB) (rows : List Row) :
    ((processBatch F db rows "DISPATCHED").1.orders = db.orders ∨
      (processBatch F db rows "DISPATCHED").1.orders =
        (bulkDocs db.orders db.nextId rows "DISPATCHED").1) ∧
    ∃ pre, pre <+: rows ∧
      (processBatch F db rows "DISPATCHED").1.pending = (reconcileAll db.pending pre).1 := by
  by_cases hrows : rows = []
  · subst hrows
    exact ⟨Or.inl rfl, [], List.prefix_refl _, rfl⟩
  · rw [processBatch_eq F db rows "DISPATCHED" hrows]
    by_cases h0 : F db.calls = true
    · rw [if_pos h0]
      exact ⟨Or.inl rfl, [], List.nil_prefix, rfl⟩
    · rw [if_neg h0]
      have ht : targetOf "DISPATCHED" = Collection.Order := by decide
      have hd : ("DISPATCHED" == "DISPATCHED") = true := by decide
      simp only [ht, hd, if_true]
      obtain ⟨ho, _, _, hcase⟩ := reconcile_spec F rows
        { (db.setDocs .Order (bulkDocs (db.docs .Order) db.nextId rows "DISPATCHED").1) with
          nextId := (bulkDocs (db.docs .Order) db.nextId rows "DISPATCHED").2,
          calls := db.calls + 1 } 0
      rcases hrec : reconcile F
        { (db.setDocs .Order (bulkDocs (db.docs .Order) db.nextId rows "DISPATCHED").1) with
          nextId := (bulkDocs (db.docs .Order) db.nextId rows "DISPATCHED").2,
          calls := db.calls + 1 } rows 0 with ⟨db2, res⟩
      rw [hrec] at ho hcase
      have ho' : db2.orders = (bulkDocs db.orders db.nextId rows "DISPATCHED").1 := ho
      rcases hcase with ⟨⟨e, hres⟩, pre, r, post, hsplit, hp⟩ | ⟨hres, hp, _, _⟩
      · have hres' : res = .error e := hres
        subst hres'
        exact ⟨Or.inr ho', pre, ⟨r :: post, hsplit.symm⟩, hp⟩
      · have hres' : res = .ok _ := hres
        subst hres'
        exact ⟨Or.inr ho', rows, List.prefix_refl _, hp⟩

/-- C10, the claim as stated fails.  A negative `Sale Qty` raises the pending
quantity: the record with `pendingQuantity` 100 and a row with `Sale Qty` = `-40`
leave the record with 140, which is not less than or equal to 100. -/
theorem C10_dispatch_monotone_counterexample :
    (processBatch noFaults ⟨[], [examplePending], 8, 0⟩ [exampleDispatch "-40"]
      "DISPATCHED").1.pending.map (fun d => d.data.pendingQuantity) = [JSNum.ofInt 140] ∧
    examplePending.data.pendingQuantity = JSNum.ofInt 100 ∧
    JSNum.ofInt 140 = .fin (140 * JSNum.scale) ∧
    JSNum.ofInt 100 = .fin (100 * JSNum.scale) ∧
    JSNum.le (JSNum.ofInt 140) (JSNum.ofInt 100) = false := by
  decide

/-- C10, amended.  For every initial state with unique `_id`s in `PendingOrder`
and doubles as its pending quantities, every DISPATCHED batch in which no row
maps to a negative `dispatchQuantity`, and every pattern of rejected store
calls, `processBatch` removes no record from `Order` (the `_id`s before are a
prefix of those after), adds no record to `PendingOrder`, and leaves every
surviving Pending record as it was but for a `pendingQuantity` that is the same
or lower. -/
theorem C10_dispatch_monotone (F : Faults) (db : DB) (rows : List Row)
    (hids : (db.pending.map Doc.id).Nodup)
    (hdoubles : ∀ d ∈ db.pending, d.data.pendingQuantity.isDouble = true)
    (hnonneg : ∀ r ∈ rows, JSNum.le (.fin 0) (mapFields r).dispatchQuantity = true) :
    db.orders.map Doc.id <+: (processBatch F db rows "DISPATCHED").1.orders.map Doc.id ∧
    ((processBatch F db rows "DISPATCHED").1.pending.map Doc.id).Sublist
      (db.pending.map Doc.id) ∧
    ∀ d' ∈ (processBatch F db rows "DISPATCHED").1.pending, ∃ d ∈ db.pending,
      d' = d.setPendingQuantity d'.data.pendingQuantity ∧
      (d'.data.pendingQuantity = d.data.pendingQuantity ∨
        JSNum.le d'.data.pendingQuantity d.data.pendingQuantity = true) := by
  obtain ⟨horders, pre, hpre, hpending⟩ := processBatch_dispatched_shape F db rows
  have hshr : Shrinks db.pending (reconcileAll db.pending pre).1 :=
    reconcileAll_shrinks db.pending pre hids hdoubles db.pending (shrinks_refl _)
      (fun r hr => hnonneg r (hpre.subset hr))
  refine ⟨?_, ?_, ?_⟩
  · rcases horders with h | h
    · rw [h]
    · rw [h]
      exact map_id_foldl_applyUpdateOne _ (db.orders, db.nextId)
  · rw [hpending]
    exact hshr.1
  · rw [hpending]
    exact hshr.2

/-- C10, amended, at the record with `pendingQuantity` 100 and a dispatch of 40
with no store call rejected. -/
theorem C10_dispatch_monotone_witness :
    ([] : List Doc).map Doc.id <+:
      (processBatch noFaults ⟨[], [examplePending], 8, 0⟩ [exampleDispatch "40"]
        "DISPATCHED").1.orders.map Doc.id ∧
    ((processBatch noFaults ⟨[], [examplePending], 8, 0⟩ [exampleDispatch "40"]
      "DISPATCHED").1.pending.map Doc.id).Sublist ([examplePending].map Doc.id) ∧
    ∀ d' ∈ (processBatch noFaults ⟨[], [examplePending], 8, 0⟩ [exampleDispatch "40"]
      "DISPATCHED").1.pending, ∃ d ∈ [examplePending],
      d' = d.setPendingQuantity d'.data.pendingQuantity ∧
      (d'.data.pendingQuantity = d.data.pendingQuantity ∨
        JSNum.le d'.data.pendingQuantity d.data.pendingQuantity = true) :=
  C10_dispatch_monotone noFaults ⟨[], [examplePending], 8, 0⟩ [exampleDispatch "40"]
    (by decide) (by decide) (by decide)

/-! ## `uploadFile` -/

theorem onData_calls (batchSize : Nat) (F : Faults) (t : String) (st : StreamState)
    (row : Row) :
    st.db.calls ≤ (onData batchSize F t st row).1.db.calls ∧
    ((onData batchSize F t st row).2 = .ok () →
      ∀ k, st.db.calls ≤ k → k < (onData batchSize F t st row).1.db.calls → F k = false) := by
  unfold onData
  simp only
  by_cases hfull : (st.batch ++ [cleanRow row]).length ≥ batchSize
  · rw [if_pos hfull]
    obtain ⟨hc, hok⟩ := processBatch_calls F st.db (st.batch ++ [cleanRow row]) t
    rcases hpb : processBatch F st.db (st.batch ++ [cleanRow row]) t with ⟨db1, res⟩
    rw [hpb] at hc hok
    cases res with
    | error e => exact ⟨hc, fun h => by cases h⟩
    | ok result => exact ⟨hc, fun _ => hok result rfl⟩
  · rw [if_neg hfull]
    refine ⟨le_refl _, ?_⟩
    intro _ k hk1 hk2
    have : k < st.db.calls := hk2
    omega

theorem onEnd_calls (F : Faults) (t : String) (st : StreamState) :
    st.db.calls ≤ (onEnd F t st).1.db.calls ∧
    ((onEnd F t st).2 = .ok () →
      ∀ k, st.db.calls ≤ k → k < (onEnd F t st).1.db.calls → F k = false) := by
  unfold onEnd
  by_cases hrest : st.batch.length > 0
  · rw [if_pos hrest]
    obtain ⟨hc, hok⟩ := processBatch_calls F st.db st.batch t
    rcases hpb : processBatch F st.db st.batch t with ⟨db1, res⟩
    rw [hpb] at hc hok
    cases res with
    | error e => exact ⟨hc, fun h => by cases h⟩
    | ok result => exact ⟨hc, fun _ => hok result rfl⟩
  · rw [if_neg hrest]
    refine ⟨le_refl _, ?_⟩
    intro _ k hk1 hk2
    have : k < st.db.calls := hk2
    omega

theorem processStream_calls (batchSize : Nat) (F : Faults) (t : String) (rows : List Row) :
    ∀ st : StreamState,
      st.db.calls ≤ (processStream batchSize F t st rows).1.db.calls ∧
      ((processStream batchSize F t st rows).2 = .ok () →
        ∀ k, st.db.calls ≤ k → k < (processStream batchSize F t st rows).1.db.calls →
          F k = false) := by
  induction rows with
  | nil => intro st; exact onEnd_calls F t st
  | cons row rest ih =>
    intro st
    unfold processStream
    obtain ⟨hc, hok⟩ := onData_calls batchSize F t st row
    rcases hd : onData batchSize F t st row with ⟨st1, res⟩
    rw [hd] at hc hok
    cases res with
    | error e => exact ⟨hc, fun h => by cases h⟩
    | ok u =>
      obtain ⟨hc2, hok2⟩ := ih st1
      refine ⟨le_trans hc hc2, ?_⟩
      intro h k hk1 hk2
      rcases Nat.lt_or_ge k st1.db.calls with hlt | hge
      · exact hok rfl k hk1 hlt
      · exact hok2 h k hge hk2

/-- If the `try` block of `uploadFile` completes, no store call of the upload
was rejected. -/
theorem uploadBody_ok (scope : List String) (F : Faults) (db : DB)
    (file : Option UploadedFile) (t : String) (response : Response)
    (h : (uploadBody scope F db file t).2 = .ok response) :
    ∀ k, db.calls ≤ k → k < (uploadBody scope F db file t).1.1.calls → F k = false := by
  unfold uploadBody at h ⊢
  cases file with
  | none =>
    intro k hk1 hk2
    have : k < db.calls := hk2
    omega
  | some file =>
    simp only at h ⊢
    by_cases hcsv : (".csv".toList.isSuffixOf (lowerChars file.originalname)) = true
    · simp only [hcsv, Bool.not_true, Bool.false_eq_true, if_false] at h ⊢
      by_cases hfs : scope.contains "fs" = true
      · simp only [hfs, if_true] at h ⊢
        obtain ⟨_, hok⟩ := processStream_calls BATCH_SIZE F t file.csvRows
          { db := db, batch := [], totalInserted := .fin 0, totalReconciled := .fin 0,
            batches := [] }
        rcases hps : processStream BATCH_SIZE F t
          { db := db, batch := [], totalInserted := .fin 0, totalReconciled := .fin 0,
            batches := [] } file.csvRows with ⟨st, res⟩
        rw [hps] at h hok
        cases res with
        | error e => cases h
        | ok u => exact hok rfl
      · simp only [hfs, Bool.false_eq_true, if_false] at h
        cases h
    · simp only [hcsv, Bool.not_false, if_true] at h ⊢
      obtain ⟨_, hok⟩ := processBatch_calls F db (parseExcel file.workbook) t
      rcases hpb : processBatch F db (parseExcel file.workbook) t with ⟨db1, res⟩
      rw [hpb] at h hok
      cases res with
      | error e => cases h
      | ok result =>
        by_cases hfs : scope.contains "fs" = true
        · simp only [hfs, if_true] at h ⊢
          exact hok result rfl
        · simp only [hfs, Bool.false_eq_true, if_false] at h
          cases h

/-! ## C7: batches of a CSV upload -/

/-- C7, the code at every CSV upload named `orders.csv`: the stream is opened
through `fs`, which the module does not bind, so the upload throws before any
row is read.  No batch is handed to `processBatch`, the database is untouched,
and the response is status 500 with an error message, not `rowsInserted = n`. -/
theorem C7_csv_upload_fails (F : Faults) (db : DB) (path : String) (rows : List Row)
    (workbook : Workbook) (statusType : String) :
    uploadFile F db (some ⟨"orders.csv", path, rows, workbook⟩) statusType =
      ⟨db, ⟨500, [("error", .str "Upload failed")]⟩, []⟩ := by
  have hcsv : (".csv".toList.isSuffixOf (lowerChars "orders.csv")) = true := by decide
  have hfs : moduleScope.contains "fs" = false := by decide
  simp only [uploadFile, uploadFileIn, uploadBody, hcsv, hfs, Bool.not_true,
    Bool.false_eq_true, if_false]

/-! ## C8: the response after a failed batch write -/

/-- C8, the claim as stated fails.  In a spreadsheet upload of one row whose
bulk write the store rejects, no batch was committed before the failure; the
response is status 500 with the error message alone and carries neither
`rowsInserted` nor `reconciledOrders`. -/
theorem C8_failure_response_counterexample :
    (uploadFile (fun k => k == 0) ⟨[], [], 0, 0⟩ (some exampleWorkbookFile) "PENDING").response =
      ⟨500, [("error", .str "Upload failed")]⟩ ∧
    (uploadFile (fun k => k == 0) ⟨[], [], 0, 0⟩ (some exampleWorkbookFile)
      "PENDING").response.body.lookup "rowsInserted" = none ∧
    (uploadFile (fun k => k == 0) ⟨[], [], 0, 0⟩ (some exampleWorkbookFile)
      "PENDING").response.body.lookup "reconciledOrders" = none ∧
    (uploadFile (fun k => k == 0) ⟨[], [], 0, 0⟩ (some exampleWorkbookFile) "PENDING").batches =
      [[exampleDispatch "40"]] := by
  decide

/-- C8, amended.  For every upload in which the store rejects a call of a batch
write, whatever names are bound in the module, `uploadFile` responds with status
500 and the error message alone: the counts accumulated over the batches
committed before the failure are not in the response. -/
theorem C8_failure_response (scope : List String) (F : Faults) (db : DB)
    (file : Option UploadedFile) (statusType : String)
    (hfail : ∃ k, db.calls ≤ k ∧ k < (uploadFileIn scope F db file statusType).db.calls ∧
      F k = true) :
    (uploadFileIn scope F db file statusType).response =
      ⟨500, [("error", .str "Upload failed")]⟩ := by
  have hok := uploadBody_ok scope F db file statusType
  unfold uploadFileIn at hfail ⊢
  rcases hbody : uploadBody scope F db file statusType with ⟨⟨db1, batches⟩, res⟩
  rw [hbody] at hfail hok
  cases res with
  | error e => rfl
  | ok response =>
    obtain ⟨k, hk1, hk2, hkF⟩ := hfail
    have := hok response rfl k hk1 hk2
    rw [this] at hkF
    cases hkF

/-- C8, amended, at the spreadsheet upload whose bulk write is rejected. -/
theorem C8_failure_response_witness :
    (uploadFileIn moduleScope (fun k => k == 0) ⟨[], [], 0, 0⟩ (some exampleWorkbookFile)
      "PENDING").response = ⟨500, [("error", .str "Upload failed")]⟩ :=
  C8_failure_response moduleScope (fun k => k == 0) ⟨[], [], 0, 0⟩ (some exampleWorkbookFile)
    "PENDING" ⟨0, by decide, by decide, by decide⟩


/-! ## The streaming loop when `fs` is bound

The handlers of the CSV branch are unreachable in the module as written (C7).
With `fs` bound they do what the design asks: batches of `BATCH_SIZE` rows in file
order, the rest flushed at the end of the input. -/

/-- A row with a finite dispatch quantity does not end in a cast error. -/
theorem castFails_of_finite (pending : List Doc) (row : Row)
    (h : ∃ u, (mapFields row).dispatchQuantity = .fin u) : castFails pending row = false := by
  obtain ⟨u, hu⟩ := h
  unfold castFails
  cases pending.find? (matchesFilter (pendingMatch row)) with
  | none => rfl
  | some item =>
    simp only
    rw [shippedNow_eq, hu]
    have hq := orZero_isNaN item.data.pendingQuantity
    cases hco : item.data.pendingQuantity.orZero with
    | nan => rw [hco] at hq; cases hq
    | inf s => rfl
    | fin x => exact ofUnits_isNaN _

theorem castFailsIn_of_finite (rows : List Row)
    (h : ∀ r ∈ rows, ∃ u, (mapFields r).dispatchQuantity = .fin u) :
    ∀ pending : List Doc, castFailsIn pending rows = false := by
  induction rows with
  | nil => intro pending; rfl
  | cons r rows ih =>
    intro pending
    simp [castFailsIn, castFails_of_finite pending r (h r (List.mem_cons_self _ _)),
      ih (fun r' hr' => h r' (List.mem_cons_of_mem _ hr'))]

/-- What `processBatch` returns for a non-empty batch when no store call
rejects: if it returns, `inserted` is the number of rows. -/
theorem processBatch_noFaults_result (db : DB) (rows : List Row) (t : String)
    (hrows : rows ≠ []) (result : BatchReturn)
    (h : (processBatch noFaults db rows t).2 = .ok result) :
    ∃ r, result = .counts rows.length r := by
  by_cases ht : t = "DISPATCHED"
  · subst ht
    obtain ⟨_, _, _, _, hres⟩ := processBatch_dispatched_noFaults db rows hrows
    rw [hres] at h
    by_cases hcf : castFailsIn db.pending rows = true
    · rw [if_pos hcf] at h
      cases h
    · rw [if_neg hcf] at h
      injection h with h'
      exact ⟨_, h'.symm⟩
  · rw [processBatch_eq noFaults db rows t hrows] at h
    have hd : (t == "DISPATCHED") = false := by simpa using ht
    simp only [noFaults, Bool.false_eq_true, if_false, hd] at h
    injection h with h'
    exact ⟨0, h'.symm⟩

/-- A non-empty batch whose rows have finite dispatch quantities, when no store
call rejects: `processBatch` returns, with `inserted` the number of rows. -/
theorem processBatch_noFaults_ok (db : DB) (rows : List Row) (t : String)
    (hrows : rows ≠ [])
    (hfin : ∀ r ∈ rows, ∃ u, (mapFields r).dispatchQuantity = .fin u) :
    ∃ r, (processBatch noFaults db rows t).2 = .ok (.counts rows.length r) := by
  by_cases ht : t = "DISPATCHED"
  · subst ht
    obtain ⟨_, _, _, _, hres⟩ := processBatch_dispatched_noFaults db rows hrows
    rw [hres, castFailsIn_of_finite rows hfin]
    exact ⟨_, rfl⟩
  · rw [processBatch_eq noFaults db rows t hrows]
    have hd : (t == "DISPATCHED") = false := by simpa using ht
    simp only [noFaults, Bool.false_eq_true, if_false, hd]
    exact ⟨0, rfl⟩

theorem ceil_div_one (L B : Nat) (h0 : 0 < L) (h1 : L ≤ B) : (L + B - 1) / B = 1 := by
  apply Nat.div_eq_of_lt_le
  · omega
  · omega

theorem add_ofInt_nat (i n : Nat) (h : i + n ≤ 2 ^ 53) :
    (JSNum.ofInt i).add (toNumber (.num (JSNum.ofInt n))) = JSNum.ofInt ((i + n : Nat) : Int) := by
  show (JSNum.ofInt i).add (JSNum.ofInt n) = _
  rw [add_ofInt i n (by simp; omega) (by simp; omega)]
  simp

/-- The streaming loop when no store call rejects, on rows with finite dispatch
quantities, at most `2^53` of them: it completes, the batches it hands to
`processBatch` are the cleaned rows in order, each non-empty and of at most
`batchSize` rows, their number is the buffered and remaining rows divided by
`batchSize`, rounded up, and `totalInserted` grows by the number of those rows. -/
theorem processStream_noFaults (batchSize : Nat) (hB : 0 < batchSize) (t : String)
    (rows : List Row) :
    ∀ (st : StreamState) (i : Nat), st.batch.length < batchSize →
      st.totalInserted = JSNum.ofInt i →
      i + st.batch.length + rows.length ≤ 2 ^ 53 →
      (∀ r ∈ st.batch, ∃ u, (mapFields r).dispatchQuantity = .fin u) →
      (∀ r ∈ rows, ∃ u, (mapFields (cleanRow r)).dispatchQuantity = .fin u) →
      (processStream batchSize noFaults t st rows).2 = .ok () ∧
      (processStream batchSize noFaults t st rows).1.totalInserted =
        JSNum.ofInt ((i + st.batch.length + rows.length : Nat) : Int) ∧
      (processStream batchSize noFaults t st rows).1.batches.flatten =
        st.batches.flatten ++ (st.batch ++ rows.map cleanRow) ∧
      (processStream batchSize noFaults t st rows).1.batches.length =
        st.batches.length + (st.batch.length + rows.length + batchSize - 1) / batchSize ∧
      (∀ b ∈ (processStream batchSize noFaults t st rows).1.batches,
        b ∈ st.batches ∨ (0 < b.length ∧ b.length ≤ batchSize)) := by
  induction rows with
  | nil =>
    intro st i hlen hi hbound hfb _
    unfold processStream onEnd
    by_cases hrest : st.batch.length > 0
    · rw [if_pos hrest]
      have hne : st.batch ≠ [] := List.length_pos.mp hrest
      obtain ⟨r', hres⟩ := processBatch_noFaults_ok st.db st.batch t hne hfb
      rcases hpb : processBatch noFaults st.db st.batch t with ⟨db1, res⟩
      rw [hpb] at hres
      have hres' : res = .ok (.counts st.batch.length r') := hres
      subst hres'
      refine ⟨rfl, ?_, ?_, ?_, ?_⟩
      · show st.totalInserted.add (toNumber (BatchReturn.counts st.batch.length r').inserted) = _
        rw [hi]
        show (JSNum.ofInt i).add (toNumber (.num (JSNum.ofInt st.batch.length))) = _
        rw [add_ofInt_nat i st.batch.length (by simp only [List.length_nil] at hbound; omega)]
        simp
      · show (st.batches ++ [st.batch]).flatten = _
        simp
      · show (st.batches ++ [st.batch]).length = _
        have := ceil_div_one st.batch.length batchSize hrest (le_of_lt hlen)
        simp only [List.length_append, List.length_singleton, List.length_nil, Nat.add_zero]
        rw [this]
      · intro b hb
        have hb' : b ∈ st.batches ++ [st.batch] := hb
        rcases List.mem_append.mp hb' with h | h
        · exact Or.inl h
        · have hbe : b = st.batch := by simpa using h
          subst hbe
          exact Or.inr ⟨hrest, le_of_lt hlen⟩
    · rw [if_neg hrest]
      have h0 : st.batch.length = 0 := by omega
      have hnil : st.batch = [] := List.length_eq_zero.mp h0
      refine ⟨rfl, ?_, ?_, ?_, fun b hb => Or.inl hb⟩
      · rw [hi, h0]; simp
      · simp [hnil]
      · rw [h0]
        have : (0 + ([] : List Row).length + batchSize - 1) / batchSize = 0 := by
          apply Nat.div_eq_of_lt
          simp only [List.length_nil]
          omega
        rw [this]; rfl
  | cons row rest ih =>
    intro st i hlen hi hbound hfb hfr
    have hfrow := hfr row (List.mem_cons_self _ _)
    have hfrest : ∀ r ∈ rest, ∃ u, (mapFields (cleanRow r)).dispatchQuantity = .fin u :=
      fun r hr => hfr r (List.mem_cons_of_mem _ hr)
    have hfb1 : ∀ r ∈ st.batch ++ [cleanRow row],
        ∃ u, (mapFields r).dispatchQuantity = .fin u := by
      intro r hr
      rcases List.mem_append.mp hr with h | h
      · exact hfb r h
      · have : r = cleanRow row := by simpa using h
        rw [this]; exact hfrow
    have hlen1 : (st.batch ++ [cleanRow row]).length = st.batch.length + 1 := by simp
    have hbound' : i + st.batch.length + (rest.length + 1) ≤ 2 ^ 53 := by
      simpa using hbound
    unfold processStream onData
    simp only
    by_cases hfull : (st.batch ++ [cleanRow row]).length ≥ batchSize
    · rw [if_pos hfull]
      have hne : st.batch ++ [cleanRow row] ≠ [] := by simp
      obtain ⟨r', hres⟩ := processBatch_noFaults_ok st.db (st.batch ++ [cleanRow row]) t hne hfb1
      rcases hpb : processBatch noFaults st.db (st.batch ++ [cleanRow row]) t with ⟨db1, res⟩
      rw [hpb] at hres
      have hres' : res = .ok (.counts (st.batch ++ [cleanRow row]).length r') := hres
      subst hres'
      simp only
      have hexact : st.batch.length + 1 = batchSize := by
        rw [hlen1] at hfull
        omega
      obtain ⟨h1, h2, h4, h5, h6⟩ := ih
        { db := db1
          batch := []
          totalInserted := st.totalInserted.add
            (toNumber (BatchReturn.counts (st.batch ++ [cleanRow row]).length r').inserted)
          totalReconciled := st.totalReconciled.add
            (toNumber (BatchReturn.counts (st.batch ++ [cleanRow row]).length r').reconciled)
          batches := st.batches ++ [st.batch ++ [cleanRow row]] }
        (i + (st.batch.length + 1)) (by simpa using hB)
        (by
          show st.totalInserted.add
            (toNumber (.num (JSNum.ofInt (st.batch ++ [cleanRow row]).length))) = _
          rw [hi, hlen1, add_ofInt_nat i (st.batch.length + 1) (by omega)])
        (by simp only [List.length_nil]; omega)
        (by intro r hr; cases hr)
        hfrest
      refine ⟨h1, ?_, ?_, ?_, ?_⟩
      · rw [h2]
        simp only [List.length_nil, List.length_cons]
        congr 2
        omega
      · rw [h4]
        simp
      · rw [h5]
        simp only [List.length_append, List.length_singleton, List.length_nil,
          List.length_cons, Nat.zero_add]
        have : st.batch.length + (rest.length + 1) + batchSize - 1 =
            (rest.length + batchSize - 1) + batchSize := by omega
        rw [this, Nat.add_div_right _ hB]
        omega
      · intro b hb
        rcases h6 b hb with h | h
        · rcases List.mem_append.mp h with h' | h'
          · exact Or.inl h'
          · have hbe : b = st.batch ++ [cleanRow row] := by simpa using h'
            subst hbe
            exact Or.inr ⟨by rw [hlen1]; omega, by rw [hlen1]; omega⟩
        · exact Or.inr h
    · rw [if_neg hfull]
      simp only
      obtain ⟨h1, h2, h4, h5, h6⟩ := ih
        { st with batch := st.batch ++ [cleanRow row] } i
        (by show (st.batch ++ [cleanRow row]).length < batchSize; omega) hi
        (by show i + (st.batch ++ [cleanRow row]).length + rest.length ≤ 2 ^ 53
            rw [hlen1]; omega)
        hfb1 hfrest
      refine ⟨h1, ?_, ?_, ?_, h6⟩
      · rw [h2]
        show JSNum.ofInt ((i + (st.batch ++ [cleanRow row]).length + rest.length : Nat) : Int) = _
        rw [hlen1]
        simp only [List.length_cons]
        congr 2
        omega
      · rw [h4]
        simp
      · rw [h5]
        show st.batches.length +
          ((st.batch ++ [cleanRow row]).length + rest.length + batchSize - 1) / batchSize = _
        rw [hlen1]
        simp only [List.length_cons]
        have : st.batch.length + 1 + rest.length + batchSize - 1 =
            st.batch.length + (rest.length + 1) + batchSize - 1 := by omega
        rw [this]

/-- A CSV upload in a module that binds `fs`, with no store call rejected, of at
most `2^53` rows with finite dispatch quantities: the rows reach `processBatch`
in `(n + 1999) / 2000` batches of at most 2000 rows, in file order, and the
response reports `rowsInserted = n`. -/
theorem uploadFileIn_csv_batches (scope : List String) (hfs : scope.contains "fs" = true)
    (db : DB) (path : String) (rows : List Row) (workbook : Workbook) (t : String)
    (hbound : rows.length ≤ 2 ^ 53)
    (hfin : ∀ r ∈ rows, ∃ u, (mapFields (cleanRow r)).dispatchQuantity = .fin u) :
    (uploadFileIn scope noFaults db (some ⟨"orders.csv", path, rows, workbook⟩) t).batches.length
      = (rows.length + 1999) / 2000 ∧
    (uploadFileIn scope noFaults db
      (some ⟨"orders.csv", path, rows, workbook⟩) t).batches.flatten = rows.map cleanRow ∧
    (∀ b ∈ (uploadFileIn scope noFaults db
      (some ⟨"orders.csv", path, rows, workbook⟩) t).batches, b.length ≤ 2000) ∧
    ∃ n : JSNum, (uploadFileIn scope noFaults db
      (some ⟨"orders.csv", path, rows, workbook⟩) t).response =
        ⟨200, [("message", .str "Large CSV processed successfully"),
               ("rowsInserted", .num (JSNum.ofInt rows.length)),
               ("reconciledOrders", .num n),
               ("statusType", .str t)]⟩ := by
  have hcsv : (".csv".toList.isSuffixOf (lowerChars "orders.csv")) = true := by decide
  obtain ⟨h1, h2, h4, h5, h6⟩ := processStream_noFaults BATCH_SIZE (by decide) t rows
    { db := db, batch := [], totalInserted := .fin 0, totalReconciled := .fin 0, batches := [] }
    0 (by show 0 < 2000; omega) ofInt_zero.symm (by simpa using hbound)
    (by intro r hr; cases hr) hfin
  simp only [uploadFileIn, uploadBody, hcsv, hfs, Bool.not_true, Bool.false_eq_true, if_false,
    if_true]
  rcases hps : processStream BATCH_SIZE noFaults t
    { db := db, batch := [], totalInserted := .fin 0, totalReconciled := .fin 0, batches := [] }
    rows with ⟨st, res⟩
  rw [hps] at h1 h2 h4 h5 h6
  have hres : res = .ok () := h1
  subst hres
  simp only at h2 h4 h5 h6 ⊢
  refine ⟨?_, ?_, ?_, st.totalReconciled, ?_⟩
  · rw [h5]
    simp [BATCH_SIZE]
  · rw [h4]
    simp
  · intro b hb
    rcases h6 b hb with h | h
    · simp at h
    · exact h.2
  · rw [h2]
    simp

/-! ## C12: `cleanNum` is idempotent -/

/-- C12.  For every input value, `cleanNum(cleanNum(x)) = cleanNum(x)`; hence
applying the six numeric coercions of `processBatch` again to a coerced record,
and so to the record `processBatch` stores for a row, leaves it unchanged. -/
theorem C12_cleanNum_idempotent :
    (∀ x : JSVal, cleanNum (.num (cleanNum x)) = cleanNum x) ∧
    (∀ m : Mapped, coerceNumeric (coerceNumeric m) = coerceNumeric m) ∧
    (∀ (row : Row) (statusType : String),
      coerceNumeric (canonical row statusType) = canonical row statusType) := by
  have hidem : ∀ x : JSVal, cleanNum (.num (cleanNum x)) = cleanNum x :=
    fun x => cleanNum_num _ (cleanNum_isNaN x)
  refine ⟨hidem, ?_, ?_⟩
  · intro m
    simp only [coerceNumeric, hidem]
  · intro row statusType
    simp only [coerceNumeric, canonical, hidem]

/-! ## C13: alias resolution in `mapFields` -/

theorem orStr_get (row : Row) (a : String) (d : String) :
    (row.get a).orStr d =
      match row.lookup a with
      | some v => if v.truthy then v.text else d
      | none => d := by
  unfold Row.get JSVal.orStr
  cases row.lookup a with
  | none => rfl
  | some v => rfl

theorem orZero_toNumber_get (row : Row) (k : String) (h : cellNotNumeric row k = true) :
    (toNumber (row.get k)).orZero = .fin 0 := by
  unfold cellNotNumeric at h
  unfold Row.get
  cases hl : row.lookup k with
  | none => rfl
  | some v =>
    rw [hl] at h
    simp only at h ⊢
    cases hn : toNumber v with
    | nan => rfl
    | inf s => rw [hn] at h; cases h
    | fin u => rw [hn] at h; cases h

theorem stringCells_lookup (row : Row) (a : String) (v : JSVal)
    (hs : stringCells row = true) (h : row.lookup a = some v) : ∃ s, v = .str s := by
  induction row with
  | nil => cases h
  | cons kv rest ih =>
    obtain ⟨k, w⟩ := kv
    unfold stringCells at hs
    simp only [List.all_cons, Bool.and_eq_true] at hs
    rw [List.lookup_cons] at h
    by_cases hk : (a == k) = true
    · rw [hk] at h
      injection h with h'
      subst h'
      cases w with
      | str s => exact ⟨s, rfl⟩
      | undefined => cases hs.1
      | null => cases hs.1
      | bool b => cases hs.1
      | num n => cases hs.1
      | date time text => cases hs.1
    · have hk' : (a == k) = false := by simpa using hk
      rw [hk'] at h
      exact ih hs.2 h

/-- On a row of string cells the first truthy alias is the first alias that is
present and non-empty. -/
theorem resolveTruthy_of_stringCells (row : Row) (hs : stringCells row = true)
    (aliases : List String) : resolveTruthy row aliases = resolveAlias row aliases := by
  induction aliases with
  | nil => rfl
  | cons a rest ih =>
    unfold resolveTruthy resolveAlias
    cases hl : row.lookup a with
    | none => exact ih
    | some v =>
      obtain ⟨s, hv⟩ := stringCells_lookup row a v hs hl
      subst hv
      simp only [ih]
      by_cases h : s = ""
      · subst h
        simp [JSVal.truthy]
      · simp [JSVal.truthy, h]

/-- C13, the claim as stated fails on a spreadsheet row.  A cell holding the
number 0 is present and not empty, but `||` skips it: with 0 under `Order No`
and `PO9` under `PO No`, `poNumber` is `PO9`, and with 0 under `Size`, `size` is
the empty string. -/
theorem C13_mapFields_aliases_counterexample :
    zeroCellRow.lookup "Order No" = some (.num (.fin 0)) ∧
    resolveAlias zeroCellRow ["Order No", "PO No"] = "0" ∧
    (mapFields zeroCellRow).poNumber = "PO9" ∧
    resolveAlias zeroCellRow ["Size"] = "0" ∧
    (mapFields zeroCellRow).size = "" := by
  decide

/-- C13, amended.  For every raw row, `mapFields` resolves each of its text
fields to the value of the first alias of its ordered list whose cell is truthy,
and to the empty string when none is; each numeric field is 0 when its column is
absent or its cell does not convert to a number.  On a row of string cells, as
the CSV decoder delivers them, a cell is truthy exactly when it is not empty. -/
theorem C13_mapFields_aliases (row : Row) :
    ((mapFields row).poNumber = resolveTruthy row ["Order No", "PO No"] ∧
     (mapFields row).soNumber = resolveTruthy row ["S/O No", "SO No"] ∧
     (mapFields row).orderNumber = resolveTruthy row ["Order No"] ∧
     (mapFields row).productCode = resolveTruthy row ["Item Code", "Produce Code"] ∧
     (mapFields row).partNumber = resolveTruthy row ["Style No"] ∧
     (mapFields row).size = resolveTruthy row ["Size"] ∧
     (mapFields row).drawingNumber = resolveTruthy row ["Drg.No"] ∧
     (mapFields row).customerName = resolveTruthy row ["Buyer Name", "Party Name"] ∧
     (mapFields row).customerCode = resolveTruthy row ["Cust Code"] ∧
     (mapFields row).lineItemNumber = resolveTruthy row ["PO Srl", "P Srl", "Line"] ∧
     (mapFields row).soDate = resolveTruthy row ["S/O Date"] ∧
     (mapFields row).orderDate = resolveTruthy row ["Order Date"] ∧
     (mapFields row).dispatchDate = resolveTruthy row ["Dispatch Date"] ∧
     (mapFields row).expectedDeliveryDate = resolveTruthy row ["Delivery Date"] ∧
     (mapFields row).packSlipDate = resolveTruthy row ["Pack Slip Dt"] ∧
     (mapFields row).invoiceDate = resolveTruthy row ["Invoice Dt"] ∧
     (mapFields row).invoiceNumber = resolveTruthy row ["Invoice No"] ∧
     (mapFields row).truckNumber = resolveTruthy row ["Truck No"] ∧
     (mapFields row).transport = resolveTruthy row ["Transport"] ∧
     (mapFields row).departmentRemark = resolveTruthy row ["Dept.Remark"] ∧
     (mapFields row).soSpecialRemark = resolveTruthy row ["SO SPL.Remark"] ∧
     (mapFields row).dieIndent = resolveTruthy row ["DIE Indend"]) ∧
    ((cellNotNumeric row "Order Qty" = true → (mapFields row).quantity = .fin 0) ∧
     (cellNotNumeric row "Sale Qty" = true → (mapFields row).dispatchQuantity = .fin 0) ∧
     (cellNotNumeric row "O/S Ord.Qty" = true → (mapFields row).pendingQuantity = .fin 0) ∧
     (cellNotNumeric row "Gross Wt" = true → (mapFields row).grossWeight = .fin 0) ∧
     (cellNotNumeric row "Chg.Wt" = true → (mapFields row).chargeWeight = .fin 0) ∧
     (cellNotNumeric row "Rate" = true → (mapFields row).rate = .fin 0)) ∧
    (stringCells row = true →
      ∀ aliases, resolveTruthy row aliases = resolveAlias row aliases) := by
  refine ⟨?_, ⟨orZero_toNumber_get row _, orZero_toNumber_get row _,
    orZero_toNumber_get row _, orZero_toNumber_get row _, orZero_toNumber_get row _,
    orZero_toNumber_get row _⟩, resolveTruthy_of_stringCells row⟩
  simp only [mapFields, resolveTruthy, orStr_get, and_self]

/-- C13, amended, at a CSV row without `Order No` and with an empty `PO Srl`:
`poNumber` falls back to `PO No`, `lineItemNumber` to `Line`, the non-numeric
`Order Qty` gives quantity 0, and the first truthy alias is the first that is
present and non-empty. -/
theorem C13_mapFields_aliases_witness :
    (mapFields aliasRow).poNumber = resolveTruthy aliasRow ["Order No", "PO No"] ∧
    resolveTruthy aliasRow ["Order No", "PO No"] = "PO9" ∧
    (mapFields aliasRow).quantity = .fin 0 ∧
    resolveTruthy aliasRow ["PO Srl", "P Srl", "Line"] =
      resolveAlias aliasRow ["PO Srl", "P Srl", "Line"] ∧
    resolveAlias aliasRow ["PO Srl", "P Srl", "Line"] = "3" :=
  ⟨(C13_mapFields_aliases aliasRow).1.1, by decide,
   (C13_mapFields_aliases aliasRow).2.1.1 (by decide),
   (C13_mapFields_aliases aliasRow).2.2 (by decide) _, by decide⟩

/-! ## C16: what `processBatch` returns -/

/-- C16, the code at the empty batch: `processBatch` returns the number `0`, not
an object, so `result.inserted` and `result.reconciled` are `undefined`; the
store is not touched. -/
theorem C16_empty_batch_returns_zero (F : Faults) (db : DB) (statusType : String) :
    processBatch F db [] statusType = (db, .ok .zero) ∧
    BatchReturn.zero.inserted = .undefined ∧
    BatchReturn.zero.reconciled = .undefined :=
  ⟨rfl, rfl, rfl⟩

/-! ## C14: worksheet selection -/

theorem includesChars_eq_true_iff (t : List Char) (s : List Char) :
    includesChars t s = true ↔ t <:+: s := by
  induction s with
  | nil => simp [includesChars, List.isEmpty_iff]
  | cons c cs ih =>
    rw [includesChars, Bool.or_eq_true, ih, List.infix_cons_iff, List.isPrefixOf_iff_prefix]

theorem selectSheet_first_match (names pre post : List String) (n : String)
    (hsplit : names = pre ++ n :: post)
    (hn : "out".toList <:+: lowerChars n)
    (hpre : ∀ m ∈ pre, ¬ "out".toList <:+: lowerChars m) :
    selectSheet names = some n := by
  have hfind : names.find? (fun n => includesChars "out".toList (lowerChars n)) = some n := by
    rw [hsplit, List.find?_append]
    have h1 : pre.find? (fun n => includesChars "out".toList (lowerChars n)) = none := by
      rw [List.find?_eq_none]
      intro m hm
      rw [includesChars_eq_true_iff]
      exact hpre m hm
    rw [h1, List.find?_cons, (includesChars_eq_true_iff _ _).mpr hn]
    rfl
  unfold selectSheet
  rw [hfind]

theorem selectSheet_no_match (names : List String) (hne : names ≠ [])
    (hnone : ∀ m ∈ names, ¬ "out".toList <:+: lowerChars m) :
    selectSheet names = some (names.head hne) := by
  have hfind : names.find? (fun n => includesChars "out".toList (lowerChars n)) = none := by
    rw [List.find?_eq_none]
    intro m hm
    rw [includesChars_eq_true_iff]
    exact hnone m hm
  unfold selectSheet
  rw [hfind]
  cases names with
  | nil => exact absurd rfl hne
  | cons a rest => rfl

/-- C14.  For every workbook with a non-empty list of worksheet names,
`parseExcel` returns the rows of the first sheet whose lower-cased name contains
`out`, when there is one, and the rows of the first sheet of the list otherwise,
with their keys cleaned. -/
theorem C14_sheet_selection (workbook : Workbook) (hne : workbook.SheetNames ≠ []) :
    (∀ pre n post, workbook.SheetNames = pre ++ n :: post →
      "out".toList <:+: lowerChars n →
      (∀ m ∈ pre, ¬ "out".toList <:+: lowerChars m) →
      selectSheet workbook.SheetNames = some n ∧
      parseExcel workbook = ((workbook.Sheets.lookup n).getD []).map cleanRow) ∧
    ((∀ m ∈ workbook.SheetNames, ¬ "out".toList <:+: lowerChars m) →
      selectSheet workbook.SheetNames = some (workbook.SheetNames.head hne) ∧
      parseExcel workbook =
        ((workbook.Sheets.lookup (workbook.SheetNames.head hne)).getD []).map cleanRow) := by
  constructor
  · intro pre n post hsplit hn hpre
    have hsel := selectSheet_first_match workbook.SheetNames pre post n hsplit hn hpre
    refine ⟨hsel, ?_⟩
    unfold parseExcel
    rw [hsel]
  · intro hnone
    have hsel := selectSheet_no_match workbook.SheetNames hne hnone
    refine ⟨hsel, ?_⟩
    unfold parseExcel
    rw [hsel]

/-- C14 at a workbook of three sheets with different rows, whose second sheet
is the first with `out` in its name: `parseExcel` returns the row of the second
sheet; and at a workbook with no such sheet: it returns the row of the first. -/
theorem C14_sheet_selection_witness :
    (selectSheet threeSheets.SheetNames = some "Stock OUT" ∧
     parseExcel threeSheets = [cleanRow (exampleDispatch "2")]) ∧
    (selectSheet plainSheets.SheetNames = some "Sheet1" ∧
     parseExcel plainSheets = [cleanRow (exampleDispatch "1")]) :=
  ⟨⟨((C14_sheet_selection threeSheets (by decide)).1
      ["Sheet1"] "Stock OUT" ["outer"] rfl (by decide) (by decide)).1,
    ((C14_sheet_selection threeSheets (by decide)).1
      ["Sheet1"] "Stock OUT" ["outer"] rfl (by decide) (by decide)).2.trans (by decide)⟩,
   ⟨((C14_sheet_selection plainSheets (by decide)).2 (by decide)).1,
    ((C14_sheet_selection plainSheets (by decide)).2 (by decide)).2.trans (by decide)⟩⟩

/-! ## C17: several Pending records with one reconciliation key -/

/-- C17.  When several `PendingOrder` records have the `poNumber`, `productCode`
and `size` of a dispatch row, `processBatch` on that row acts on one of them
only, the first, which is the one `findOne` returns: it is deleted when its
quantity minus the shipped quantity is at most 0 and gets that difference
otherwise.  Every other record, those with the same key included, is unchanged,
whatever the dispatched quantity. -/
theorem C17_one_record_touched (db : DB) (row : Row) (pre post : List Doc) (item : Doc)
    (hpending : db.pending = pre ++ item :: post)
    (hids : (db.pending.map Doc.id).Nodup)
    (hitem : item.data.poNumber = (mapFields row).poNumber ∧
      item.data.productCode = (mapFields row).productCode ∧
      item.data.size = (mapFields row).size)
    (hfirst : ∀ e ∈ pre, ¬ (e.data.poNumber = (mapFields row).poNumber ∧
      e.data.productCode = (mapFields row).productCode ∧
      e.data.size = (mapFields row).size)) :
    db.pending.find? (matchesFilter (pendingMatch row)) = some item ∧
    (processBatch noFaults db [row] "DISPATCHED").1.pending =
      if (item.data.pendingQuantity.orZero.sub (shippedNow row)).le (.fin 0) then pre ++ post
      else pre ++ item.setPendingQuantity
        (item.data.pendingQuantity.orZero.sub (shippedNow row)) :: post := by
  have hmatch := (matchesFilter_pendingMatch row item).mpr hitem
  have hpre : ∀ e ∈ pre, matchesFilter (pendingMatch row) e = false := by
    intro e he
    have := hfirst e he
    rw [← matchesFilter_pendingMatch] at this
    simpa using this
  obtain ⟨hfind, hstep⟩ := reconcileDocs_first row pre post item (hpending ▸ hids) hmatch hpre
  constructor
  · rw [hpending]
    exact hfind
  · rw [processBatch_single_pending, hpending, hstep]
    split <;> rfl

/-- C17 at two records for PO1 / C1 / M that differ in `soNumber`: a dispatch of
150 deletes the first, the one `findOne` returns, and leaves the second as it
was. -/
theorem C17_one_record_touched_witness :
    [examplePending, sameKeyPending].find? (matchesFilter (pendingMatch (exampleDispatch "150")))
      = some examplePending ∧
    (processBatch noFaults ⟨[], [examplePending, sameKeyPending], 9, 0⟩
      [exampleDispatch "150"] "DISPATCHED").1.pending = [sameKeyPending] :=
  ⟨(C17_one_record_touched ⟨[], [examplePending, sameKeyPending], 9, 0⟩
      (exampleDispatch "150") [] [sameKeyPending] examplePending rfl (by decide) (by decide)
      (by simp)).1,
   (C17_one_record_touched ⟨[], [examplePending, sameKeyPending], 9, 0⟩
      (exampleDispatch "150") [] [sameKeyPending] examplePending rfl (by decide) (by decide)
      (by simp)).2.trans (by decide)⟩

/-! ## C18: reconciliation on re-ingestion -/

theorem matchesFilter_setPendingQuantity (filter : Filter) (q : JSNum) (d : Doc) :
    matchesFilter filter (d.setPendingQuantity q) = matchesFilter filter d := by
  unfold Doc.setPendingQuantity
  split
  · rfl
  · have hkey : ∀ k, ({ d with data := { d.data with pendingQuantity := q } } : Doc).data.key k =
        d.data.key k := by
      intro k
      cases k <;> rfl
    unfold matchesFilter
    simp only [hkey]

/-- The orders after ingesting a batch of one row twice are those after
ingesting it once; from an empty collection there is one. -/
theorem bulkDocs_single_twice (docs : List Doc) (n : Nat) (row : Row) (t : String) :
    (bulkDocs (bulkDocs docs n [row] t).1 (bulkDocs docs n [row] t).2 [row] t).1 =
        (bulkDocs docs n [row] t).1 ∧
    (docs = [] → (bulkDocs docs n [row] t).1.length = 1) := by
  have hks : ∀ r ∈ [row], filterFields (getUniqueFilter (canonical r t) t) =
      filterFields (getUniqueFilter (canonical row t) t) := by
    intro r hr
    rw [List.mem_singleton.mp hr]
  constructor
  · rw [bulkDocs_eq_foldl_upsert _ _ _ hks
      ((bulkDocs docs n [row] t).1, (bulkDocs docs n [row] t).2)]
    rw [show ((bulkDocs docs n [row] t).1, (bulkDocs docs n [row] t).2) =
      bulkDocs docs n [row] t from rfl]
    rw [bulkDocs_eq_foldl_upsert _ _ _ hks (docs, n), foldl_upsert_twice]
  · intro hd
    subst hd
    rw [bulkDocs_eq_foldl_upsert _ _ _ hks ([], n)]
    simp [upsertByKey]

theorem ofInt_isNaN (z : Int) : (JSNum.ofInt z).isNaN = false :=
  ofUnits_isNaN _

/-- C18, the claim as stated fails in two ways, both by rounding.  With
Q = 9007199254740994 and D = 1, the first run stores 9007199254740992, the double
nearest to Q - D, and the second stores 9007199254740991, which is not
Q - 2*D = 9007199254740992.  With Q = 0.5 and D = 0.1, two runs store
0.30000000000000004, while Q - (D + D) is 0.3. -/
theorem C18_reingestion_reconciles_again_counterexample :
    (largePending.data.pendingQuantity = JSNum.ofInt 9007199254740994 ∧
     (mapFields (exampleDispatch "1")).dispatchQuantity = JSNum.ofInt 1 ∧
     (processBatch noFaults (processBatch noFaults ⟨[], [largePending], 8, 0⟩
        [exampleDispatch "1"] "DISPATCHED").1 [exampleDispatch "1"]
        "DISPATCHED").1.pending.map (fun d => d.data.pendingQuantity) =
          [JSNum.ofInt 9007199254740991] ∧
     JSNum.ofInt 9007199254740991 ≠ JSNum.ofInt (9007199254740994 - 2 * 1)) ∧
    (halfPending.data.pendingQuantity = stringToNumber "0.5" ∧
     (mapFields (exampleDispatch "0.1")).dispatchQuantity = stringToNumber "0.1" ∧
     (processBatch noFaults (processBatch noFaults ⟨[], [halfPending], 8, 0⟩
        [exampleDispatch "0.1"] "DISPATCHED").1 [exampleDispatch "0.1"]
        "DISPATCHED").1.pending.map (fun d => d.data.pendingQuantity) =
          [stringToNumber "0.30000000000000004"] ∧
     (stringToNumber "0.5").sub ((stringToNumber "0.1").add (stringToNumber "0.1")) =
        stringToNumber "0.3" ∧
     stringToNumber "0.30000000000000004" ≠ stringToNumber "0.3") := by
  refine ⟨⟨?_, ?_, ?_, ?_⟩, ?_, ?_, ?_, ?_, ?_⟩ <;> decide

/-- C18, amended.  With one matching Pending record whose `pendingQuantity` is
`Q` and a row that maps to `dispatchQuantity = D`, running `processBatch` on the
one-row DISPATCHED batch twice leaves `Order` as one run leaves it (one record
when it was empty before).  When `D < Q` and `D < Q - D`, differences being the
doubles that JavaScript computes, one run leaves the Pending record with `Q - D`
and two runs leave it with `(Q - D) - D`.  For integers with `0 < D`, `2 * D < Q`
and `Q ≤ 2^53` both conditions hold and the two values are the exact `Q - D` and
`Q - 2 * D`. -/
theorem C18_reingestion_reconciles_again (db : DB) (row : Row) (pre post : List Doc)
    (d : Doc) (Q D : JSNum)
    (hpending : db.pending = pre ++ d :: post)
    (hids : (db.pending.map Doc.id).Nodup)
    (hmatch : d.data.poNumber = (mapFields row).poNumber ∧
      d.data.productCode = (mapFields row).productCode ∧
      d.data.size = (mapFields row).size)
    (hothers : ∀ e ∈ pre ++ post, ¬ (e.data.poNumber = (mapFields row).poNumber ∧
      e.data.productCode = (mapFields row).productCode ∧
      e.data.size = (mapFields row).size))
    (hQ : d.data.pendingQuantity = Q)
    (hD : (mapFields row).dispatchQuantity = D) :
    (processBatch noFaults (processBatch noFaults db [row] "DISPATCHED").1 [row]
        "DISPATCHED").1.orders = (processBatch noFaults db [row] "DISPATCHED").1.orders ∧
    (db.orders = [] →
      (processBatch noFaults (processBatch noFaults db [row] "DISPATCHED").1 [row]
        "DISPATCHED").1.orders.length = 1) ∧
    (D.lt Q = true → D.lt (Q.sub D) = true →
      (processBatch noFaults db [row] "DISPATCHED").1.pending =
          pre ++ d.setPendingQuantity (Q.sub D) :: post ∧
      (d.setPendingQuantity (Q.sub D)).data.pendingQuantity = Q.sub D ∧
      (processBatch noFaults (processBatch noFaults db [row] "DISPATCHED").1 [row]
          "DISPATCHED").1.pending =
          pre ++ d.setPendingQuantity ((Q.sub D).sub D) :: post ∧
      (d.setPendingQuantity ((Q.sub D).sub D)).data.pendingQuantity = (Q.sub D).sub D) ∧
    (∀ q e : Int, 0 < e → 2 * e < q → q ≤ 2 ^ 53 → Q = JSNum.ofInt q → D = JSNum.ofInt e →
      D.lt Q = true ∧ D.lt (Q.sub D) = true ∧
      Q.sub D = JSNum.ofInt (q - e) ∧ (Q.sub D).sub D = JSNum.ofInt (q - 2 * e)) := by
  obtain ⟨_, ho1, hn1, _, _⟩ := processBatch_dispatched_noFaults db [row] (by simp)
  obtain ⟨_, ho2, _, _, _⟩ := processBatch_dispatched_noFaults
    (processBatch noFaults db [row] "DISPATCHED").1 [row] (by simp)
  obtain ⟨htwice, hone⟩ := bulkDocs_single_twice db.orders db.nextId row "DISPATCHED"
  refine ⟨?_, ?_, ?_, ?_⟩
  · rw [ho2, ho1, hn1]
    exact htwice
  · intro hempty
    rw [ho2, ho1, hn1, htwice]
    exact hone hempty
  · intro hlt1 hlt2
    obtain ⟨hpend1, hdata1, _⟩ := (processBatch_single_match db row pre post d Q D
      hpending hids hmatch hothers hQ hD).1 hlt1
    have hnan1 : (Q.sub D).isNaN = false := (sub_pos_of_lt Q D hlt1).2
    have hnan2 : ((Q.sub D).sub D).isNaN = false := (sub_pos_of_lt (Q.sub D) D hlt2).2
    have hids1 :
        ((processBatch noFaults db [row] "DISPATCHED").1.pending.map Doc.id).Nodup := by
      rw [hpend1]
      have := hpending ▸ hids
      simpa [setPendingQuantity_id] using this
    have hmatch1 : (d.setPendingQuantity (Q.sub D)).data.poNumber = (mapFields row).poNumber ∧
        (d.setPendingQuantity (Q.sub D)).data.productCode = (mapFields row).productCode ∧
        (d.setPendingQuantity (Q.sub D)).data.size = (mapFields row).size := by
      rw [← matchesFilter_pendingMatch, matchesFilter_setPendingQuantity,
        matchesFilter_pendingMatch]
      exact hmatch
    have hrun2 := (processBatch_single_match (processBatch noFaults db [row] "DISPATCHED").1
      row pre post (d.setPendingQuantity (Q.sub D)) (Q.sub D) D
      hpend1 hids1 hmatch1 hothers hdata1 hD).1 hlt2
    rw [setPendingQuantity_twice _ _ hnan2] at hrun2
    exact ⟨hpend1, hdata1, hrun2.1, setPendingQuantity_data _ hnan2 d⟩
  · intro q e hpos hlt hsafe hQq hDe
    have hQabs : q.natAbs ≤ 2 ^ 53 := by omega
    have hDabs : e.natAbs ≤ 2 ^ 53 := by omega
    have hQDabs : (q - e).natAbs ≤ 2 ^ 53 := by omega
    have hsub1 : (JSNum.ofInt q).sub (JSNum.ofInt e) = JSNum.ofInt (q - e) :=
      sub_ofInt q e hQabs hDabs
    have hsub2 : (JSNum.ofInt (q - e)).sub (JSNum.ofInt e) = JSNum.ofInt (q - 2 * e) := by
      rw [sub_ofInt (q - e) e hQDabs hDabs]
      congr 1
      omega
    rw [hQq, hDe, hsub1, hsub2]
    refine ⟨?_, ?_, rfl, rfl⟩
    · rw [lt_ofInt e q hDabs hQabs]
      simp only [decide_eq_true_eq]
      omega
    · rw [lt_ofInt e (q - e) hDabs hQDabs]
      simp only [decide_eq_true_eq]
      omega

/-- C18, amended, at Q = 100 and D = 40: one run leaves 60, two runs leave 20,
and the `Order` collection holds one record after both. -/
theorem C18_reingestion_reconciles_again_witness :
    ((processBatch noFaults (processBatch noFaults ⟨[], [examplePending], 8, 0⟩
        [exampleDispatch "40"] "DISPATCHED").1 [exampleDispatch "40"]
        "DISPATCHED").1.orders.length = 1) ∧
    ((processBatch noFaults ⟨[], [examplePending], 8, 0⟩ [exampleDispatch "40"]
        "DISPATCHED").1.pending =
          [examplePending.setPendingQuantity ((JSNum.ofInt 100).sub (JSNum.ofInt 40))] ∧
     (examplePending.setPendingQuantity
        ((JSNum.ofInt 100).sub (JSNum.ofInt 40))).data.pendingQuantity =
          (JSNum.ofInt 100).sub (JSNum.ofInt 40) ∧
     (processBatch noFaults (processBatch noFaults ⟨[], [examplePending], 8, 0⟩
        [exampleDispatch "40"] "DISPATCHED").1 [exampleDispatch "40"]
        "DISPATCHED").1.pending =
          [examplePending.setPendingQuantity
            (((JSNum.ofInt 100).sub (JSNum.ofInt 40)).sub (JSNum.ofInt 40))] ∧
     (examplePending.setPendingQuantity
        (((JSNum.ofInt 100).sub (JSNum.ofInt 40)).sub (JSNum.ofInt 40))).data.pendingQuantity =
          ((JSNum.ofInt 100).sub (JSNum.ofInt 40)).sub (JSNum.ofInt 40)) ∧
    ((JSNum.ofInt 40).lt (JSNum.ofInt 100) = true ∧
     (JSNum.ofInt 40).lt ((JSNum.ofInt 100).sub (JSNum.ofInt 40)) = true ∧
     (JSNum.ofInt 100).sub (JSNum.ofInt 40) = JSNum.ofInt (100 - 40) ∧
     ((JSNum.ofInt 100).sub (JSNum.ofInt 40)).sub (JSNum.ofInt 40) =
       JSNum.ofInt (100 - 2 * 40)) :=
  ⟨(C18_reingestion_reconciles_again ⟨[], [examplePending], 8, 0⟩ (exampleDispatch "40") [] []
      examplePending (JSNum.ofInt 100) (JSNum.ofInt 40) rfl (by decide) (by decide) (by simp)
      (by decide) (by decide)).2.1 rfl,
   (C18_reingestion_reconciles_again ⟨[], [examplePending], 8, 0⟩ (exampleDispatch "40") [] []
      examplePending (JSNum.ofInt 100) (JSNum.ofInt 40) rfl (by decide) (by decide) (by simp)
      (by decide) (by decide)).2.2.1 (by decide) (by decide),
   (C18_reingestion_reconciles_again ⟨[], [examplePending], 8, 0⟩ (exampleDispatch "40") [] []
      examplePending (JSNum.ofInt 100) (JSNum.ofInt 40) rfl (by decide) (by decide) (by simp)
      (by decide) (by decide)).2.2.2 100 40 (by decide) (by decide) (by decide) rfl rfl⟩

/-! ## C15: the buffer of the streaming loop -/

/-- One event keeps the buffer within `batchSize` rows, and below it while the
stream is flowing. -/
theorem loopStep_bound (batchSize : Nat) (hB : 0 < batchSize) (F : Faults) (t : String)
    (s : LoopState) (e : LoopEvent)
    (h1 : s.vars.batch.length ≤ batchSize)
    (h2 : s.flowing = true → s.vars.batch.length < batchSize) :
    (loopStep batchSize F t s e).vars.batch.length ≤ batchSize ∧
    ((loopStep batchSize F t s e).flowing = true →
      (loopStep batchSize F t s e).vars.batch.length < batchSize) := by
  cases e with
  | deliver =>
    unfold loopStep
    cases hsrc : s.source with
    | nil => exact ⟨h1, h2⟩
    | cons row rest =>
      simp only
      by_cases hflow : (s.flowing && !s.destroyed) = true
      · rw [if_pos hflow]
        have hf : s.flowing = true := by
          simp only [Bool.and_eq_true] at hflow
          exact hflow.1
        have hlt := h2 hf
        have hlen : (s.vars.batch ++ [cleanRow row]).length = s.vars.batch.length + 1 := by simp
        by_cases hfull : (s.vars.batch ++ [cleanRow row]).length ≥ batchSize
        · rw [if_pos hfull]
          refine ⟨?_, ?_⟩
          · show (s.vars.batch ++ [cleanRow row]).length ≤ batchSize
            omega
          · intro h
            cases h
        · rw [if_neg hfull]
          refine ⟨?_, ?_⟩
          · show (s.vars.batch ++ [cleanRow row]).length ≤ batchSize
            omega
          · intro _
            show (s.vars.batch ++ [cleanRow row]).length < batchSize
            omega
      · rw [if_neg hflow]
        exact ⟨h1, h2⟩
  | settle =>
    unfold loopStep
    cases hw : s.awaiting with
    | nil => exact ⟨h1, h2⟩
    | cons w waiting =>
      cases w with
      | data result =>
        cases result with
        | ok r =>
          refine ⟨?_, ?_⟩
          · show ([] : List Row).length ≤ batchSize
            simp
          · intro _
            show ([] : List Row).length < batchSize
            simpa using hB
        | error err =>
          refine ⟨h1, ?_⟩
          intro h
          cases h
      | atEnd result =>
        cases result with
        | ok r => exact ⟨h1, h2⟩
        | error err => exact ⟨h1, h2⟩
  | finish =>
    unfold loopStep
    simp only
    by_cases hend : (s.flowing && !s.destroyed && !s.ended && s.source.isEmpty) = true
    · rw [if_pos hend]
      by_cases hrest : s.vars.batch.length > 0
      · rw [if_pos hrest]
        exact ⟨h1, h2⟩
      · rw [if_neg hrest]
        exact ⟨h1, h2⟩
    · rw [if_neg hend]
      exact ⟨h1, h2⟩

theorem loopRun_bound (batchSize : Nat) (hB : 0 < batchSize) (F : Faults) (t : String)
    (events : List LoopEvent) :
    ∀ s : LoopState, s.vars.batch.length ≤ batchSize →
      (s.flowing = true → s.vars.batch.length < batchSize) →
      (loopRun batchSize F t s events).vars.batch.length ≤ batchSize ∧
      ((loopRun batchSize F t s events).flowing = true →
        (loopRun batchSize F t s events).vars.batch.length < batchSize) := by
  induction events with
  | nil => intro s h1 h2; exact ⟨h1, h2⟩
  | cons e events ih =>
    intro s h1 h2
    obtain ⟨h1', h2'⟩ := loopStep_bound batchSize hB F t s e h1 h2
    exact ih _ h1' h2'

/-- A stream that is not flowing delivers no row. -/
theorem loopStep_deliver_paused (batchSize : Nat) (F : Faults) (t : String) (s : LoopState)
    (h : s.flowing = false) : loopStep batchSize F t s .deliver = s := by
  unfold loopStep
  cases s.source with
  | nil => rfl
  | cons row rest => simp [h]

/-- A flowing stream delivers its next row whether or not a handler is still
suspended: it is the `pause()` of the handler, which ends the flowing, that
keeps rows out of the buffer while a batch is processed. -/
theorem loopStep_deliver_flowing (batchSize : Nat) (F : Faults) (t : String) (s : LoopState)
    (row : Row) (rest : List Row) (hsrc : s.source = row :: rest)
    (hflow : s.flowing = true) (hlive : s.destroyed = false) :
    (loopStep batchSize F t s .deliver).vars.batch = s.vars.batch ++ [cleanRow row] := by
  unfold loopStep
  rw [hsrc]
  simp only [hflow, hlive, Bool.not_false, Bool.and_self, if_true]
  split <;> rfl

/-- C15.  For every CSV input, every batch size above 0, in particular
`BATCH_SIZE` = 2000, every tag, every pattern of rejected store calls and every
order in which the runtime runs the events of the streaming loop of
`uploadFile`, the buffer `batch` never holds more than the batch size of rows.
While the stream is flowing the buffer is below the batch size, and when the
buffer is full no row is delivered: a handler that fills the buffer pauses the
stream, and the stream is resumed only after the buffer has been emptied. -/
theorem C15_buffer_bound (batchSize : Nat) (hB : 0 < batchSize) (F : Faults)
    (statusType : String) (db : DB) (rows : List Row) (events : List LoopEvent) :
    (loopRun batchSize F statusType (loopStart db rows) events).vars.batch.length ≤ batchSize ∧
    ((loopRun batchSize F statusType (loopStart db rows) events).flowing = true →
      (loopRun batchSize F statusType (loopStart db rows) events).vars.batch.length <
        batchSize) ∧
    ((loopRun batchSize F statusType (loopStart db rows) events).vars.batch.length = batchSize →
      loopStep batchSize F statusType
        (loopRun batchSize F statusType (loopStart db rows) events) .deliver =
        loopRun batchSize F statusType (loopStart db rows) events) := by
  obtain ⟨h1, h2⟩ := loopRun_bound batchSize hB F statusType events (loopStart db rows)
    (by show 0 ≤ batchSize; omega) (fun _ => hB)
  refine ⟨h1, h2, ?_⟩
  intro hfull
  apply loopStep_deliver_paused
  cases hf : (loopRun batchSize F statusType (loopStart db rows) events).flowing with
  | false => rfl
  | true =>
    have := h2 hf
    omega

/-- C15 at `BATCH_SIZE`, and at a batch size of 2 with three rows.  After two
deliveries the buffer holds 2 rows and the stream is paused; a third delivery
does not happen while the batch is processed; once the call has settled the
buffer is empty and the stream flows, and the third row is delivered. -/
theorem C15_buffer_bound_witness :
    ((loopRun BATCH_SIZE noFaults "DISPATCHED" (loopStart ⟨[], [], 0, 0⟩ threeRows)
        [.deliver, .deliver, .deliver, .finish, .settle]).vars.batch.length ≤ BATCH_SIZE) ∧
    ((loopRun 2 noFaults "DISPATCHED" (loopStart ⟨[], [], 0, 0⟩ threeRows)
        [.deliver, .deliver]).vars.batch.length ≤ 2 ∧
     ((loopRun 2 noFaults "DISPATCHED" (loopStart ⟨[], [], 0, 0⟩ threeRows)
        [.deliver, .deliver]).vars.batch.length = 2 →
      loopStep 2 noFaults "DISPATCHED"
        (loopRun 2 noFaults "DISPATCHED" (loopStart ⟨[], [], 0, 0⟩ threeRows)
          [.deliver, .deliver]) .deliver =
        loopRun 2 noFaults "DISPATCHED" (loopStart ⟨[], [], 0, 0⟩ threeRows)
          [.deliver, .deliver])) ∧
    ((loopRun 2 noFaults "DISPATCHED" (loopStart ⟨[], [], 0, 0⟩ threeRows)
        [.deliver, .deliver]).vars.batch.length = 2 ∧
     (loopRun 2 noFaults "DISPATCHED" (loopStart ⟨[], [], 0, 0⟩ threeRows)
        [.deliver, .deliver]).flowing = false ∧
     (loopRun 2 noFaults "DISPATCHED" (loopStart ⟨[], [], 0, 0⟩ threeRows)
        [.deliver, .deliver, .deliver]).source.length = 1 ∧
     (loopRun 2 noFaults "DISPATCHED" (loopStart ⟨[], [], 0, 0⟩ threeRows)
        [.deliver, .deliver, .settle]).vars.batch.length = 0 ∧
     (loopRun 2 noFaults "DISPATCHED" (loopStart ⟨[], [], 0, 0⟩ threeRows)
        [.deliver, .deliver, .settle]).flowing = true ∧
     (loopRun 2 noFaults "DISPATCHED" (loopStart ⟨[], [], 0, 0⟩ threeRows)
        [.deliver, .deliver, .settle, .deliver]).vars.batch.length = 1) :=
  ⟨(C15_buffer_bound BATCH_SIZE (by decide) noFaults "DISPATCHED" ⟨[], [], 0, 0⟩ threeRows
      [.deliver, .deliver, .deliver, .finish, .settle]).1,
   ⟨(C15_buffer_bound 2 (by decide) noFaults "DISPATCHED" ⟨[], [], 0, 0⟩ threeRows
      [.deliver, .deliver]).1,
    (C15_buffer_bound 2 (by decide) noFaults "DISPATCHED" ⟨[], [], 0, 0⟩ threeRows
      [.deliver, .deliver]).2.2⟩,
   by decide, by decide, by decide, by decide, by decide, by decide⟩

/-! ## The streaming loop and `processStream`

The function `processStream` is the streaming loop under the schedule in which
every suspended handler goes on before the next event of the stream. -/

theorem loopRun_append (batchSize : Nat) (F : Faults) (t : String) (s : LoopState)
    (es fs : List LoopEvent) :
    loopRun batchSize F t s (es ++ fs) = loopRun batchSize F t (loopRun batchSize F t s es) fs :=
  List.foldl_append _ _ _ _

/-- For every file there is a run of the streaming loop, from a flowing stream
with no suspended handler, that settles the promise with the result of
`processStream` and leaves the variables as `processStream` leaves them. -/
theorem processStream_eq_loopRun (batchSize : Nat) (F : Faults) (t : String)
    (rows : List Row) :
    ∀ vars : StreamState, ∃ events,
      (loopRun batchSize F t ⟨vars, rows, true, false, false, [], none⟩ events).vars =
        (processStream batchSize F t vars rows).1 ∧
      (loopRun batchSize F t ⟨vars, rows, true, false, false, [], none⟩ events).promise =
        some (processStream batchSize F t vars rows).2 ∧
      (loopRun batchSize F t ⟨vars, rows, true, false, false, [], none⟩ events).awaiting = [] := by
  induction rows with
  | nil =>
    intro vars
    by_cases hrest : vars.batch.length > 0
    · refine ⟨[.finish, .settle], ?_⟩
      rcases hcall : processBatch F vars.db vars.batch t with ⟨db1, res⟩
      cases res with
      | error e =>
        simp [loopRun, loopStep, processStream, onEnd, hrest, hcall, settlePromise]
      | ok result =>
        simp [loopRun, loopStep, processStream, onEnd, hrest, hcall, settlePromise]
    · refine ⟨[.finish], ?_⟩
      simp [loopRun, loopStep, processStream, onEnd, hrest, settlePromise]
  | cons row rest ih =>
    intro vars
    by_cases hfull : (vars.batch ++ [cleanRow row]).length ≥ batchSize
    · have hfull' : batchSize ≤ vars.batch.length + 1 := by simpa using hfull
      rcases hcall : processBatch F vars.db (vars.batch ++ [cleanRow row]) t with ⟨db1, res⟩
      cases res with
      | error e =>
        refine ⟨[.deliver, .settle], ?_⟩
        simp [loopRun, loopStep, processStream, onData, hfull, hfull', hcall, settlePromise]
      | ok result =>
        obtain ⟨events, h1, h2, h3⟩ := ih
          { db := db1
            batch := []
            totalInserted := vars.totalInserted.add (toNumber result.inserted)
            totalReconciled := vars.totalReconciled.add (toNumber result.reconciled)
            batches := vars.batches ++ [vars.batch ++ [cleanRow row]] }
        refine ⟨[.deliver, .settle] ++ events, ?_⟩
        rw [loopRun_append]
        have hstep : loopRun batchSize F t ⟨vars, row :: rest, true, false, false, [], none⟩
            [.deliver, .settle] =
            ⟨{ db := db1
               batch := []
               totalInserted := vars.totalInserted.add (toNumber result.inserted)
               totalReconciled := vars.totalReconciled.add (toNumber result.reconciled)
               batches := vars.batches ++ [vars.batch ++ [cleanRow row]] },
             rest, true, false, false, [], none⟩ := by
          simp [loopRun, loopStep, hfull, hfull', hcall]
        have hps : processStream batchSize F t vars (row :: rest) =
            processStream batchSize F t
              { db := db1
                batch := []
                totalInserted := vars.totalInserted.add (toNumber result.inserted)
                totalReconciled := vars.totalReconciled.add (toNumber result.reconciled)
                batches := vars.batches ++ [vars.batch ++ [cleanRow row]] } rest := by
          simp [processStream, onData, hfull, hfull', hcall]
        rw [hstep, hps]
        exact ⟨h1, h2, h3⟩
    · have hfull' : ¬ batchSize ≤ vars.batch.length + 1 := by simpa using hfull
      obtain ⟨events, h1, h2, h3⟩ := ih { vars with batch := vars.batch ++ [cleanRow row] }
      refine ⟨.deliver :: events, ?_⟩
      have hstep : loopRun batchSize F t ⟨vars, row :: rest, true, false, false, [], none⟩
          (.deliver :: events) =
          loopRun batchSize F t
            ⟨{ vars with batch := vars.batch ++ [cleanRow row] }, rest, true, false, false, [],
              none⟩ events := by
        simp [loopRun, loopStep, hfull, hfull']
      have hps : processStream batchSize F t vars (row :: rest) =
          processStream batchSize F t { vars with batch := vars.batch ++ [cleanRow row] }
            rest := by
        simp [processStream, onData, hfull, hfull']
      rw [hstep, hps]
      exact ⟨h1, h2, h3⟩


/-! ## C11: the order of the rows of a batch -/

section UpsertOrder

variable {κ : Type} [DecidableEq κ] (K : Mapped → κ)

theorem updateByKey_append_other (docs : List Doc) (new : Doc) (m : Mapped)
    (h : K new.data ≠ K m) :
    updateByKey K (docs ++ [new]) m = updateByKey K docs m ++ [new] := by
  unfold updateByKey
  induction docs with
  | nil => simp [modifyFirst, h]
  | cons d ds ih =>
    by_cases hd : K d.data = K m
    · simp [modifyFirst, hd]
    · simp only [List.cons_append, modifyFirst, hd, decide_False, Bool.false_eq_true, if_false]
      exact congrArg (fun l => d :: l) ih

theorem foldl_updateByKey_append_other (new : Doc) (ms : List Mapped) :
    ∀ docs : List Doc, (∀ m ∈ ms, K new.data ≠ K m) →
      ms.foldl (updateByKey K) (docs ++ [new]) = ms.foldl (updateByKey K) docs ++ [new] := by
  induction ms with
  | nil => intro docs _; rfl
  | cons a ms ih =>
    intro docs h
    rw [List.foldl_cons, List.foldl_cons,
      updateByKey_append_other K docs new a (h a (List.mem_cons_self _ _))]
    exact ih _ (fun m hm => h m (List.mem_cons_of_mem _ hm))

theorem updateByKey_absent (docs : List Doc) (m : Mapped)
    (h : docs.any (fun d => decide (K d.data = K m)) = false) :
    updateByKey K docs m = docs := by
  unfold updateByKey
  induction docs with
  | nil => rfl
  | cons d ds ih =>
    simp only [List.any_cons, Bool.or_eq_false_iff, decide_eq_false_iff_not] at h
    simp only [modifyFirst, h.1, decide_False, Bool.false_eq_true, if_false]
    rw [ih h.2]

theorem any_updateByKey (docs : List Doc) (a : Mapped) (k : κ) :
    (updateByKey K docs a).any (fun d => decide (K d.data = k)) =
      docs.any (fun d => decide (K d.data = k)) := by
  rw [Bool.eq_iff_iff, any_eq_true_iff_firstData, any_eq_true_iff_firstData]
  exact firstData_updateByKey_isSome K docs a k

/-- Upserts of records with pairwise different keys: the documents present
before are updated in place, and the records whose key was absent are appended
in the order of the batch. -/
theorem foldl_upsert_distinct (ms : List Mapped) :
    ∀ (docs : List Doc) (n : Nat), (ms.map K).Nodup →
      (ms.foldl (upsertByKey K) (docs, n)).1.map Doc.data =
        (ms.foldl (updateByKey K) docs).map Doc.data ++
          ms.filter (fun m => !docs.any (fun d => decide (K d.data = K m))) := by
  induction ms with
  | nil => intro docs n _; simp
  | cons a ms ih =>
    intro docs n hnd
    rw [List.map_cons, List.nodup_cons] at hnd
    obtain ⟨ha, hnd'⟩ := hnd
    have hne : ∀ m ∈ ms, K a ≠ K m := by
      intro m hm heq
      exact ha (heq ▸ List.mem_map_of_mem K hm)
    rw [List.foldl_cons, List.foldl_cons]
    by_cases hany : docs.any (fun d => decide (K d.data = K a)) = true
    · have hstep : upsertByKey K (docs, n) a = (updateByKey K docs a, n) := by
        unfold upsertByKey
        rw [if_pos hany]
      rw [hstep, ih _ n hnd', List.filter_cons]
      simp only [hany, Bool.not_true, Bool.false_eq_true, if_false, any_updateByKey]
    · have hany' : docs.any (fun d => decide (K d.data = K a)) = false := by
        simpa using hany
      have hstep : upsertByKey K (docs, n) a = (docs ++ [{ id := n, data := a }], n + 1) := by
        unfold upsertByKey
        rw [if_neg hany]
      rw [hstep, ih _ (n + 1) hnd', List.filter_cons, updateByKey_absent K docs a hany']
      rw [foldl_updateByKey_append_other K { id := n, data := a } ms docs hne]
      simp only [hany', Bool.not_false, if_true, List.map_append, List.map_cons, List.map_nil,
        List.append_assoc, List.singleton_append]
      congr 2
      apply List.filter_congr
      intro m hm
      have : ¬ K a = K m := hne m hm
      simp [List.any_append, this]

theorem foldl_updateByKey_perm (ms ms' : List Mapped) (hperm : ms.Perm ms')
    (hnd : (ms.map K).Nodup) (docs : List Doc) :
    ms.foldl (updateByKey K) docs = ms'.foldl (updateByKey K) docs := by
  apply hperm.foldl_eq'
  intro x hx y hy z
  by_cases hxy : K x = K y
  · have : x = y := List.inj_on_of_nodup_map hnd hx hy hxy
    rw [this]
  · exact updateByKey_comm K z x y hxy

/-- Upserts of records with pairwise different keys leave the same records,
whatever the order of the batch. -/
theorem foldl_upsert_perm (ms ms' : List Mapped) (hperm : ms.Perm ms')
    (hnd : (ms.map K).Nodup) (docs : List Doc) (n : Nat) :
    ((ms.foldl (upsertByKey K) (docs, n)).1.map Doc.data).Perm
      ((ms'.foldl (upsertByKey K) (docs, n)).1.map Doc.data) := by
  have hnd' : (ms'.map K).Nodup := (hperm.map K).nodup_iff.mp hnd
  rw [foldl_upsert_distinct K ms docs n hnd, foldl_upsert_distinct K ms' docs n hnd',
    foldl_updateByKey_perm K ms ms' hperm hnd docs]
  exact List.Perm.append_left _ (hperm.filter _)

end UpsertOrder

theorem keyOn_eq_imp_filter_eq (m m' : Mapped) (t : String) (ks : List KeyField)
    (h1 : filterFields (getUniqueFilter m t) = ks)
    (h2 : filterFields (getUniqueFilter m' t) = ks)
    (hk : Mapped.keyOn ks m = Mapped.keyOn ks m') :
    getUniqueFilter m t = getUniqueFilter m' t := by
  rw [getUniqueFilter_eq_map m t, getUniqueFilter_eq_map m' t, h1, h2]
  unfold Mapped.keyOn at hk
  apply List.map_congr_left
  intro k hk'
  have := List.map_inj_left.mp hk k hk'
  rw [this]

/-- C11, the claim as stated fails.  Two rows with the same natural key and
different quantities: the row that comes last is the one stored, so the batch
leaves `pendingQuantity` 80 and its reversal leaves 100. -/
theorem C11_row_order_counterexample :
    sameKeyBatch.reverse.Perm sameKeyBatch ∧
    (processBatch noFaults ⟨[], [], 0, 0⟩ sameKeyBatch "PENDING").1.pending.map
      (fun d => d.data.pendingQuantity) = [JSNum.ofInt 80] ∧
    (processBatch noFaults ⟨[], [], 0, 0⟩ sameKeyBatch.reverse "PENDING").1.pending.map
      (fun d => d.data.pendingQuantity) = [JSNum.ofInt 100] := by
  refine ⟨List.reverse_perm _, ?_, ?_⟩ <;> decide

/-- C11, amended.  For every ledger tag, every initial ledger state and every
batch whose rows give filters on the same fields and pairwise different filters,
running `processBatch` on a permutation of the rows leaves the target collection
with the same records with the same field values as running it on the rows in
their original order; newly inserted records may be stored in another order. -/
theorem C11_row_order_distinct_keys (db : DB) (rows rows' : List Row) (statusType : String)
    (hperm : rows'.Perm rows)
    (huniform : ∀ r ∈ rows, ∀ r' ∈ rows,
      filterFields (getUniqueFilter (canonical r statusType) statusType) =
        filterFields (getUniqueFilter (canonical r' statusType) statusType))
    (hdistinct : (rows.map
      (fun r => getUniqueFilter (canonical r statusType) statusType)).Nodup) :
    (((processBatch noFaults db rows' statusType).1.docs (targetOf statusType)).map
        Doc.data).Perm
      (((processBatch noFaults db rows statusType).1.docs (targetOf statusType)).map
        Doc.data) := by
  cases rows with
  | nil =>
    have : rows' = [] := hperm.eq_nil
    subst this
    exact List.Perm.refl _
  | cons r0 rest =>
    have hne : r0 :: rest ≠ [] := by simp
    have hne' : rows' ≠ [] := by
      intro h
      rw [h] at hperm
      exact hne hperm.symm.eq_nil
    have hks : ∀ r ∈ r0 :: rest,
        filterFields (getUniqueFilter (canonical r statusType) statusType) =
          filterFields (getUniqueFilter (canonical r0 statusType) statusType) :=
      fun r hr => huniform r hr r0 (List.mem_cons_self _ _)
    have hks' : ∀ r ∈ rows',
        filterFields (getUniqueFilter (canonical r statusType) statusType) =
          filterFields (getUniqueFilter (canonical r0 statusType) statusType) :=
      fun r hr => hks r (hperm.subset hr)
    have hnd : (((r0 :: rest).map (fun r => canonical r statusType)).map
        (Mapped.keyOn (filterFields (getUniqueFilter (canonical r0 statusType)
          statusType)))).Nodup := by
      rw [List.map_map]
      rw [List.Nodup, List.pairwise_map] at hdistinct ⊢
      refine hdistinct.imp_of_mem ?_
      intro a b ha hb hab heq
      exact hab (keyOn_eq_imp_filter_eq _ _ statusType _ (hks a ha) (hks b hb) heq)
    rw [(processBatch_target_noFaults db rows' statusType hne').1,
      (processBatch_target_noFaults db (r0 :: rest) statusType hne).1]
    rw [bulkDocs_eq_foldl_upsert rows' statusType _ hks' (db.docs (targetOf statusType), db.nextId),
      bulkDocs_eq_foldl_upsert (r0 :: rest) statusType _ hks
        (db.docs (targetOf statusType), db.nextId)]
    exact (foldl_upsert_perm _ _ _ ((hperm.map _).symm) hnd _ _).symm

/-- C11, amended, at two dispatch rows of one order with different line item
numbers, and their reversal. -/
theorem C11_row_order_distinct_keys_witness :
    (((processBatch noFaults ⟨[], [], 0, 0⟩ uniformBatch.reverse "DISPATCHED").1.docs
        (targetOf "DISPATCHED")).map Doc.data).Perm
      (((processBatch noFaults ⟨[], [], 0, 0⟩ uniformBatch "DISPATCHED").1.docs
        (targetOf "DISPATCHED")).map Doc.data) :=
  C11_row_order_distinct_keys ⟨[], [], 0, 0⟩ uniformBatch uniformBatch.reverse "DISPATCHED"
    (List.reverse_perm _) (by decide) (by decide)


end TrackDashboard
